import Mathlib

/-!
# Opentify: the desktop audio player (`internal/player/player_desktop.go`)

A shallow embedding of the `Player` type and its methods, followed by theorems
about the volume mapping, the load path and the transport operations.

Modelling conventions.

* A `float64` value is the rational it denotes (`ℚ`).  Where the source converts
  a float to an integer (the seek targets, `Duration`, `Position`), every float64
  operation and every conversion `float64(n)` is the exact operation followed by
  `f64`, rounding to the nearest value with 53 significant bits, ties to even; the
  exponent range is not bounded, so there are no infinities and no subnormals
  (with 64-bit operands the source reaches neither).  A conversion `int(x)` of a
  float truncates toward zero (`goInt`).  The gain exponent `volDB`, which stays a
  float, is computed exactly.
* Go `int`, `beep.SampleRate` and `time.Duration` are unbounded integers; a
  `time.Duration` counts nanoseconds.
* An `error` is identified with its message; `nil` is `none`.
* The objects the player points to (decoder stream, resampler, gain stage,
  control) are records that carry an allocation stamp `id`; a pointer to one of
  them held by another object is that stamp.  Every write the source makes to such
  an object goes through the field of `Player` that holds it.
* The file system, the four codecs and the decoder stream's `Seek` are outside
  the repository; they are the fields of `Env`.
* The calls the player makes on the mutex, the speaker, the file system and the
  decoder stream are recorded, in program order, in `World.trace`; the streamers
  handed to `speaker.Play` since the last `speaker.Clear` are `World.mixer`.
-/

namespace Opentify

/-! ## Data model -/

/-- Go `error` values, identified with their message. -/
abbrev GoError := String

/-- The value `errors.New(msg)`. -/
def errorsNew (msg : String) : GoError := msg

/-- The record `beep.Format`. -/
structure Format where
  SampleRate : Int
  NumChannels : Int
  Precision : Int
  deriving DecidableEq, Repr

/-- An open file handle, as returned by `os.Open`. -/
structure File where
  fd : Nat
  deriving DecidableEq, Repr

/-- What a codec's `Decode` reports about the stream it has built: `Len()` and
the initial `Position()`. -/
structure StreamInit where
  len : Int
  pos : Int
  deriving DecidableEq, Repr

/-- A `beep.StreamSeekCloser` produced by a codec: `len` is `Len()`, `pos` is
`Position()`. -/
structure Stream where
  id : Nat
  len : Int
  pos : Int
  deriving DecidableEq, Repr

/-- The value built by `beep.Resample(quality, old, new, s)`; `src` is the stamp of
the stream `s` it reads from. -/
structure Resampler where
  id : Nat
  quality : Int
  old : Int
  new : Int
  src : Nat
  deriving DecidableEq, Repr

/-- The record `effects.Volume`; `Streamer` is the stamp of the wrapped resampler. -/
structure EffectsVolume where
  id : Nat
  Streamer : Nat
  Base : ℚ
  Volume : ℚ
  deriving DecidableEq

/-- The record `beep.Ctrl`; `Streamer` is the stamp of the gain stage it streams
from. -/
structure Ctrl where
  id : Nat
  Streamer : Nat
  Paused : Bool
  deriving DecidableEq, Repr

/-- The struct `Player`, without its mutex (see `Event.muLock`). -/
structure Player where
  stream : Option Stream
  play : Option Resampler
  vol : Option EffectsVolume
  volNorm : ℚ
  ctrl : Option Ctrl
  sr : Int
  started : Bool
  current : String
  deriving DecidableEq

/-- The four codec packages. -/
inductive Codec where
  | mp3
  | wav
  | flac
  | vorbis
  deriving DecidableEq, Repr

/-- Calls that leave the player, in the order the source makes them. -/
inductive Event where
  | muLock
  | muUnlock
  | speakerLock
  | speakerUnlock
  | speakerInit
  | speakerClear
  | speakerPlay (ctrl : Nat)
  | ctrlPaused (ctrl : Nat) (b : Bool)
  | ctrlStreamer (ctrl : Nat) (vol : Nat)
  | volWrite (vol : Nat)
  | osOpen (path : String)
  | fileClose (path : String)
  | decode (codec : Codec) (path : String)
  | streamClose (stream : Nat)
  | streamSeek (stream : Nat) (target : Int)
  | resample (id : Nat) (src : Nat)
  | newVolume (id : Nat) (src : Nat)
  | newCtrl (id : Nat) (src : Nat)
  deriving DecidableEq

/-- The world outside the repository: `os.Open`, the four `Decode` functions and
the decoder stream's `Seek` (`none` when the seek is accepted). -/
structure Env where
  osOpen : String → Except GoError File
  mp3Decode : File → Except GoError (StreamInit × Format)
  wavDecode : File → Except GoError (StreamInit × Format)
  flacDecode : File → Except GoError (StreamInit × Format)
  vorbisDecode : File → Except GoError (StreamInit × Format)
  seek : Stream → Int → Option GoError

/-- The player together with the package-level state it touches. -/
structure World where
  p : Player
  mixer : List Nat
  speakerOnce : Bool
  nextId : Nat
  trace : List Event
  deriving DecidableEq

/-- Append one event to the trace. -/
def World.log (w : World) (e : Event) : World :=
  { w with trace := w.trace ++ [e] }

/-- Append several events to the trace, in order. -/
def World.logs (w : World) (es : List Event) : World :=
  { w with trace := w.trace ++ es }

/-- The fixed speaker sample rate `speakerSR`. -/
def speakerSR : Int := 44100

/-! ## Library functions the source calls -/

/-- Conversion `int(x)` of a float: truncation toward zero. -/
def goInt (x : ℚ) : Int := Int.tdiv x.num (x.den : Int)

/-- Rounding of a rational to the nearest integer, a tie going to the even one. -/
def roundEven (q : ℚ) : Int :=
  if q - ⌊q⌋ < 1 / 2 then ⌊q⌋
  else if 1 / 2 < q - ⌊q⌋ then ⌊q⌋ + 1
  else if ⌊q⌋ % 2 = 0 then ⌊q⌋ else ⌊q⌋ + 1

/-- The float64 nearest to a rational: with 2^e <= |x| < 2^(e+1), the multiple of
2^(e-52) nearest to x, a tie going to the even multiple.  It is the result of the
conversion `float64(n)` of an integer n and, applied to the exact result, of
every float64 operation. -/
def f64 (x : ℚ) : ℚ :=
  (roundEven (x / 2 ^ (Int.log 2 |x| - 52)) : ℚ) * 2 ^ (Int.log 2 |x| - 52)

/-- The scan of `filepath.Ext` over the reversed path: stop at a path separator,
return the suffix starting at the first dot met. -/
def extScan : List Char → List Char → List Char
  | [], _ => []
  | c :: rest, acc =>
    if c = '/' then []
    else if c = '.' then '.' :: acc
    else extScan rest (c :: acc)

/-- The function `filepath.Ext`: the suffix beginning at the final dot of the last
path element, empty if there is none. -/
def filepathExt (path : String) : String :=
  String.mk (extScan path.data.reverse [])

/-- The function `strings.ToLower`, on the ASCII letters. -/
def stringsToLower (s : String) : String :=
  String.mk (s.data.map Char.toLower)

/-- The method `Seek` of the decoder stream: on error the position is unchanged. -/
def Stream.Seek (env : Env) (s : Stream) (p : Int) : Stream × Option GoError :=
  match env.seek s p with
  | some err => (s, some err)
  | none => ({ s with pos := p }, none)

/-! ## The player -/

/-- The constructor `New`: `&Player{volNorm: 1}`. -/
def New : Player :=
  { stream := none, play := none, vol := none, volNorm := 1, ctrl := none,
    sr := 0, started := false, current := "" }

/-- The world of a freshly constructed player. -/
def World.init : World :=
  { p := New, mixer := [], speakerOnce := false, nextId := 0, trace := [] }

/-- The method `volDB`: maps the normalized volume to the range `[-4, 0]`. -/
def volDB (p : Player) : ℚ :=
  let v := p.volNorm
  let v := if v < 0 then 0 else v
  let v := if v > 1 then 1 else v;
  -4 + 4 * v

/-- The method `SetVolume`. -/
def SetVolume (w : World) (norm : ℚ) : World :=
  let w := w.log .muLock
  let p := { w.p with volNorm := norm }
  let w := { w with p := p }
  let w :=
    (match p.vol with
    | some v =>
      ({ w with p := { p with vol := some { v with Base := 10, Volume := volDB p } } }).log
        (.volWrite v.id)
    | none => w)
  w.log .muUnlock

/-- The method `Volume`. -/
def Volume (p : Player) : ℚ := p.volNorm

/-- One arm of the switch in `decodeFile`: run the codec, close the file if it
fails, hand back what it returned. -/
def decodeWith (codec : Codec) (dec : File → Except GoError (StreamInit × Format))
    (f : File) (w : World) (path : String) : Except GoError (Stream × Format) × World :=
  let w := w.log (.decode codec path)
  match dec f with
  | .error err => (.error err, w.log (.fileClose path))
  | .ok (st, format) =>
    (.ok ({ id := w.nextId, len := st.len, pos := st.pos }, format),
      { w with nextId := w.nextId + 1 })

/-- The method `decodeFile`. -/
def decodeFile (env : Env) (w : World) (path : String) :
    Except GoError (Stream × Format) × World :=
  let w := w.log (.osOpen path)
  match env.osOpen path with
  | .error err => (.error err, w)
  | .ok f =>
    let ext := stringsToLower (filepathExt path)
    if ext = ".mp3" then decodeWith .mp3 env.mp3Decode f w path
    else if ext = ".wav" then decodeWith .wav env.wavDecode f w path
    else if ext = ".flac" then decodeWith .flac env.flacDecode f w path
    else if ext = ".ogg" then decodeWith .vorbis env.vorbisDecode f w path
    else (.error ("desteklenmeyen format: " ++ ext), w.log (.fileClose path))

/-- The function `ensureSpeaker`: `speaker.Init` runs under `speakerOnce`. -/
def ensureSpeaker (w : World) : World :=
  if w.speakerOnce then w
  else ({ w with speakerOnce := true }).log .speakerInit

/-- The call `beep.Resample(4, p.sr, speakerSR, p.stream)` on a fresh stamp. -/
def mkResampler (id : Nat) (sr : Int) (st : Stream) : Resampler :=
  { id := id, quality := 4, old := sr, new := speakerSR, src := st.id }

/-- The literal `&effects.Volume{Streamer: p.play, Base: 10, Volume: p.volDB()}` on
a fresh stamp. -/
def mkVolume (id : Nat) (play : Resampler) (p : Player) : EffectsVolume :=
  { id := id, Streamer := play.id, Base := 10, Volume := volDB p }

/-- The two statements `Load`, `Stop` and every seek share: build `p.play` and
`p.vol` over the stream `st`.  Returns the gain stage now held by `p.vol`. -/
def rebuild (w : World) (st : Stream) : EffectsVolume × World :=
  let play := mkResampler w.nextId w.p.sr st
  let w := ({ w with p := { w.p with play := some play }, nextId := w.nextId + 1 }).log
    (.resample play.id st.id)
  let vol := mkVolume w.nextId play w.p
  (vol, ({ w with p := { w.p with vol := some vol }, nextId := w.nextId + 1 }).log
    (.newVolume vol.id play.id))

/-- The write `p.ctrl.Paused = b` between `speaker.Lock()` and `speaker.Unlock()`. -/
def setPaused (w : World) (c : Ctrl) (b : Bool) : World :=
  ({ w with p := { w.p with ctrl := some { c with Paused := b } } }).logs
    [.speakerLock, .ctrlPaused c.id b, .speakerUnlock]

/-- The statement `if p.ctrl != nil { p.ctrl.Streamer = p.vol }` that follows a
rebuild, `vol` being the gain stage `p.vol` holds. -/
def retarget (w : World) (vol : EffectsVolume) : World :=
  match w.p.ctrl with
  | some c =>
    ({ w with p := { w.p with ctrl := some { c with Streamer := vol.id } } }).log
      (.ctrlStreamer c.id vol.id)
  | none => w

/-- The first block of `Load`: stop current playback and release the previous
stream. -/
def releasePrevious (w : World) : World :=
  match w.p.stream with
  | some old =>
    let w :=
      (match w.p.ctrl with
      | some c => setPaused w c true
      | none => w)
    let w := w.log (.streamClose old.id)
    { w with p := { w.p with stream := none, play := none, ctrl := none } }
  | none => w

/-- The method `Load`. -/
def Load (env : Env) (w : World) (path : String) : Option GoError × World :=
  let w := w.log .muLock
  let w := releasePrevious w
  match decodeFile env w path with
  | (.error err, w) => (some err, w.log .muUnlock)
  | (.ok (st, format), w) =>
    let w := { w with p := { w.p with stream := some st, sr := format.SampleRate } }
    let w := ensureSpeaker w
    let (vol, w) := rebuild w st
    let c : Ctrl := { id := w.nextId, Streamer := vol.id, Paused := true }
    let w := ({ w with p := { w.p with ctrl := some c }, nextId := w.nextId + 1 }).log
      (.newCtrl c.id c.Streamer)
    let w := ({ w with mixer := [] }).log .speakerClear
    let w := { w with p := { w.p with started := false, current := path } }
    (none, w.log .muUnlock)

/-- The method `Play`. -/
def Play (w : World) : World :=
  let w := w.log .muLock
  match w.p.stream, w.p.ctrl with
  | some _, some c =>
    let w :=
      if w.p.started then w
      else ({ w with p := { w.p with started := true }, mixer := w.mixer ++ [c.id] }).log
        (.speakerPlay c.id)
    let w := setPaused w c false
    w.log .muUnlock
  | _, _ => w.log .muUnlock

/-- The method `Pause`. -/
def Pause (w : World) : World :=
  let w := w.log .muLock
  let w :=
    (match w.p.ctrl with
    | some c => setPaused w c true
    | none => w)
  w.log .muUnlock

/-- The method `Stop`. -/
def Stop (env : Env) (w : World) : World :=
  let w := w.log .muLock
  match w.p.stream, w.p.ctrl with
  | some st, some c =>
    let w := setPaused w c true
    let w := w.log .speakerLock
    let w := w.log (.streamSeek st.id 0)
    let st := (st.Seek env 0).1
    let w := { w with p := { w.p with stream := some st } }
    let (vol, w) := rebuild w st
    let w := retarget w vol
    let w := { w with p := { w.p with started := false } }
    w.logs [.speakerUnlock, .muUnlock]
  | _, _ => w.log .muUnlock

/-- The method `CurrentFile`. -/
def CurrentFile (p : Player) : Except GoError String :=
  if p.current = "" then .error (errorsNew "parça yok")
  else .ok p.current

/-- The method `IsPlaying`. -/
def IsPlaying (p : Player) : Bool :=
  p.started && (match p.ctrl with
    | some c => !c.Paused
    | none => false)

/-- The constant `time.Second`, in nanoseconds. -/
def timeSecond : Int := 1000000000

/-- The method `Duration`; the result counts nanoseconds. -/
def Duration (p : Player) : Except GoError Int :=
  match p.stream with
  | none => .error (errorsNew "akış yok")
  | some st =>
    let l := st.len
    if l ≤ 0 ∨ p.sr = 0 then .error (errorsNew "uzunluk bilinmiyor")
    else .ok (goInt (f64 (f64 (f64 (timeSecond : ℚ) * f64 (l : ℚ)) / f64 (p.sr : ℚ))))

/-- The method `Position`; the result counts nanoseconds. -/
def Position (p : Player) : Except GoError Int :=
  match p.stream with
  | none => .error (errorsNew "akış yok")
  | some st =>
    if p.sr = 0 then .error (errorsNew "akış yok")
    else .ok (goInt
      (f64 (f64 (f64 (timeSecond : ℚ) * f64 (st.pos : ℚ)) / f64 (p.sr : ℚ))))

/-- The value `d.Seconds()` of a `time.Duration`: with `sec := d / Second` and
`nsec := d % Second` (both truncated), `float64(sec) + float64(nsec)/1e9`. -/
def seconds (d : Int) : ℚ :=
  f64 (f64 ((Int.tdiv d timeSecond : Int) : ℚ) +
    f64 (f64 ((Int.tmod d timeSecond : Int) : ℚ) / 1000000000))

/-- The tail shared by the three seeks: under the speaker lock, seek the stream;
on error return it, otherwise rebuild the chain and point the control at it. -/
def seekChain (env : Env) (w : World) (st : Stream) (target : Int) :
    Option GoError × World :=
  let w := w.log .speakerLock
  let w := w.log (.streamSeek st.id target)
  match st.Seek env target with
  | (_, some err) => (some err, w.logs [.speakerUnlock, .muUnlock])
  | (st, none) =>
    let w := { w with p := { w.p with stream := some st } }
    let (vol, w) := rebuild w st
    let w := retarget w vol
    (none, w.logs [.speakerUnlock, .muUnlock])

/-- The frame index `SeekRatio` computes for a stream of length `l` from its
float64 argument `r`. -/
def ratioTarget (l : Int) (r : ℚ) : Int :=
  let r := if r < 0 then 0 else r
  let r := if r > 1 then 1 else r
  let target := goInt (f64 (f64 ((l - 1 : Int) : ℚ) * r))
  let target := if target < 0 then 0 else target
  if target ≥ l then l - 1 else target

/-- The method `SeekRatio`. -/
def SeekRatio (env : Env) (w : World) (r : ℚ) : Option GoError × World :=
  let w := w.log .muLock
  match w.p.stream with
  | none => (some (errorsNew "akış yok"), w.log .muUnlock)
  | some st =>
    let l := st.len
    if l ≤ 0 then (some (errorsNew "uzunluk bilinmiyor"), w.log .muUnlock)
    else seekChain env w st (ratioTarget l r)

/-- The clamp `SeekBy` and `SeekTo` apply to a frame index. -/
def clampTarget (l : Int) (target : Int) : Int :=
  let target := if target < 0 then 0 else target
  if l > 0 ∧ target ≥ l then l - 1 else target

/-- The method `SeekBy`; `d` counts nanoseconds. -/
def SeekBy (env : Env) (w : World) (d : Int) : Option GoError × World :=
  let w := w.log .muLock
  match w.p.stream with
  | none => (some (errorsNew "akış yok"), w.log .muUnlock)
  | some st =>
    if w.p.sr = 0 then (some (errorsNew "akış yok"), w.log .muUnlock)
    else
      let cur := st.pos
      let delta := goInt (f64 (f64 (w.p.sr : ℚ) * seconds d))
      seekChain env w st (clampTarget st.len (cur + delta))

/-- The method `SeekTo`; `d` counts nanoseconds. -/
def SeekTo (env : Env) (w : World) (d : Int) : Option GoError × World :=
  let w := w.log .muLock
  match w.p.stream with
  | none => (some (errorsNew "akış yok"), w.log .muUnlock)
  | some st =>
    if w.p.sr = 0 then (some (errorsNew "akış yok"), w.log .muUnlock)
    else seekChain env w st
      (clampTarget st.len (goInt (f64 (f64 (w.p.sr : ℚ) * seconds d))))

/-! ## Sequences of operations -/

/-- The output callback pulling `n` source frames through an attached, running
control: the decoder stream advances, at most to its end. -/
def sinkPull (w : World) (n : Nat) : World :=
  match w.p.stream, w.p.ctrl with
  | some st, some c =>
    if c.id ∈ w.mixer ∧ c.Paused = false then
      { w with p := { w.p with
          stream := some { st with pos := max st.pos (min (st.pos + n) st.len) } } }
    else w
  | _, _ => w

/-- The calls a client can make on a player, with the environment each one meets,
and the callback of the output sink. -/
inductive Op where
  | setVolume (norm : ℚ)
  | load (env : Env) (path : String)
  | play
  | pause
  | stop (env : Env)
  | seekRatio (env : Env) (r : ℚ)
  | seekBy (env : Env) (d : Int)
  | seekTo (env : Env) (d : Int)
  | pull (n : Nat)

/-- The world after one call. -/
def step (w : World) : Op → World
  | .setVolume norm => SetVolume w norm
  | .load env path => (Load env w path).2
  | .play => Play w
  | .pause => Pause w
  | .stop env => Stop env w
  | .seekRatio env r => ( SeekRatio env w r).2
  | .seekBy env d => (SeekBy env w d).2
  | .seekTo env d => (SeekTo env w d).2
  | .pull n => sinkPull w n

/-- The world after a sequence of calls. -/
def run (w : World) (ops : List Op) : World := ops.foldl step w

/-- The worlds a new player can be in. -/
inductive Reachable : World → Prop where
  | init : Reachable World.init
  | step {w : World} (op : Op) : Reachable w → Reachable (step w op)

/-- A file system with one readable track `a.mp3` (ten seconds at 44100 Hz), one
readable file `b.xyz`, and a decoder stream that accepts every seek. -/
def demoEnv : Env :=
  { osOpen := fun path =>
      if path = "a.mp3" then .ok ⟨3⟩
      else if path = "b.xyz" then .ok ⟨4⟩
      else .error "open: no such file or directory"
    mp3Decode := fun _ => .ok (⟨441000, 0⟩, ⟨44100, 2, 2⟩)
    wavDecode := fun _ => .error "wav: missing RIFF at the beginning"
    flacDecode := fun _ => .error "flac: invalid signature"
    vorbisDecode := fun _ => .error "ogg: invalid header"
    seek := fun _ _ => none }

/-- A file system whose only file `z.wav` decodes to a stream of 1000 frames with
a header sample rate of 0. -/
def zeroRateEnv : Env :=
  { osOpen := fun path =>
      if path = "z.wav" then .ok ⟨5⟩ else .error "open: no such file or directory"
    mp3Decode := fun _ => .error "mp3: invalid header"
    wavDecode := fun _ => .ok (⟨1000, 0⟩, ⟨0, 1, 2⟩)
    flacDecode := fun _ => .error "flac: invalid signature"
    vorbisDecode := fun _ => .error "ogg: invalid header"
    seek := fun _ _ => none }

/-- A new player after `Load("a.mp3")` in `demoEnv`. -/
def demoLoaded : World := step World.init (.load demoEnv "a.mp3")

/-- A new player after `Load("a.mp3")` and then `Load("missing.mp3")` in `demoEnv`:
the first load succeeds, the second fails in `os.Open`. -/
def demoStale : World := run World.init [.load demoEnv "a.mp3", .load demoEnv "missing.mp3"]

/-- The spec's clamp of a normalized volume to `[0, 1]`. -/
def clamp01 (n : ℚ) : ℚ := max 0 (min n 1)

/-- The shape every reachable world has: a player without a stream has neither
resampler nor control; a player with a stream has the whole chain, the control
streaming from the gain stage `p.vol`, the gain stage from the resampler `p.play`,
the resampler from the stream; and a gain stage, whenever there is one, carries
base 10 and the exponent `volDB` of the current volume. -/
structure Inv (p : Player) : Prop where
  empty : p.stream = none → p.play = none ∧ p.ctrl = none
  chain : ∀ st, p.stream = some st → ∃ r v c,
    p.play = some r ∧ p.vol = some v ∧ p.ctrl = some c ∧
    c.Streamer = v.id ∧ v.Streamer = r.id ∧ r.src = st.id ∧
    r.quality = 4 ∧ r.old = p.sr ∧ r.new = speakerSR
  gain : ∀ v, p.vol = some v → v.Base = 10 ∧ v.Volume = volDB p

/-- The calls of the decoder stream's `Seek` recorded in a list of events, in
order: the stamp of the stream and the frame index passed. -/
def seekCalls (tr : List Event) : List (Nat × Int) :=
  tr.filterMap fun e =>
    match e with
    | .streamSeek s t => some (s, t)
    | _ => none

/-- The spec's clamp of a frame index to `[lo, hi]`. -/
def clampInt (x lo hi : Int) : Int := max lo (min x hi)

/-- The spec's target of `SeekRatio`: the product rounded to the nearest frame,
then clamped to `[0, l - 1]`. -/
def specRatioTarget (l : Int) (r : ℚ) : Int :=
  clampInt (round (((l - 1 : Int) : ℚ) * clamp01 r)) 0 (l - 1)

/-- The file system of `demoEnv` with a decoder stream that rejects every seek. -/
def failSeekEnv : Env :=
  { demoEnv with seek := fun _ _ => some "seek: input/output error" }

/-- A file system whose only file `t.mp3` decodes to a stream of 4 frames at
44100 Hz. -/
def tinyEnv : Env :=
  { osOpen := fun path =>
      if path = "t.mp3" then .ok ⟨6⟩ else .error "open: no such file or directory"
    mp3Decode := fun _ => .ok (⟨4, 0⟩, ⟨44100, 2, 2⟩)
    wavDecode := fun _ => .error "wav: missing RIFF at the beginning"
    flacDecode := fun _ => .error "flac: invalid signature"
    vorbisDecode := fun _ => .error "ogg: invalid header"
    seek := fun _ _ => none }

/-- A file system whose only file `e.wav` decodes to a stream of 0 frames at
44100 Hz. -/
def emptyEnv : Env :=
  { osOpen := fun path =>
      if path = "e.wav" then .ok ⟨7⟩ else .error "open: no such file or directory"
    mp3Decode := fun _ => .error "mp3: invalid header"
    wavDecode := fun _ => .ok (⟨0, 0⟩, ⟨44100, 2, 2⟩)
    flacDecode := fun _ => .error "flac: invalid signature"
    vorbisDecode := fun _ => .error "ogg: invalid header"
    seek := fun _ _ => none }

/-- A new player after `Load("z.wav")` in `zeroRateEnv`: 1000 frames, native rate 0. -/
def zeroLoaded : World := step World.init (.load zeroRateEnv "z.wav")

/-- A new player after `Load("t.mp3")` in `tinyEnv`: 4 frames. -/
def tinyLoaded : World := step World.init (.load tinyEnv "t.mp3")

/-- A new player after `Load("e.wav")` in `emptyEnv`: 0 frames. -/
def emptyLoaded : World := step World.init (.load emptyEnv "e.wav")

/-- A new player after `Load("a.mp3")` and `Play()`. -/
def demoPlaying : World := run World.init [.load demoEnv "a.mp3", .play]

/-- A new player after `Load("a.mp3")`, `Play()` and `Stop()`. -/
def demoStopped : World := run World.init [.load demoEnv "a.mp3", .play, .stop demoEnv]

/-- A new player after `Load("a.mp3")`, `Play()`, `Stop()` and `Play()`. -/
def demoReplayed : World :=
  run World.init [.load demoEnv "a.mp3", .play, .stop demoEnv, .play]

/-- A new player after `Load("a.mp3")`, `Play()`, `Stop()`, then `Pause()`, `Play()`,
`Play()`. -/
def demoStoppedPausePlayPlay : World :=
  run demoStopped [.pause, .play, .play]

/-- A new player after `Load("a.mp3")` and `SeekTo(5 s)`, the decoder accepting the
seek. -/
def demoAtFive : World := run World.init [.load demoEnv "a.mp3", .seekTo demoEnv 5000000000]

/-- What a seek leaves unchanged between the world `w` before the call and the
world `w1` after it: the started flag, the control's paused flag, the current file,
the native rate, the stream's length, the volume and the mixer. -/
structure SeekFrame (w w1 : World) : Prop where
  started : w1.p.started = w.p.started
  paused : w1.p.ctrl.map (fun c => c.Paused) = w.p.ctrl.map (fun c => c.Paused)
  current : w1.p.current = w.p.current
  sr : w1.p.sr = w.p.sr
  len : w1.p.stream.map (fun s => s.len) = w.p.stream.map (fun s => s.len)
  volNorm : w1.p.volNorm = w.p.volNorm
  mixer : w1.mixer = w.mixer


/-- Every stamp the player holds has been handed out: it is below the allocation
counter. -/
structure Fresh (w : World) : Prop where
  stream : ∀ st, w.p.stream = some st → st.id < w.nextId
  play : ∀ r, w.p.play = some r → r.id < w.nextId
  vol : ∀ v, w.p.vol = some v → v.id < w.nextId
  ctrl : ∀ c, w.p.ctrl = some c → c.id < w.nextId

/-- The chain after a jump of the stream stamped `sid` to frame `target`, between
the world `w` before the call and the world `w1` after it.  The resampler and the
gain stage of `w1` carry the two stamps that were free in `w`, so they are not the
records `w` held; the resampler reads the stream at the native rate and writes at
the device rate, the gain stage wraps it, and the control streams from that gain
stage, not from a stage over the old resampler.  The events appended contain, in
this order and inside one section of the sink lock, the `Seek`, the call of
`beep.Resample`, the construction of the gain stage and the write of the control's
streamer. -/
structure Rebuilt (w w1 : World) (sid : Nat) (target : Int) : Prop where
  chain : ∃ r v c, w1.p.play = some r ∧ w1.p.vol = some v ∧ w1.p.ctrl = some c ∧
    r.id = w.nextId ∧ v.id = w.nextId + 1 ∧
    r.src = sid ∧ r.quality = 4 ∧ r.old = w.p.sr ∧ r.new = speakerSR ∧
    v.Streamer = r.id ∧ c.Streamer = v.id
  newPlay : ∀ r0 r, w.p.play = some r0 → w1.p.play = some r → r.id ≠ r0.id
  newVol : ∀ v0 v, w.p.vol = some v0 → w1.p.vol = some v → v.id ≠ v0.id
  oldPlayDropped : ∀ r0 c v, w.p.play = some r0 → w1.p.ctrl = some c → w1.p.vol = some v →
    c.Streamer = v.id ∧ v.Streamer ≠ r0.id
  order : ∃ pre post cid, w1.trace = w.trace ++ pre ++
    [.speakerLock, .streamSeek sid target, .resample w.nextId sid,
      .newVolume (w.nextId + 1) w.nextId, .ctrlStreamer cid (w.nextId + 1),
      .speakerUnlock] ++ post

/-- The calls of `Close` on decoder streams recorded in a list of events, in order:
the stamps of the streams closed. -/
def closeCalls (tr : List Event) : List Nat :=
  tr.filterMap fun e =>
    match e with
    | .streamClose s => some s
    | _ => none

/-- No stream has been closed twice, every closed stream was stamped before now, and
the stream the player holds has not been closed. -/
structure ClosedOnce (w : World) : Prop where
  nodup : (closeCalls w.trace).Nodup
  old : ∀ k ∈ closeCalls w.trace, k < w.nextId
  live : ∀ st, w.p.stream = some st → st.id ∉ closeCalls w.trace


/-- What an operation holds while it runs: the player's mutex `p.mu`, the lock of
the output sink (`speaker.Lock`), and whether it has built a resampler for the
control the sink reads without yet pointing the control at the new chain. -/
structure Locks where
  mu : Bool
  sink : Bool
  building : Bool
  deriving DecidableEq

/-- No lock held, no chain half built. -/
def Locks.free : Locks := ⟨false, false, false⟩

/-- One event checked against the locks held; `none` when the event breaks the
discipline of the spec's concurrency section. The mutex is taken when free and
released with the sink lock free. The sink lock is taken under the mutex and is not
released while a chain is half built. A control's `Paused` and `Streamer` and the
stream's `Seek` are touched only under the sink lock. `speaker.Init`,
`speaker.Play` and `speaker.Clear` take the sink lock themselves, so they are called
with it free. With `swap` (the operation rebuilds the chain of the control the
sink may hold) a resampler and a gain stage are built only under the sink lock. -/
def lockStep (swap : Bool) (l : Locks) : Event → Option Locks
  | .muLock => if l.mu then none else some { l with mu := true }
  | .muUnlock => if l.mu && !l.sink then some Locks.free else none
  | .speakerLock => if l.mu && !l.sink then some { l with sink := true } else none
  | .speakerUnlock => if l.sink && !l.building then some { l with sink := false } else none
  | .ctrlPaused _ _ => if l.mu && l.sink then some l else none
  | .streamSeek _ _ => if l.mu && l.sink then some l else none
  | .ctrlStreamer _ _ => if l.mu && l.sink then some { l with building := false } else none
  | .speakerInit => if l.mu && !l.sink then some l else none
  | .speakerClear => if l.mu && !l.sink then some l else none
  | .speakerPlay _ => if l.mu && !l.sink then some l else none
  | .resample _ _ =>
    if swap then (if l.mu && l.sink then some { l with building := true } else none)
    else if l.mu then some l else none
  | .newVolume _ _ =>
    if swap then (if l.mu && l.sink && l.building then some l else none)
    else if l.mu then some l else none
  | .volWrite _ => if l.mu then some l else none
  | .osOpen _ => if l.mu then some l else none
  | .fileClose _ => if l.mu then some l else none
  | .decode _ _ => if l.mu then some l else none
  | .streamClose _ => if l.mu then some l else none
  | .newCtrl _ _ => if l.mu then some l else none

/-- The events of an operation checked in order, from the locks `l`. -/
def lockScan (swap : Bool) (l : Locks) : List Event → Option Locks
  | [] => some l
  | e :: es => (lockStep swap l e).bind fun l1 => lockScan swap l1 es

/-- Whether an operation rebuilds the chain of a control the sink may hold: all
but `Load`, which builds a new control. -/
def Op.swaps : Op → Bool
  | .load _ _ => false
  | _ => true

/-- A file system whose only file `l.wav` decodes to a stream of 24473143 frames at
22254 Hz. -/
def longEnv : Env :=
  { osOpen := fun path =>
      if path = "l.wav" then .ok ⟨8⟩ else .error "open: no such file or directory"
    mp3Decode := fun _ => .error "mp3: invalid header"
    wavDecode := fun _ => .ok (⟨24473143, 0⟩, ⟨22254, 1, 2⟩)
    flacDecode := fun _ => .error "flac: invalid signature"
    vorbisDecode := fun _ => .error "ogg: invalid header"
    seek := fun _ _ => none }

/-- A new player after `Load("l.wav")` in `longEnv`. -/
def longLoaded : World := step World.init (.load longEnv "l.wav")

/-- A file system whose only file `h.wav` decodes to a stream of 2^54 + 2 frames at
10^9 Hz (one frame per nanosecond, 208 days long). -/
def hugeEnv : Env :=
  { osOpen := fun path =>
      if path = "h.wav" then .ok ⟨9⟩ else .error "open: no such file or directory"
    mp3Decode := fun _ => .error "mp3: invalid header"
    wavDecode := fun _ => .ok (⟨18014398509481986, 0⟩, ⟨1000000000, 1, 2⟩)
    flacDecode := fun _ => .error "flac: invalid signature"
    vorbisDecode := fun _ => .error "ogg: invalid header"
    seek := fun _ _ => none }

/-- A new player after `Load("h.wav")` in `hugeEnv`. -/
def hugeLoaded : World := step World.init (.load hugeEnv "h.wav")

/-- The path of the last `Load` that returned no error in a sequence of calls made
from the world `w`; `last` if there is none. -/
def lastLoaded (w : World) (last : String) : List Op → String
  | [] => last
  | op :: ops =>
    lastLoaded (step w op)
      (match op with
      | .load env path => if (Load env w path).1 = none then path else last
      | _ => last) ops

/-- The decoder streams a list of events touches, in order: the stamp of every
stream that is closed, sought, or wrapped in a new resampler. -/
def streamRefs (tr : List Event) : List Nat :=
  tr.filterMap fun e =>
    match e with
    | .streamClose s => some s
    | .streamSeek s _ => some s
    | .resample _ s => some s
    | _ => none

/-! ## Rounding to float64 -/

theorem roundEven_cases (q : ℚ) : roundEven q = ⌊q⌋ ∨ roundEven q = ⌊q⌋ + 1 := by
  unfold roundEven
  split_ifs <;> simp

theorem roundEven_near (q : ℚ) :
    q - 1 / 2 ≤ (roundEven q : ℚ) ∧ (roundEven q : ℚ) ≤ q + 1 / 2 := by
  have h1 := Int.floor_le q
  have h2 := Int.lt_floor_add_one q
  unfold roundEven
  split_ifs with a b c
  · constructor <;> linarith
  · constructor <;> push_cast <;> linarith
  · have : q - ⌊q⌋ = 1 / 2 := le_antisymm (not_lt.mp b) (not_lt.mp a)
    constructor <;> linarith
  · have : q - ⌊q⌋ = 1 / 2 := le_antisymm (not_lt.mp b) (not_lt.mp a)
    constructor <;> push_cast <;> linarith

theorem roundEven_eq_of_lt {q : ℚ} {n : Int} (h1 : (n : ℚ) - 1 / 2 < q)
    (h2 : q < (n : ℚ) + 1 / 2) : roundEven q = n := by
  obtain ⟨k1, k2⟩ := roundEven_near q
  have a : ((roundEven q : Int) : ℚ) < (n : ℚ) + 1 := by linarith
  have b : (n : ℚ) < ((roundEven q : Int) : ℚ) + 1 := by linarith
  have a' : roundEven q < n + 1 := by exact_mod_cast a
  have b' : n < roundEven q + 1 := by exact_mod_cast b
  omega

theorem roundEven_intCast (n : Int) : roundEven (n : ℚ) = n :=
  roundEven_eq_of_lt (by linarith) (by linarith)

theorem roundEven_half_even {n : Int} (hn : n % 2 = 0) : roundEven ((n : ℚ) + 1 / 2) = n := by
  have hf : ⌊(n : ℚ) + 1 / 2⌋ = n := by
    rw [Int.floor_eq_iff]; constructor <;> linarith
  unfold roundEven
  rw [hf]
  have : (n : ℚ) + 1 / 2 - n = 1 / 2 := by ring
  rw [this]
  simp [hn]

theorem roundEven_half_odd {n : Int} (hn : n % 2 = 1) :
    roundEven ((n : ℚ) + 1 / 2) = n + 1 := by
  have hf : ⌊(n : ℚ) + 1 / 2⌋ = n := by
    rw [Int.floor_eq_iff]; constructor <;> linarith
  unfold roundEven
  rw [hf]
  have : (n : ℚ) + 1 / 2 - n = 1 / 2 := by ring
  rw [this]
  simp [hn]

theorem roundEven_mono {q q' : ℚ} (h : q ≤ q') : roundEven q ≤ roundEven q' := by
  have hf : ⌊q⌋ ≤ ⌊q'⌋ := Int.floor_mono h
  rcases lt_or_eq_of_le hf with hlt | heq
  · rcases roundEven_cases q with a | a <;> rcases roundEven_cases q' with b | b <;> omega
  · unfold roundEven
    rw [heq]
    have hr : q - ⌊q'⌋ ≤ q' - ⌊q'⌋ := by linarith
    split_ifs <;> first | omega | (exfalso; linarith)

theorem two_zpow_pos (k : Int) : (0 : ℚ) < 2 ^ k := zpow_pos (by norm_num) k

theorem f64_zero : f64 0 = 0 := by
  simp [f64, roundEven]

theorem f64_nonneg {x : ℚ} (hx : 0 ≤ x) : 0 ≤ f64 x := by
  unfold f64
  have hp := two_zpow_pos (Int.log 2 |x| - 52)
  have h0 : roundEven 0 ≤ roundEven (x / 2 ^ (Int.log 2 |x| - 52)) :=
    roundEven_mono (div_nonneg hx hp.le)
  have h1 : roundEven (0 : ℚ) = 0 := by exact_mod_cast roundEven_intCast 0
  rw [h1] at h0
  exact mul_nonneg (by exact_mod_cast h0) hp.le

theorem f64_nonpos {x : ℚ} (hx : x ≤ 0) : f64 x ≤ 0 := by
  unfold f64
  have hp := two_zpow_pos (Int.log 2 |x| - 52)
  have h0 : roundEven (x / 2 ^ (Int.log 2 |x| - 52)) ≤ roundEven 0 :=
    roundEven_mono (div_nonpos_of_nonpos_of_nonneg hx hp.le)
  have h1 : roundEven (0 : ℚ) = 0 := by exact_mod_cast roundEven_intCast 0
  rw [h1] at h0
  exact mul_nonpos_of_nonpos_of_nonneg (by exact_mod_cast h0) hp.le

theorem log_two_eq {y : ℚ} {e : Int} (h1 : (2 : ℚ) ^ e ≤ y) (h2 : y < 2 ^ (e + 1)) :
    Int.log 2 y = e := by
  have hy : 0 < y := lt_of_lt_of_le (two_zpow_pos e) h1
  have a : e ≤ Int.log 2 y := (Int.zpow_le_iff_le_log (by norm_num) hy).mp (by exact_mod_cast h1)
  have b : Int.log 2 y < e + 1 :=
    (Int.lt_zpow_iff_log_lt (by norm_num) hy).mp (by exact_mod_cast h2)
  omega

/-- The value of `f64` on a rational whose binade is known. -/
theorem f64_of_binade {x : ℚ} {e : Int} (h1 : (2 : ℚ) ^ e ≤ |x|) (h2 : |x| < 2 ^ (e + 1)) :
    f64 x = (roundEven (x / 2 ^ (e - 52)) : ℚ) * 2 ^ (e - 52) := by
  unfold f64
  rw [log_two_eq h1 h2]

theorem log_two_spec {y : ℚ} (hy : 0 < y) :
    (2 : ℚ) ^ Int.log 2 y ≤ y ∧ y < 2 ^ (Int.log 2 y + 1) := by
  have a := Int.zpow_log_le_self (b := 2) (r := y) (by norm_num) hy
  have b := Int.lt_zpow_succ_log_self (b := 2) (by norm_num) y
  exact ⟨by exact_mod_cast a, by exact_mod_cast b⟩

theorem f64_eval {x : ℚ} {e n : Int} (h1 : (2 : ℚ) ^ e ≤ |x|) (h2 : |x| < 2 ^ (e + 1))
    (h3 : ((n : ℚ) - 1 / 2) * 2 ^ (e - 52) < x) (h4 : x < ((n : ℚ) + 1 / 2) * 2 ^ (e - 52)) :
    f64 x = (n : ℚ) * 2 ^ (e - 52) := by
  rw [f64_of_binade h1 h2]
  have hp := two_zpow_pos (e - 52)
  rw [roundEven_eq_of_lt ((lt_div_iff₀ hp).mpr h3) ((div_lt_iff₀ hp).mpr h4)]

/-- A rational m * 2^k with |m| < 2^53 is a float64: rounding leaves it as it is. -/
theorem f64_exact (m k : Int) (hm : |m| < 2 ^ 53) : f64 ((m : ℚ) * 2 ^ k) = (m : ℚ) * 2 ^ k := by
  by_cases h0 : m = 0
  · subst h0; simp [f64_zero]
  have hmq : (0 : ℚ) < |(m : ℚ)| := abs_pos.mpr (by exact_mod_cast h0)
  have hk := two_zpow_pos k
  have habs : |(m : ℚ) * 2 ^ k| = |(m : ℚ)| * 2 ^ k := by
    rw [abs_mul, abs_of_pos hk]
  have hx : (0 : ℚ) < |(m : ℚ) * 2 ^ k| := by rw [habs]; positivity
  obtain ⟨a, -⟩ := log_two_spec hx
  generalize he : Int.log 2 |(m : ℚ) * 2 ^ k| = e at a
  have hm' : |(m : ℚ)| < 2 ^ (53 : Int) := by
    have h1 : |(m : ℚ)| < (2 : ℚ) ^ (53 : ℕ) := by
      rw [← Int.cast_abs]; exact_mod_cast hm
    rw [show (53 : Int) = ((53 : ℕ) : Int) from rfl, zpow_natCast]
    exact h1
  have hlt : (2 : ℚ) ^ e < 2 ^ (53 + k) := by
    calc (2 : ℚ) ^ e ≤ |(m : ℚ)| * 2 ^ k := by rw [← habs]; exact a
      _ < 2 ^ (53 : Int) * 2 ^ k := by exact mul_lt_mul_of_pos_right hm' hk
      _ = 2 ^ (53 + k) := by rw [← zpow_add₀ (by norm_num : (2 : ℚ) ≠ 0)]
  have hek : e < 53 + k := (zpow_lt_zpow_iff_right₀ (by norm_num : (1 : ℚ) < 2)).mp hlt
  obtain ⟨j, hj⟩ : ∃ j : Nat, (j : Int) = k - (e - 52) := ⟨(k - (e - 52)).toNat, by omega⟩
  have hq : (m : ℚ) * 2 ^ k / 2 ^ (e - 52) = ((m * 2 ^ j : Int) : ℚ) := by
    rw [mul_div_assoc, ← zpow_sub₀ (by norm_num : (2 : ℚ) ≠ 0), ← hj]
    push_cast
    rw [zpow_natCast]
  unfold f64
  rw [he, hq, roundEven_intCast, ← hq]
  field_simp

theorem f64_intCast (n : Int) (hn : |n| ≤ 2 ^ 53) : f64 (n : ℚ) = n := by
  rcases lt_or_eq_of_le hn with h | h
  · simpa using f64_exact n 0 h
  · rcases abs_eq (by norm_num : (0 : Int) ≤ 2 ^ 53) |>.mp h with h | h
    · have := f64_exact 1 53 (by norm_num)
      rw [h]
      norm_num at this ⊢
      exact this
    · have := f64_exact (-1) 53 (by norm_num)
      rw [h]
      norm_num at this ⊢
      exact this

theorem f64_scaled_bounds {x : ℚ} (hx : 0 < x) :
    (2 : ℚ) ^ (Int.log 2 |x|) ≤ f64 x ∧ f64 x ≤ 2 ^ (Int.log 2 |x| + 1) := by
  have habs : |x| = x := abs_of_pos hx
  obtain ⟨a, b⟩ := log_two_spec (by rw [habs]; exact hx : (0 : ℚ) < |x|)
  generalize Int.log 2 |x| = e at a b
  rw [habs] at a b
  have hp := two_zpow_pos (e - 52)
  have c1 : ((2 ^ 52 : Int) : ℚ) = (2 : ℚ) ^ (52 : Int) := by norm_num
  have c2 : ((2 ^ 53 : Int) : ℚ) = (2 : ℚ) ^ (53 : Int) := by norm_num
  have e1 : (2 : ℚ) ^ e = ((2 ^ 52 : Int) : ℚ) * 2 ^ (e - 52) := by
    rw [c1, ← zpow_add₀ (by norm_num : (2 : ℚ) ≠ 0)]
    congr 1; omega
  have e2 : (2 : ℚ) ^ (e + 1) = ((2 ^ 53 : Int) : ℚ) * 2 ^ (e - 52) := by
    rw [c2, ← zpow_add₀ (by norm_num : (2 : ℚ) ≠ 0)]
    congr 1; omega
  have q1 : ((2 ^ 52 : Int) : ℚ) ≤ x / 2 ^ (e - 52) := by
    rw [le_div_iff₀ hp, ← e1]; exact a
  have q2 : x / 2 ^ (e - 52) ≤ ((2 ^ 53 : Int) : ℚ) := by
    rw [div_le_iff₀ hp, ← e2]; exact b.le
  have r1 := roundEven_mono q1
  have r2 := roundEven_mono q2
  rw [roundEven_intCast] at r1 r2
  have hf : f64 x = (roundEven (x / 2 ^ (e - 52)) : ℚ) * 2 ^ (e - 52) :=
    f64_of_binade (by rw [habs]; exact a) (by rw [habs]; exact b)
  rw [hf, e1, e2]
  exact ⟨mul_le_mul_of_nonneg_right (by exact_mod_cast r1) hp.le,
    mul_le_mul_of_nonneg_right (by exact_mod_cast r2) hp.le⟩

/-- Rounding to float64 is monotone on the non-negative rationals. -/
theorem f64_mono {x y : ℚ} (hx : 0 ≤ x) (h : x ≤ y) : f64 x ≤ f64 y := by
  rcases eq_or_lt_of_le hx with h0 | hpos
  · rw [← h0, f64_zero]; exact f64_nonneg (le_trans hx h)
  have hy : 0 < y := lt_of_lt_of_le hpos h
  have hlog : Int.log 2 |x| ≤ Int.log 2 |y| := by
    rw [abs_of_pos hpos, abs_of_pos hy]
    exact Int.log_mono_right hpos h
  rcases lt_or_eq_of_le hlog with hlt | heq
  · obtain ⟨-, a⟩ := f64_scaled_bounds hpos
    obtain ⟨b, -⟩ := f64_scaled_bounds hy
    have : (2 : ℚ) ^ (Int.log 2 |x| + 1) ≤ 2 ^ (Int.log 2 |y|) :=
      zpow_le_zpow_right₀ (by norm_num) (by omega)
    linarith
  · unfold f64
    rw [heq]
    have hp := two_zpow_pos (Int.log 2 |y| - 52)
    have := roundEven_mono (div_le_div_of_nonneg_right h hp.le)
    exact mul_le_mul_of_nonneg_right (by exact_mod_cast this) hp.le

/-- The relative error of rounding to float64 is at most 2^-53. -/
theorem f64_error (x : ℚ) : |f64 x - x| ≤ |x| / 2 ^ 53 := by
  by_cases h0 : x = 0
  · subst h0; simp [f64_zero]
  have hx : (0 : ℚ) < |x| := abs_pos.mpr h0
  obtain ⟨a, -⟩ := log_two_spec hx
  unfold f64
  generalize Int.log 2 |x| = e at a
  have hp := two_zpow_pos (e - 52)
  obtain ⟨n1, n2⟩ := roundEven_near (x / 2 ^ (e - 52))
  have hxs : x / 2 ^ (e - 52) * 2 ^ (e - 52) = x := by field_simp
  have k1 : (x / 2 ^ (e - 52) - 1 / 2) * 2 ^ (e - 52) ≤
      (roundEven (x / 2 ^ (e - 52)) : ℚ) * 2 ^ (e - 52) :=
    mul_le_mul_of_nonneg_right n1 hp.le
  have k2 : (roundEven (x / 2 ^ (e - 52)) : ℚ) * 2 ^ (e - 52) ≤
      (x / 2 ^ (e - 52) + 1 / 2) * 2 ^ (e - 52) :=
    mul_le_mul_of_nonneg_right n2 hp.le
  rw [sub_mul, hxs] at k1
  rw [add_mul, hxs] at k2
  have e1 : (2 : ℚ) ^ e / 2 ^ 53 = 1 / 2 * 2 ^ (e - 52) := by
    have : (2 : ℚ) ^ e = 2 ^ (e - 52) * 2 ^ (52 : Int) := by
      rw [← zpow_add₀ (by norm_num : (2 : ℚ) ≠ 0)]; congr 1; omega
    rw [this]
    norm_num
    ring
  have hb : (2 : ℚ) ^ e / 2 ^ 53 ≤ |x| / 2 ^ 53 :=
    div_le_div_of_nonneg_right a (by positivity)
  rw [abs_le]
  constructor <;> linarith

/-! ## Basic facts -/

theorem volDB_eq (p : Player) : volDB p = -4 + 4 * clamp01 p.volNorm := by
  unfold volDB clamp01
  by_cases h0 : p.volNorm < 0
  · have h1 : ¬ (0 : ℚ) > 1 := by norm_num
    have h2 : min p.volNorm 1 = p.volNorm := min_eq_left (by linarith)
    simp [h0, h2, max_eq_left (le_of_lt h0)]
  · by_cases h1 : p.volNorm > 1
    · have h2 : min p.volNorm 1 = 1 := min_eq_right (le_of_lt h1)
      simp [h0, h1, h2]
    · have h2 : min p.volNorm 1 = p.volNorm := min_eq_left (not_lt.mp h1)
      simp [h0, h1, h2, max_eq_right (not_lt.mp h0)]

theorem volDB_congr {p q : Player} (h : p.volNorm = q.volNorm) : volDB p = volDB q := by
  simp [volDB, h]

/-! ## The chain invariant -/

theorem inv_init : Inv World.init.p := by
  constructor <;> simp [World.init, New]

theorem inv_SetVolume (w : World) (norm : ℚ) (h : Inv w.p) : Inv (SetVolume w norm).p := by
  obtain ⟨⟨stream, play, vol, volNorm, ctrl, sr, started, current⟩, mixer, once, nextId, trace⟩ := w
  obtain ⟨he, hc, hg⟩ := h
  dsimp only at he hc hg
  rcases stream with _ | st <;> rcases vol with _ | v <;>
    simp at he hc hg <;> constructor <;> simp_all [SetVolume, World.log, volDB]

theorem inv_Play (w : World) (h : Inv w.p) : Inv (Play w).p := by
  obtain ⟨⟨stream, play, vol, volNorm, ctrl, sr, started, current⟩, mixer, once, nextId, trace⟩ := w
  obtain ⟨he, hc, hg⟩ := h
  dsimp only at he hc hg
  rcases stream with _ | st <;> rcases ctrl with _ | c <;> rcases started <;>
    simp at he hc hg <;> constructor <;>
    simp_all [Play, setPaused, World.log, World.logs, volDB]

theorem inv_Pause (w : World) (h : Inv w.p) : Inv (Pause w).p := by
  obtain ⟨⟨stream, play, vol, volNorm, ctrl, sr, started, current⟩, mixer, once, nextId, trace⟩ := w
  obtain ⟨he, hc, hg⟩ := h
  dsimp only at he hc hg
  rcases stream with _ | st <;> rcases ctrl with _ | c <;>
    simp at he hc hg <;> constructor <;>
    simp_all [Pause, setPaused, World.log, World.logs, volDB]

theorem inv_Stop (env : Env) (w : World) (h : Inv w.p) : Inv (Stop env w).p := by
  obtain ⟨⟨stream, play, vol, volNorm, ctrl, sr, started, current⟩, mixer, once, nextId, trace⟩ := w
  obtain ⟨he, hc, hg⟩ := h
  dsimp only at he hc hg
  rcases stream with _ | st <;> rcases ctrl with _ | c <;>
    simp at he hc hg <;> constructor <;>
    simp_all [Stop, setPaused, rebuild, retarget, mkResampler, mkVolume, Stream.Seek,
      World.log, World.logs, volDB]

theorem inv_seekChain (env : Env) (w : World) (st : Stream) (target : Int)
    (hst : w.p.stream = some st) (h : Inv w.p) : Inv (seekChain env w st target).2.p := by
  obtain ⟨⟨stream, play, vol, volNorm, ctrl, sr, started, current⟩, mixer, once, nextId, trace⟩ := w
  obtain ⟨he, hc, hg⟩ := h
  dsimp only at he hc hg hst
  subst hst
  rcases ctrl with _ | c <;> simp at he hc hg
  obtain ⟨r, hr, v, hv, h1⟩ := hc
  subst hr hv
  unfold seekChain Stream.Seek
  cases env.seek st target <;> constructor <;>
    simp_all [rebuild, retarget, mkResampler, mkVolume, World.log, World.logs, volDB]

theorem inv_SeekRatio (env : Env) (w : World) (r : ℚ) (h : Inv w.p) :
    Inv ( SeekRatio env w r).2.p := by
  unfold SeekRatio
  dsimp only
  cases hst : (w.log Event.muLock).p.stream with
  | none => simpa [World.log] using h
  | some st =>
    dsimp only
    split_ifs
    · simpa [World.log] using h
    · exact inv_seekChain env _ st _ hst (by simpa [World.log] using h)

theorem inv_SeekBy (env : Env) (w : World) (d : Int) (h : Inv w.p) :
    Inv (SeekBy env w d).2.p := by
  unfold SeekBy
  dsimp only
  cases hst : (w.log Event.muLock).p.stream with
  | none => simpa [World.log] using h
  | some st =>
    dsimp only
    split_ifs
    · simpa [World.log] using h
    · exact inv_seekChain env _ st _ hst (by simpa [World.log] using h)

theorem inv_SeekTo (env : Env) (w : World) (d : Int) (h : Inv w.p) :
    Inv (SeekTo env w d).2.p := by
  unfold SeekTo
  dsimp only
  cases hst : (w.log Event.muLock).p.stream with
  | none => simpa [World.log] using h
  | some st =>
    dsimp only
    split_ifs
    · simpa [World.log] using h
    · exact inv_seekChain env _ st _ hst (by simpa [World.log] using h)

theorem inv_sinkPull (w : World) (n : Nat) (h : Inv w.p) : Inv (sinkPull w n).p := by
  obtain ⟨⟨stream, play, vol, volNorm, ctrl, sr, started, current⟩, mixer, once, nextId, trace⟩ := w
  obtain ⟨he, hc, hg⟩ := h
  dsimp only at he hc hg
  rcases stream with _ | st <;> rcases ctrl with _ | c <;> simp at he hc hg <;>
    unfold sinkPull <;> dsimp only <;> (try split_ifs) <;> constructor <;>
    simp_all [volDB]

theorem decodeFile_error_any {env : Env} {w : World} {path : String} {e : GoError}
    (h : (decodeFile env w path).1 = .error e) (w1 : World) :
    ∃ tr, decodeFile env w1 path = (.error e, { w1 with trace := tr }) := by
  revert h
  unfold decodeFile decodeWith
  simp only [World.log]
  cases env.osOpen path with
  | error e0 => intro h; cases h; exact ⟨_, rfl⟩
  | ok f =>
    dsimp only
    split_ifs
    · cases env.mp3Decode f with
      | error e0 => intro h; cases h; exact ⟨_, rfl⟩
      | ok r => intro h; cases h
    · cases env.wavDecode f with
      | error e0 => intro h; cases h; exact ⟨_, rfl⟩
      | ok r => intro h; cases h
    · cases env.flacDecode f with
      | error e0 => intro h; cases h; exact ⟨_, rfl⟩
      | ok r => intro h; cases h
    · cases env.vorbisDecode f with
      | error e0 => intro h; cases h; exact ⟨_, rfl⟩
      | ok r => intro h; cases h
    · intro h; cases h; exact ⟨_, rfl⟩

theorem decodeFile_ok_any {env : Env} {w : World} {path : String} {st : Stream}
    {fmt : Format} (h : (decodeFile env w path).1 = .ok (st, fmt)) (w1 : World) :
    ∃ tr, decodeFile env w1 path =
      (.ok ({ st with id := w1.nextId }, fmt),
        { w1 with nextId := w1.nextId + 1, trace := tr }) := by
  revert h
  unfold decodeFile decodeWith
  simp only [World.log]
  cases env.osOpen path with
  | error e0 => intro h; cases h
  | ok f =>
    dsimp only
    split_ifs
    · cases env.mp3Decode f with
      | error e0 => intro h; cases h
      | ok r => intro h; cases h; exact ⟨_, rfl⟩
    · cases env.wavDecode f with
      | error e0 => intro h; cases h
      | ok r => intro h; cases h; exact ⟨_, rfl⟩
    · cases env.flacDecode f with
      | error e0 => intro h; cases h
      | ok r => intro h; cases h; exact ⟨_, rfl⟩
    · cases env.vorbisDecode f with
      | error e0 => intro h; cases h
      | ok r => intro h; cases h; exact ⟨_, rfl⟩
    · intro h; cases h

theorem releasePrevious_p (w : World) :
    (releasePrevious w).p.stream = none ∧
    (releasePrevious w).p.vol = w.p.vol ∧
    (releasePrevious w).p.volNorm = w.p.volNorm ∧
    (releasePrevious w).p.sr = w.p.sr ∧
    (releasePrevious w).p.started = w.p.started ∧
    (releasePrevious w).p.current = w.p.current ∧
    (releasePrevious w).mixer = w.mixer := by
  unfold releasePrevious
  cases hs : w.p.stream with
  | none => simp [hs]
  | some st =>
    cases hc : w.p.ctrl <;> simp [setPaused, World.log, World.logs]

theorem releasePrevious_inv (w : World) (h : Inv w.p) :
    (releasePrevious w).p.play = none ∧ (releasePrevious w).p.ctrl = none := by
  unfold releasePrevious
  cases hs : w.p.stream with
  | none => simpa using h.empty hs
  | some st => simp [World.log]

theorem releasePrevious_log (w : World) (e : Event) :
    (releasePrevious (w.log e)).p = (releasePrevious w).p ∧
    (releasePrevious (w.log e)).nextId = w.nextId ∧
    (releasePrevious (w.log e)).speakerOnce = w.speakerOnce ∧
    (releasePrevious (w.log e)).mixer = w.mixer := by
  unfold releasePrevious
  cases hs : w.p.stream with
  | none => simp [World.log, hs]
  | some st =>
    cases hc : w.p.ctrl <;> simp [setPaused, World.log, World.logs, hs, hc]

theorem Load_error {env : Env} {w : World} {path : String} {e : GoError}
    (h : (decodeFile env w path).1 = .error e) :
    (Load env w path).1 = some e ∧
    (Load env w path).2.p = (releasePrevious w).p ∧
    (Load env w path).2.mixer = w.mixer ∧
    (Load env w path).2.nextId = w.nextId ∧
    (Load env w path).2.speakerOnce = w.speakerOnce := by
  obtain ⟨tr, htr⟩ := decodeFile_error_any h (releasePrevious (w.log .muLock))
  obtain ⟨h1, h2, h3, h4⟩ := releasePrevious_log w .muLock
  unfold Load
  simp only [htr]
  generalize releasePrevious (w.log .muLock) = w1 at *
  simp [World.log, h1, h2, h3, h4]

theorem Load_ok {env : Env} {w : World} {path : String} {st : Stream} {fmt : Format}
    (h : (decodeFile env w path).1 = .ok (st, fmt)) :
    (Load env w path).1 = none ∧
    (Load env w path).2.p =
      { stream := some { st with id := w.nextId }
        play := some (mkResampler (w.nextId + 1) fmt.SampleRate { st with id := w.nextId })
        vol := some
          { id := w.nextId + 2, Streamer := w.nextId + 1, Base := 10, Volume := volDB w.p }
        volNorm := w.p.volNorm
        ctrl := some { id := w.nextId + 3, Streamer := w.nextId + 2, Paused := true }
        sr := fmt.SampleRate
        started := false
        current := path } ∧
    (Load env w path).2.mixer = [] ∧
    (Load env w path).2.nextId = w.nextId + 4 ∧
    (Load env w path).2.speakerOnce = true := by
  obtain ⟨tr, htr⟩ := decodeFile_ok_any h (releasePrevious (w.log .muLock))
  obtain ⟨h1, h2, h3, h4⟩ := releasePrevious_log w .muLock
  obtain ⟨g1, g2, g3, g4, g5, g6, g7⟩ := releasePrevious_p w
  unfold Load
  simp only [htr]
  generalize releasePrevious (w.log .muLock) = w1 at *
  unfold ensureSpeaker
  split_ifs with hsp <;>
    simp [World.log, rebuild, mkResampler, mkVolume, h1, h2, h3, h4, g3, volDB]
  simpa [h3] using hsp

theorem inv_Load (env : Env) (w : World) (path : String) (h : Inv w.p) :
    Inv (Load env w path).2.p := by
  cases hd : (decodeFile env w path).1 with
  | error e =>
    obtain ⟨-, h2, -⟩ := Load_error hd
    obtain ⟨g1, g2, g3, g4, g5, g6, g7⟩ := releasePrevious_p w
    obtain ⟨k1, k2⟩ := releasePrevious_inv w h
    rw [h2]
    constructor
    · intro _; exact ⟨k1, k2⟩
    · intro st hst; rw [g1] at hst; cases hst
    · intro v hv
      rw [g2] at hv
      rw [volDB_congr g3]
      exact h.gain v hv
  | ok r =>
    obtain ⟨st, fmt⟩ := r
    obtain ⟨-, h2, -⟩ := Load_ok hd
    rw [h2]
    constructor <;> simp [mkResampler, volDB, speakerSR]

theorem inv_step (w : World) (op : Op) (h : Inv w.p) : Inv (step w op).p := by
  cases op with
  | setVolume norm => exact inv_SetVolume w norm h
  | load env path => exact inv_Load env w path h
  | play => exact inv_Play w h
  | pause => exact inv_Pause w h
  | stop env => exact inv_Stop env w h
  | seekRatio env r => exact inv_SeekRatio env w r h
  | seekBy env d => exact inv_SeekBy env w d h
  | seekTo env d => exact inv_SeekTo env w d h
  | pull n => exact inv_sinkPull w n h

theorem inv_of_reachable {w : World} (h : Reachable w) : Inv w.p := by
  induction h with
  | init => exact inv_init
  | step op _ ih => exact inv_step _ op ih

/-! ## Per-operation facts -/

theorem goInt_zero : goInt 0 = 0 := by
  simp [goInt]

theorem Play_volNorm (w : World) : (Play w).p.volNorm = w.p.volNorm := by
  obtain ⟨⟨stream, play, vol, volNorm, ctrl, sr, started, current⟩, mixer, once, nextId, trace⟩ := w
  rcases stream with _ | st <;> rcases ctrl with _ | c <;> rcases started <;>
    simp [Play, setPaused, World.log, World.logs]

theorem Pause_volNorm (w : World) : (Pause w).p.volNorm = w.p.volNorm := by
  obtain ⟨⟨stream, play, vol, volNorm, ctrl, sr, started, current⟩, mixer, once, nextId, trace⟩ := w
  rcases ctrl with _ | c <;> simp [Pause, setPaused, World.log, World.logs]

theorem retarget_volNorm (w : World) (v : EffectsVolume) :
    (retarget w v).p.volNorm = w.p.volNorm := by
  unfold retarget
  cases w.p.ctrl <;> simp [World.log]

theorem Stop_volNorm (env : Env) (w : World) : (Stop env w).p.volNorm = w.p.volNorm := by
  obtain ⟨⟨stream, play, vol, volNorm, ctrl, sr, started, current⟩, mixer, once, nextId, trace⟩ := w
  rcases stream with _ | st <;> rcases ctrl with _ | c <;>
    simp [Stop, setPaused, rebuild, retarget_volNorm, World.log, World.logs]

theorem seekChain_volNorm (env : Env) (w : World) (st : Stream) (target : Int) :
    (seekChain env w st target).2.p.volNorm = w.p.volNorm := by
  unfold seekChain Stream.Seek
  cases env.seek st target <;>
    simp [rebuild, retarget_volNorm, World.log, World.logs]

theorem SeekRatio_volNorm (env : Env) (w : World) (r : ℚ) :
    ( SeekRatio env w r).2.p.volNorm = w.p.volNorm := by
  unfold SeekRatio
  dsimp only
  cases (w.log Event.muLock).p.stream with
  | none => simp [World.log]
  | some st =>
    dsimp only
    split_ifs
    · simp [World.log]
    · rw [seekChain_volNorm]; simp [World.log]

theorem SeekBy_volNorm (env : Env) (w : World) (d : Int) :
    (SeekBy env w d).2.p.volNorm = w.p.volNorm := by
  unfold SeekBy
  dsimp only
  cases (w.log Event.muLock).p.stream with
  | none => simp [World.log]
  | some st =>
    dsimp only
    split_ifs
    · simp [World.log]
    · rw [seekChain_volNorm]; simp [World.log]

theorem SeekTo_volNorm (env : Env) (w : World) (d : Int) :
    (SeekTo env w d).2.p.volNorm = w.p.volNorm := by
  unfold SeekTo
  dsimp only
  cases (w.log Event.muLock).p.stream with
  | none => simp [World.log]
  | some st =>
    dsimp only
    split_ifs
    · simp [World.log]
    · rw [seekChain_volNorm]; simp [World.log]

theorem sinkPull_volNorm (w : World) (n : Nat) : (sinkPull w n).p.volNorm = w.p.volNorm := by
  unfold sinkPull
  cases w.p.stream <;> cases w.p.ctrl <;> dsimp only
  split_ifs <;> rfl

theorem Load_volNorm (env : Env) (w : World) (path : String) :
    (Load env w path).2.p.volNorm = w.p.volNorm := by
  cases hd : (decodeFile env w path).1 with
  | error e =>
    obtain ⟨-, h2, -⟩ := Load_error hd
    rw [h2]
    exact (releasePrevious_p w).2.2.1
  | ok r =>
    obtain ⟨st, fmt⟩ := r
    obtain ⟨-, h2, -⟩ := Load_ok hd
    rw [h2]

theorem SetVolume_p (w : World) (norm : ℚ) :
    (SetVolume w norm).p =
      { w.p with
        volNorm := norm
        vol := w.p.vol.map fun v =>
          { v with Base := 10, Volume := volDB { w.p with volNorm := norm } } } ∧
    (SetVolume w norm).mixer = w.mixer ∧
    (SetVolume w norm).nextId = w.nextId ∧
    (SetVolume w norm).speakerOnce = w.speakerOnce := by
  obtain ⟨⟨stream, play, vol, volNorm, ctrl, sr, started, current⟩, mixer, once, nextId, trace⟩ := w
  rcases vol with _ | v <;> simp [SetVolume, World.log, volDB]

/-! ## Volume -/

/-- C1 (counterexample): at normalized volume 0 the method `volDB` returns -4, not
the -40 that the formula -40 + 40*clamp(n, 0, 1) gives. -/
theorem volDB_zero_is_not_minus_forty :
    volDB { New with volNorm := 0 } = -4 ∧
    volDB { New with volNorm := 0 } ≠ -40 + 40 * clamp01 0 := by
  constructor <;> norm_num [volDB, New, clamp01]

/-- C1 (amended): for every player, `volDB` returns -4 + 4*clamp(n, 0, 1) for the
normalized volume n, one tenth of the decibel ramp -40 + 40*clamp(n, 0, 1); the
boundary values are `volDB = -4` at n = 0 and `volDB = 0` at n = 1. -/
theorem volDB_tenth_of_decibel_ramp (p : Player) :
    volDB p = -4 + 4 * clamp01 p.volNorm ∧
    10 * volDB p = -40 + 40 * clamp01 p.volNorm ∧
    volDB { p with volNorm := 0 } = -4 ∧
    volDB { p with volNorm := 1 } = 0 := by
  refine ⟨volDB_eq p, ?_, ?_, ?_⟩
  · rw [volDB_eq]; ring
  · norm_num [volDB]
  · norm_num [volDB]

/-- C2: the volume mapping is monotonic: for normalized volumes n1 < n2 in [0, 1],
`volDB` at n1 is at most `volDB` at n2. -/
theorem volDB_monotone (p q : Player) (h0 : 0 ≤ p.volNorm) (hlt : p.volNorm < q.volNorm)
    (h1 : q.volNorm ≤ 1) : volDB p ≤ volDB q := by
  rw [volDB_eq, volDB_eq]
  have hp : clamp01 p.volNorm = p.volNorm := by
    unfold clamp01
    rw [min_eq_left (by linarith), max_eq_right h0]
  have hq : clamp01 q.volNorm = q.volNorm := by
    unfold clamp01
    rw [min_eq_left h1, max_eq_right (by linarith)]
  rw [hp, hq]
  linarith

/-- C2 (witness): volumes 1/4 and 3/4. -/
theorem volDB_monotone_witness :
    ((0 : ℚ) ≤ ({ New with volNorm := 1 / 4 } : Player).volNorm ∧
      ({ New with volNorm := 1 / 4 } : Player).volNorm <
        ({ New with volNorm := 3 / 4 } : Player).volNorm ∧
      ({ New with volNorm := 3 / 4 } : Player).volNorm ≤ 1) ∧
    volDB { New with volNorm := 1 / 4 } ≤ volDB { New with volNorm := 3 / 4 } :=
  ⟨⟨by norm_num, by norm_num, by norm_num⟩,
    volDB_monotone _ _ (by norm_num) (by norm_num) (by norm_num)⟩

/-- C3 (counterexample): after `SetVolume(2)` on a new player `Volume()` returns 2, and
after `SetVolume(-1)` it returns -1: the stored value is not brought into [0, 1]. -/
theorem volume_not_normalized_after_SetVolume :
    Volume (SetVolume World.init 2).p = 2 ∧
    ¬ (Volume (SetVolume World.init 2).p ≤ 1) ∧
    Volume (SetVolume World.init (-1)).p = -1 ∧
    ¬ (0 ≤ Volume (SetVolume World.init (-1)).p) := by
  simp only [Volume, (SetVolume_p _ _).1]
  norm_num

theorem step_volNorm (w : World) (op : Op) :
    (step w op).p.volNorm =
      (match op with
      | .setVolume y => y
      | _ => w.p.volNorm) := by
  cases op with
  | setVolume norm => exact congrArg Player.volNorm (SetVolume_p w norm).1
  | load env path => exact Load_volNorm env w path
  | play => exact Play_volNorm w
  | pause => exact Pause_volNorm w
  | stop env => exact Stop_volNorm env w
  | seekRatio env r => exact SeekRatio_volNorm env w r
  | seekBy env d => exact SeekBy_volNorm env w d
  | seekTo env d => exact SeekTo_volNorm env w d
  | pull n => exact sinkPull_volNorm w n

theorem run_volNorm_range (w : World) (ops : List Op)
    (hw : 0 ≤ w.p.volNorm ∧ w.p.volNorm ≤ 1)
    (h : ∀ y, Op.setVolume y ∈ ops → 0 ≤ y ∧ y ≤ 1) :
    0 ≤ (run w ops).p.volNorm ∧ (run w ops).p.volNorm ≤ 1 := by
  induction ops generalizing w with
  | nil => exact hw
  | cons op ops ih =>
    have hs : 0 ≤ (step w op).p.volNorm ∧ (step w op).p.volNorm ≤ 1 := by
      rw [step_volNorm]
      cases op with
      | setVolume y => exact h y (List.mem_cons_self _ _)
      | load env path => exact hw
      | play => exact hw
      | pause => exact hw
      | stop env => exact hw
      | seekRatio env r => exact hw
      | seekBy env d => exact hw
      | seekTo env d => exact hw
      | pull n => exact hw
    exact ih (step w op) hs (fun y hy => h y (List.mem_cons_of_mem _ hy))

/-- C3 (amended): `SetVolume(x)` stores x as it is and `Volume()` returns it, so for
an argument in [0, 1], the domain the docstring of `SetVolume` names, `Volume()`
returns a value in [0, 1]; a new player reports 1 and no operation other than
`SetVolume` changes the value, so `Volume()` stays in [0, 1] through every sequence
of operations whose `SetVolume` arguments lie in [0, 1].  An argument outside
[0, 1] is clamped only where the gain is computed (`volDB`). -/
theorem volume_normalized_on_domain (w : World) (x : ℚ) (ops : List Op)
    (hx0 : 0 ≤ x) (hx1 : x ≤ 1)
    (hops : ∀ y, Op.setVolume y ∈ ops → 0 ≤ y ∧ y ≤ 1) :
    Volume (SetVolume w x).p = x ∧
    0 ≤ Volume (SetVolume w x).p ∧ Volume (SetVolume w x).p ≤ 1 ∧
    0 ≤ Volume (run World.init ops).p ∧ Volume (run World.init ops).p ≤ 1 ∧
    0 ≤ Volume (run (SetVolume w x) ops).p ∧ Volume (run (SetVolume w x) ops).p ≤ 1 ∧
    (∀ y, Volume (SetVolume w y).p = y ∧ volDB (SetVolume w y).p = -4 + 4 * clamp01 y) := by
  have hv : ∀ y, Volume (SetVolume w y).p = y := by
    intro y
    unfold Volume
    rw [(SetVolume_p w y).1]
  have h0 : 0 ≤ World.init.p.volNorm ∧ World.init.p.volNorm ≤ 1 := by
    have : World.init.p.volNorm = 1 := rfl
    rw [this]
    norm_num
  have h1 := run_volNorm_range World.init ops h0 hops
  have hv2 : (SetVolume w x).p.volNorm = x := hv x
  have h2 := run_volNorm_range (SetVolume w x) ops (by rw [hv2]; exact ⟨hx0, hx1⟩) hops
  refine ⟨hv x, by rw [hv x]; exact hx0, by rw [hv x]; exact hx1, h1.1, h1.2, h2.1, h2.2,
    fun y => ⟨hv y, ?_⟩⟩
  rw [volDB_eq]
  have : (SetVolume w y).p.volNorm = y := hv y
  rw [this]

/-- C3 (witness): `SetVolume(0.5)` on a new player, followed by `SetVolume(0.25)`,
`Load("a.mp3")` and `Play()`. -/
theorem volume_normalized_on_domain_witness :
    Volume (SetVolume World.init (1 / 2)).p = 1 / 2 ∧
    0 ≤ Volume (run (SetVolume World.init (1 / 2))
      [.setVolume (1 / 4), .load demoEnv "a.mp3", .play]).p ∧
    Volume (run (SetVolume World.init (1 / 2))
      [.setVolume (1 / 4), .load demoEnv "a.mp3", .play]).p ≤ 1 := by
  have h := volume_normalized_on_domain World.init (1 / 2)
    [.setVolume (1 / 4), .load demoEnv "a.mp3", .play] (by norm_num) (by norm_num)
    (by
      intro y hy
      simp only [List.mem_cons, Op.setVolume.injEq, List.mem_singleton, reduceCtorEq,
        or_false, List.not_mem_nil] at hy
      rw [hy]
      norm_num)
  exact ⟨h.1, h.2.2.2.2.2.1, h.2.2.2.2.2.2.1⟩

/-- C4: `Load` (succeeding or failing), `Play`, `Pause`, `Stop`, `SeekRatio`, `SeekBy`,
`SeekTo` and the output callback leave the value returned by `Volume()` unchanged;
`SetVolume(x)` makes it x; a new player starts at 1. -/
theorem volume_persists (env : Env) (w : World) (path : String) (r x : ℚ) (d : Int)
    (n : Nat) :
    Volume (Load env w path).2.p = Volume w.p ∧
    Volume (Play w).p = Volume w.p ∧
    Volume (Pause w).p = Volume w.p ∧
    Volume (Stop env w).p = Volume w.p ∧
    Volume ( SeekRatio env w r).2.p = Volume w.p ∧
    Volume (SeekBy env w d).2.p = Volume w.p ∧
    Volume (SeekTo env w d).2.p = Volume w.p ∧
    Volume (sinkPull w n).p = Volume w.p ∧
    Volume (SetVolume w x).p = x ∧
    Volume New = 1 := by
  unfold Volume
  refine ⟨Load_volNorm env w path, Play_volNorm w, Pause_volNorm w, Stop_volNorm env w,
    SeekRatio_volNorm env w r, SeekBy_volNorm env w d, SeekTo_volNorm env w d,
    sinkPull_volNorm w n, ?_, rfl⟩
  rw [(SetVolume_p w x).1]

/-- C5: in every reachable world with a stream loaded, the control streams from the
gain stage `p.vol`, which has base 10 and volume `volDB` of the current normalized
volume; and `SetVolume` writes the base and the volume of the existing gain stage
and the stored volume, and nothing else: stream, resampler, control (with its
paused flag), started flag, native rate, current file, the gain stage's identity
and source, the mixer and the allocation counter are unchanged. -/
theorem gain_stage_follows_volume (w : World) (h : Reachable w) :
    (∀ st, w.p.stream = some st → ∃ c v, w.p.ctrl = some c ∧ w.p.vol = some v ∧
      c.Streamer = v.id ∧ v.Base = 10 ∧ v.Volume = volDB w.p) ∧
    (∀ norm : ℚ,
      (SetVolume w norm).p =
        { w.p with
          volNorm := norm
          vol := w.p.vol.map fun v =>
            { v with Base := 10, Volume := volDB { w.p with volNorm := norm } } } ∧
      (SetVolume w norm).mixer = w.mixer ∧
      (SetVolume w norm).nextId = w.nextId ∧
      Reachable (SetVolume w norm)) := by
  constructor
  · intro st hst
    obtain ⟨r, v, c, h1, h2, h3, h4, -⟩ := (inv_of_reachable h).chain st hst
    exact ⟨c, v, h3, h2, h4, (inv_of_reachable h).gain v h2⟩
  · intro norm
    have hr : Reachable (SetVolume w norm) := Reachable.step (.setVolume norm) h
    exact ⟨(SetVolume_p w norm).1, (SetVolume_p w norm).2.1, (SetVolume_p w norm).2.2.1, hr⟩

/-- C5 (witness): after `Load("a.mp3")` and `SetVolume(1/2)` the control streams from
the gain stage, whose volume is -2. -/
theorem gain_stage_follows_volume_witness :
    Reachable (SetVolume demoLoaded (1 / 2)) ∧
    ∃ c v, (SetVolume demoLoaded (1 / 2)).p.ctrl = some c ∧
      (SetVolume demoLoaded (1 / 2)).p.vol = some v ∧
      c.Streamer = v.id ∧ v.Base = 10 ∧ v.Volume = volDB (SetVolume demoLoaded (1 / 2)).p := by
  have hR : Reachable (SetVolume demoLoaded (1 / 2)) :=
    Reachable.step (.setVolume (1 / 2)) (Reachable.step (.load demoEnv "a.mp3") Reachable.init)
  have hS : (SetVolume demoLoaded (1 / 2)).p.stream = some ⟨0, 441000, 0⟩ := by
    rw [(SetVolume_p _ _).1]; rfl
  exact ⟨hR, (gain_stage_follows_volume _ hR).1 _ hS⟩

/-! ## Operations on a player without a stream -/

theorem Play_noStream {w : World} (h : w.p.stream = none) :
    Play w = w.logs [.muLock, .muUnlock] := by
  obtain ⟨⟨stream, play, vol, volNorm, ctrl, sr, started, current⟩, mixer, once, nextId, trace⟩ := w
  dsimp only at h
  subst h
  simp [Play, World.log, World.logs]

theorem Pause_noCtrl {w : World} (h : w.p.ctrl = none) :
    Pause w = w.logs [.muLock, .muUnlock] := by
  obtain ⟨⟨stream, play, vol, volNorm, ctrl, sr, started, current⟩, mixer, once, nextId, trace⟩ := w
  dsimp only at h
  subst h
  simp [Pause, World.log, World.logs]

theorem Stop_noStream (env : Env) {w : World} (h : w.p.stream = none) :
    Stop env w = w.logs [.muLock, .muUnlock] := by
  obtain ⟨⟨stream, play, vol, volNorm, ctrl, sr, started, current⟩, mixer, once, nextId, trace⟩ := w
  dsimp only at h
  subst h
  simp [Stop, World.log, World.logs]

theorem SeekRatio_noStream (env : Env) {w : World} (r : ℚ) (h : w.p.stream = none) :
    SeekRatio env w r = (some "akış yok", w.logs [.muLock, .muUnlock]) := by
  obtain ⟨⟨stream, play, vol, volNorm, ctrl, sr, started, current⟩, mixer, once, nextId, trace⟩ := w
  dsimp only at h
  subst h
  simp [ SeekRatio, World.log, World.logs, errorsNew]

theorem SeekBy_noStream (env : Env) {w : World} (d : Int) (h : w.p.stream = none) :
    SeekBy env w d = (some "akış yok", w.logs [.muLock, .muUnlock]) := by
  obtain ⟨⟨stream, play, vol, volNorm, ctrl, sr, started, current⟩, mixer, once, nextId, trace⟩ := w
  dsimp only at h
  subst h
  simp [SeekBy, World.log, World.logs, errorsNew]

theorem SeekTo_noStream (env : Env) {w : World} (d : Int) (h : w.p.stream = none) :
    SeekTo env w d = (some "akış yok", w.logs [.muLock, .muUnlock]) := by
  obtain ⟨⟨stream, play, vol, volNorm, ctrl, sr, started, current⟩, mixer, once, nextId, trace⟩ := w
  dsimp only at h
  subst h
  simp [SeekTo, World.log, World.logs, errorsNew]

theorem Duration_noStream {p : Player} (h : p.stream = none) :
    Duration p = .error "akış yok" := by
  simp [Duration, h, errorsNew]

theorem Position_noStream {p : Player} (h : p.stream = none) :
    Position p = .error "akış yok" := by
  simp [Position, h, errorsNew]

theorem Load_of_decode_error {env : Env} {w w2 : World} {path : String} {e : GoError}
    (h : decodeFile env (releasePrevious (w.log .muLock)) path = (.error e, w2)) :
    Load env w path = (some e, w2.log .muUnlock) := by
  unfold Load
  simp only [h]

theorem decodeFile_open_error {env : Env} (w : World) {path : String} {e : GoError}
    (h : env.osOpen path = .error e) :
    decodeFile env w path = (.error e, w.logs [.osOpen path]) := by
  unfold decodeFile
  simp [h, World.log, World.logs]

theorem decodeFile_unsupported {env : Env} (w : World) {path : String} {f : File}
    (h : env.osOpen path = .ok f)
    (hmp3 : stringsToLower (filepathExt path) ≠ ".mp3")
    (hwav : stringsToLower (filepathExt path) ≠ ".wav")
    (hflac : stringsToLower (filepathExt path) ≠ ".flac")
    (hogg : stringsToLower (filepathExt path) ≠ ".ogg") :
    decodeFile env w path =
      (.error ("desteklenmeyen format: " ++ stringsToLower (filepathExt path)),
        w.logs [.osOpen path, .fileClose path]) := by
  unfold decodeFile
  simp [h, hmp3, hwav, hflac, hogg, World.log, World.logs]

/-! ## Load -/

theorem decodeFile_ok_path_ne {env : Env} {w : World} {path : String}
    {r : Stream × Format} (h : (decodeFile env w path).1 = .ok r) : path ≠ "" := by
  intro hp
  subst hp
  have hext : stringsToLower (filepathExt "") = "" := by decide
  unfold decodeFile at h
  simp only [hext] at h
  cases ho : env.osOpen "" <;> simp [ho] at h

/-- C6 (counterexample): in a file system whose `z.wav` decodes with header sample
rate 0, `Load("z.wav")` on a new player succeeds and `Position()` then returns the
error "akış yok" instead of reporting 0. -/
theorem position_errs_after_load_at_rate_zero :
    (decodeFile zeroRateEnv World.init "z.wav").1 = .ok (⟨0, 1000, 0⟩, ⟨0, 1, 2⟩) ∧
    (Load zeroRateEnv World.init "z.wav").1 = none ∧
    Position (Load zeroRateEnv World.init "z.wav").2.p = .error "akış yok" ∧
    Position (Load zeroRateEnv World.init "z.wav").2.p ≠ .ok 0 := by
  have hd : (decodeFile zeroRateEnv World.init "z.wav").1 = .ok (⟨0, 1000, 0⟩, ⟨0, 1, 2⟩) := by
    rfl
  obtain ⟨h1, h2, -⟩ := Load_ok hd
  refine ⟨hd, h1, ?_, ?_⟩ <;> rw [h2] <;> simp [Position, errorsNew]

/-- C6 (amended): for every prior world and every path whose decode succeeds, `Load`
returns no error and afterwards `CurrentFile()` returns that path, the native rate
is the decoded format's sample rate, the started flag is false, the control is
paused, `IsPlaying()` is false, and `Position()` reports 0 when the decoded sample
rate is not 0 and the fresh stream is at frame 0, and returns the error "akış yok"
when the decoded sample rate is 0. -/
theorem load_success_is_loaded (env : Env) (w : World) (path : String) (st : Stream)
    (fmt : Format) (h : (decodeFile env w path).1 = .ok (st, fmt)) :
    (Load env w path).1 = none ∧
    CurrentFile (Load env w path).2.p = .ok path ∧
    (Load env w path).2.p.sr = fmt.SampleRate ∧
    (Load env w path).2.p.started = false ∧
    (∃ c, (Load env w path).2.p.ctrl = some c ∧ c.Paused = true) ∧
    (∃ s, (Load env w path).2.p.stream = some s ∧ s.len = st.len ∧ s.pos = st.pos) ∧
    IsPlaying (Load env w path).2.p = false ∧
    (fmt.SampleRate ≠ 0 → st.pos = 0 → Position (Load env w path).2.p = .ok 0) ∧
    (fmt.SampleRate = 0 → Position (Load env w path).2.p = .error "akış yok") := by
  have hne := decodeFile_ok_path_ne h
  obtain ⟨h1, h2, -⟩ := Load_ok h
  rw [h2]
  refine ⟨h1, ?_, rfl, rfl, ⟨_, rfl, rfl⟩, ⟨_, rfl, rfl, rfl⟩, ?_, ?_, ?_⟩
  · simp [CurrentFile, hne]
  · simp [IsPlaying]
  · intro hsr hpos
    simp [Position, hsr, hpos, goInt_zero, f64_zero]
  · intro hsr
    simp [Position, hsr, errorsNew]

/-- C6 (witness): `Load("a.mp3")` on a new player in `demoEnv`. -/
theorem load_success_is_loaded_witness :
    (decodeFile demoEnv World.init "a.mp3").1 = .ok (⟨0, 441000, 0⟩, ⟨44100, 2, 2⟩) ∧
    (Load demoEnv World.init "a.mp3").1 = none ∧
    CurrentFile (Load demoEnv World.init "a.mp3").2.p = .ok "a.mp3" ∧
    IsPlaying (Load demoEnv World.init "a.mp3").2.p = false ∧
    Position (Load demoEnv World.init "a.mp3").2.p = .ok 0 := by
  have hd : (decodeFile demoEnv World.init "a.mp3").1 =
      .ok (⟨0, 441000, 0⟩, ⟨44100, 2, 2⟩) := by rfl
  have h := load_success_is_loaded demoEnv World.init "a.mp3" _ _ hd
  exact ⟨hd, h.1, h.2.1, h.2.2.2.2.2.2.1, h.2.2.2.2.2.2.2.1 (by decide) rfl⟩

/-- C7 (counterexample): while `a.mp3` plays (gain stage 2 over resampler 1 over
stream 0, control 3 in the mixer), `Load("missing.mp3")` fails in `os.Open`.  The
player is left without stream, but of the old session it keeps the gain stage,
the started flag and the current file, and the old control is still in the
mixer. -/
theorem failed_load_keeps_gain_stage :
    demoPlaying.p.stream = some ⟨0, 441000, 0⟩ ∧
    demoPlaying.p.play.map (fun r => (r.id, r.src)) = some (1, 0) ∧
    demoPlaying.p.vol.map (fun v => (v.id, v.Streamer)) = some (2, 1) ∧
    (Load demoEnv demoPlaying "missing.mp3").1 = some "open: no such file or directory" ∧
    (Load demoEnv demoPlaying "missing.mp3").2.p.stream = none ∧
    (Load demoEnv demoPlaying "missing.mp3").2.p.vol.map (fun v => (v.id, v.Streamer)) =
      some (2, 1) ∧
    (Load demoEnv demoPlaying "missing.mp3").2.p.started = true ∧
    (Load demoEnv demoPlaying "missing.mp3").2.p.current = "a.mp3" ∧
    (Load demoEnv demoPlaying "missing.mp3").2.mixer = [3] := by
  decide

/-- C7 (amended): for every reachable world and every path for which `decodeFile`
fails with an error e, `Load` returns exactly e and leaves no stream, no resampler
and no control: the player is the one before the call with these three fields
nil, so the gain stage `p.vol`, the started flag, the native rate, the volume and
the current file keep their values; `IsPlaying()` is false, and `Duration()`,
`Position()`, `SeekRatio`, `SeekBy` and `SeekTo` all return the error "akış yok" (no
stream). -/
theorem load_failure_leaves_empty (env : Env) (w : World) (path : String) (e : GoError)
    (hw : Reachable w) (h : (decodeFile env w path).1 = .error e)
    (env2 : Env) (r : ℚ) (d : Int) :
    (Load env w path).1 = some e ∧
    (Load env w path).2.p = { w.p with stream := none, play := none, ctrl := none } ∧
    (Load env w path).2.p.stream = none ∧
    (Load env w path).2.p.play = none ∧
    (Load env w path).2.p.ctrl = none ∧
    IsPlaying (Load env w path).2.p = false ∧
    Duration (Load env w path).2.p = .error "akış yok" ∧
    Position (Load env w path).2.p = .error "akış yok" ∧
    ( SeekRatio env2 (Load env w path).2 r).1 = some "akış yok" ∧
    (SeekBy env2 (Load env w path).2 d).1 = some "akış yok" ∧
    (SeekTo env2 (Load env w path).2 d).1 = some "akış yok" := by
  obtain ⟨h1, h2, -⟩ := Load_error h
  obtain ⟨k1, k2⟩ := releasePrevious_inv w (inv_of_reachable hw)
  obtain ⟨g1, g2, g3, g4, g5, g6, -⟩ := releasePrevious_p w
  have hp : (Load env w path).2.p =
      { w.p with stream := none, play := none, ctrl := none } := by
    rw [h2]
    generalize (releasePrevious w).p = q at k1 k2 g1 g2 g3 g4 g5 g6
    obtain ⟨qs, qp, qv, qn, qc, qr, qt, qf⟩ := q
    dsimp only at k1 k2 g1 g2 g3 g4 g5 g6
    subst k1 k2 g1 g2 g3 g4 g5 g6
    rfl
  have hs : (Load env w path).2.p.stream = none := by rw [hp]
  have hc : (Load env w path).2.p.ctrl = none := by rw [hp]
  refine ⟨h1, hp, hs, by rw [hp], hc, ?_, Duration_noStream hs, Position_noStream hs,
    ?_, ?_, ?_⟩
  · simp [IsPlaying, hc]
  · rw [SeekRatio_noStream env2 r hs]
  · rw [SeekBy_noStream env2 d hs]
  · rw [SeekTo_noStream env2 d hs]

/-- C7 (witness): with `a.mp3` loaded, `Load("missing.mp3")` fails in `os.Open`. -/
theorem load_failure_leaves_empty_witness :
    Reachable demoLoaded ∧
    (decodeFile demoEnv demoLoaded "missing.mp3").1 =
      .error "open: no such file or directory" ∧
    (Load demoEnv demoLoaded "missing.mp3").1 = some "open: no such file or directory" ∧
    (Load demoEnv demoLoaded "missing.mp3").2.p.stream = none ∧
    (Load demoEnv demoLoaded "missing.mp3").2.p.ctrl = none ∧
    Position (Load demoEnv demoLoaded "missing.mp3").2.p = .error "akış yok" := by
  have hR : Reachable demoLoaded := Reachable.step (.load demoEnv "a.mp3") Reachable.init
  have hd : (decodeFile demoEnv demoLoaded "missing.mp3").1 =
      .error "open: no such file or directory" := by rfl
  have h := load_failure_leaves_empty demoEnv demoLoaded "missing.mp3" _ hR hd demoEnv 0 0
  exact ⟨hR, hd, h.1, h.2.2.1, h.2.2.2.2.1, h.2.2.2.2.2.2.2.1⟩

/-- C8 (counterexample): `Load("a.mp3")` succeeds, then `Load("missing.mp3")` fails; the
player has no stream, and `CurrentFile()` still returns "a.mp3" with no error. -/
theorem currentFile_stale_after_failed_load :
    (Load demoEnv demoLoaded "missing.mp3").1 = some "open: no such file or directory" ∧
    demoStale = (Load demoEnv demoLoaded "missing.mp3").2 ∧
    demoStale.p.stream = none ∧
    CurrentFile demoStale.p = .ok "a.mp3" := by
  refine ⟨by decide, rfl, by decide, by rfl⟩

/-- C9 (counterexample): in `demoEnv` the file `c.xyz` does not exist and `b.xyz`
does; `Load("c.xyz")` calls `os.Open` and returns its error, not the
unsupported-format error that `Load("b.xyz")` returns. -/
theorem load_xyz_depends_on_file :
    stringsToLower (filepathExt "c.xyz") = ".xyz" ∧
    (Load demoEnv World.init "c.xyz").1 = some "open: no such file or directory" ∧
    (Load demoEnv World.init "c.xyz").1 ≠ some "desteklenmeyen format: .xyz" ∧
    Event.osOpen "c.xyz" ∈ (Load demoEnv World.init "c.xyz").2.trace ∧
    (Load demoEnv World.init "b.xyz").1 = some "desteklenmeyen format: .xyz" := by
  refine ⟨by decide, by decide, by decide, by decide, by decide⟩

/-- C9 (amended): for every path whose lower-cased extension is none of .mp3, .wav,
.flac, .ogg, `Load` opens the file first; if `os.Open` fails `Load` returns that
error, and otherwise the file is closed again, no codec is run, and `Load` returns
the unsupported-format error naming the extension. -/
theorem load_unsupported_extension (env : Env) (w : World) (path : String)
    (hmp3 : stringsToLower (filepathExt path) ≠ ".mp3")
    (hwav : stringsToLower (filepathExt path) ≠ ".wav")
    (hflac : stringsToLower (filepathExt path) ≠ ".flac")
    (hogg : stringsToLower (filepathExt path) ≠ ".ogg") :
    (∀ e, env.osOpen path = .error e →
      decodeFile env w path = (.error e, w.logs [.osOpen path]) ∧
      (Load env w path).1 = some e) ∧
    (∀ f, env.osOpen path = .ok f →
      decodeFile env w path =
        (.error ("desteklenmeyen format: " ++ stringsToLower (filepathExt path)),
          w.logs [.osOpen path, .fileClose path]) ∧
      (Load env w path).1 =
        some ("desteklenmeyen format: " ++ stringsToLower (filepathExt path))) ∧
    Event.osOpen path ∈ (Load env w path).2.trace := by
  refine ⟨?_, ?_, ?_⟩
  · intro e he
    refine ⟨decodeFile_open_error w he, ?_⟩
    rw [Load_of_decode_error (decodeFile_open_error _ he)]
  · intro f hf
    refine ⟨decodeFile_unsupported w hf hmp3 hwav hflac hogg, ?_⟩
    rw [Load_of_decode_error (decodeFile_unsupported _ hf hmp3 hwav hflac hogg)]
  · cases ho : env.osOpen path with
    | error e =>
      rw [Load_of_decode_error (decodeFile_open_error _ ho)]
      simp [World.log, World.logs]
    | ok f =>
      rw [Load_of_decode_error (decodeFile_unsupported _ ho hmp3 hwav hflac hogg)]
      simp [World.log, World.logs]

/-- C9 (witness): the readable file `b.xyz` of `demoEnv`. -/
theorem load_unsupported_extension_witness :
    (stringsToLower (filepathExt "b.xyz") ≠ ".mp3" ∧
      stringsToLower (filepathExt "b.xyz") ≠ ".wav" ∧
      stringsToLower (filepathExt "b.xyz") ≠ ".flac" ∧
      stringsToLower (filepathExt "b.xyz") ≠ ".ogg") ∧
    (Load demoEnv World.init "b.xyz").1 =
      some ("desteklenmeyen format: " ++ stringsToLower (filepathExt "b.xyz")) ∧
    Event.osOpen "b.xyz" ∈ (Load demoEnv World.init "b.xyz").2.trace := by
  have h := load_unsupported_extension demoEnv World.init "b.xyz"
    (by decide) (by decide) (by decide) (by decide)
  exact ⟨by decide, (h.2.1 ⟨4⟩ rfl).2, h.2.2⟩

/-- C10: in every reachable world without a stream, `Play`, `Pause` and `Stop` only
lock and unlock the mutex: the player, the mixer and every other part of the world
are unchanged and nothing is handed to `speaker.Play`; `SeekRatio`, `SeekBy` and
`SeekTo` return the error "akış yok" and likewise change nothing; `Duration()` and
`Position()` return the error "akış yok". -/
theorem no_stream_operations (w : World) (hw : Reachable w) (h : w.p.stream = none)
    (env : Env) (r : ℚ) (d : Int) :
    Play w = w.logs [.muLock, .muUnlock] ∧
    Pause w = w.logs [.muLock, .muUnlock] ∧
    Stop env w = w.logs [.muLock, .muUnlock] ∧
    SeekRatio env w r = (some "akış yok", w.logs [.muLock, .muUnlock]) ∧
    SeekBy env w d = (some "akış yok", w.logs [.muLock, .muUnlock]) ∧
    SeekTo env w d = (some "akış yok", w.logs [.muLock, .muUnlock]) ∧
    Duration w.p = .error "akış yok" ∧
    Position w.p = .error "akış yok" :=
  ⟨Play_noStream h, Pause_noCtrl ((inv_of_reachable hw).empty h).2, Stop_noStream env h,
    SeekRatio_noStream env r h, SeekBy_noStream env d h, SeekTo_noStream env d h,
    Duration_noStream h, Position_noStream h⟩

/-- C10 (witness): the player left by a failed `Load` after a successful one. -/
theorem no_stream_operations_witness :
    Reachable demoStale ∧ demoStale.p.stream = none ∧
    (Play demoStale).p = demoStale.p ∧ (Play demoStale).mixer = demoStale.mixer ∧
    (SeekBy demoEnv demoStale 5).1 = some "akış yok" := by
  have hR : Reachable demoStale :=
    Reachable.step (.load demoEnv "missing.mp3")
      (Reachable.step (.load demoEnv "a.mp3") Reachable.init)
  have hs : demoStale.p.stream = none := by decide
  have h := no_stream_operations demoStale hR hs demoEnv 0 5
  refine ⟨hR, hs, ?_, ?_, ?_⟩
  · rw [h.1]; rfl
  · rw [h.1]; rfl
  · rw [h.2.2.2.2.1]

/-! ## Arithmetic of the seek targets -/

theorem goInt_of_nonneg {x : ℚ} (hx : 0 ≤ x) : goInt x = ⌊x⌋ := by
  unfold goInt
  rw [Rat.floor_def, Int.tdiv_eq_ediv (Rat.num_nonneg.mpr hx) (by positivity)]

theorem goInt_neg (x : ℚ) : goInt (-x) = -goInt x := by
  simp [goInt]

theorem goInt_of_nonpos {x : ℚ} (hx : x ≤ 0) : goInt x = ⌈x⌉ := by
  have hx' : (0 : ℚ) ≤ -x := by linarith
  have h := goInt_of_nonneg hx'
  rw [goInt_neg, Int.floor_neg] at h
  omega

theorem goInt_intCast (n : Int) : goInt (n : ℚ) = n := by
  simp [goInt]

theorem goInt_eq_of_eq {x : ℚ} {n : Int} (h : x = (n : ℚ)) : goInt x = n := by
  rw [h, goInt_intCast]

/-- Truncation moves a rational by less than 1. -/
theorem goInt_near (x : ℚ) : |((goInt x : Int) : ℚ) - x| < 1 := by
  rcases le_total 0 x with h | h
  · rw [goInt_of_nonneg h, abs_lt]
    have a := Int.floor_le x
    have b := Int.lt_floor_add_one x
    constructor <;> linarith
  · rw [goInt_of_nonpos h, abs_lt]
    have a := Int.le_ceil x
    have b := Int.ceil_lt_add_one x
    constructor <;> linarith

theorem f64_close {x y k : ℚ} (h : |y - x| ≤ k * |x|) :
    |f64 y - x| ≤ (k + (1 + k) / 2 ^ 53) * |x| := by
  have e := f64_error y
  have hy : |y| ≤ |x| + |y - x| := by
    have := abs_add (y - x) x
    rw [sub_add_cancel] at this
    linarith
  have ht : |f64 y - x| ≤ |f64 y - y| + |y - x| := by
    have := abs_add (f64 y - y) (y - x)
    rwa [sub_add_sub_cancel] at this
  have : |y| / 2 ^ 53 ≤ (1 + k) * |x| / 2 ^ 53 :=
    div_le_div_of_nonneg_right (by linarith) (by positivity)
  calc |f64 y - x| ≤ |f64 y - y| + |y - x| := ht
    _ ≤ (1 + k) * |x| / 2 ^ 53 + k * |x| := by linarith
    _ = (k + (1 + k) / 2 ^ 53) * |x| := by ring

theorem mul_close {x1 x2 y1 y2 k1 k2 : ℚ} (h1 : |y1 - x1| ≤ k1 * |x1|)
    (h2 : |y2 - x2| ≤ k2 * |x2|) :
    |y1 * y2 - x1 * x2| ≤ (k1 + k2 + k1 * k2) * |x1 * x2| := by
  have e : y1 * y2 - x1 * x2 =
      (y1 - x1) * x2 + x1 * (y2 - x2) + (y1 - x1) * (y2 - x2) := by ring
  have a1 := abs_nonneg (y1 - x1)
  have a2 := abs_nonneg (y2 - x2)
  have b1 := abs_nonneg x1
  have b2 := abs_nonneg x2
  have t1 : |(y1 - x1) * x2| ≤ k1 * |x1| * |x2| := by
    rw [abs_mul]; exact mul_le_mul_of_nonneg_right h1 b2
  have t2 : |x1 * (y2 - x2)| ≤ |x1| * (k2 * |x2|) := by
    rw [abs_mul]; exact mul_le_mul_of_nonneg_left h2 b1
  have t3 : |(y1 - x1) * (y2 - x2)| ≤ k1 * |x1| * (k2 * |x2|) := by
    rw [abs_mul]; exact mul_le_mul h1 h2 a2 (le_trans a1 h1)
  rw [e, abs_mul x1 x2]
  calc |(y1 - x1) * x2 + x1 * (y2 - x2) + (y1 - x1) * (y2 - x2)|
      ≤ |(y1 - x1) * x2 + x1 * (y2 - x2)| + |(y1 - x1) * (y2 - x2)| := abs_add _ _
    _ ≤ |(y1 - x1) * x2| + |x1 * (y2 - x2)| + |(y1 - x1) * (y2 - x2)| := by
        have := abs_add ((y1 - x1) * x2) (x1 * (y2 - x2)); linarith
    _ ≤ k1 * |x1| * |x2| + |x1| * (k2 * |x2|) + k1 * |x1| * (k2 * |x2|) := by linarith
    _ = (k1 + k2 + k1 * k2) * (|x1| * |x2|) := by ring

theorem add_close {x1 x2 y1 y2 k : ℚ} (hs : 0 ≤ x1 * x2) (h1 : |y1 - x1| ≤ k * |x1|)
    (h2 : |y2 - x2| ≤ k * |x2|) :
    |y1 + y2 - (x1 + x2)| ≤ k * |x1 + x2| := by
  have e : y1 + y2 - (x1 + x2) = (y1 - x1) + (y2 - x2) := by ring
  have hab : |x1 + x2| = |x1| + |x2| := by
    rcases le_total 0 x1 with a | a <;> rcases le_total 0 x2 with b | b
    · rw [abs_of_nonneg a, abs_of_nonneg b, abs_of_nonneg (by linarith)]
    · have : x1 = 0 ∨ x2 = 0 := by
        by_contra hne
        push_neg at hne
        have : x1 * x2 < 0 := mul_neg_of_pos_of_neg (lt_of_le_of_ne a (Ne.symm hne.1))
          (lt_of_le_of_ne b hne.2)
        linarith
      rcases this with h | h <;> simp [h]
    · have : x1 = 0 ∨ x2 = 0 := by
        by_contra hne
        push_neg at hne
        have : x1 * x2 < 0 := mul_neg_of_neg_of_pos (lt_of_le_of_ne a hne.1)
          (lt_of_le_of_ne b (Ne.symm hne.2))
        linarith
      rcases this with h | h <;> simp [h]
    · rw [abs_of_nonpos a, abs_of_nonpos b, abs_of_nonpos (by linarith)]; ring
  rw [e, hab]
  have := abs_add (y1 - x1) (y2 - x2)
  linarith

theorem div_const_close {x y k c : ℚ} (hc : 0 < c) (h : |y - x| ≤ k * |x|) :
    |y / c - x / c| ≤ k * |x / c| := by
  rw [← sub_div, abs_div, abs_div, abs_of_pos hc]
  rw [← mul_div_assoc]
  exact div_le_div_of_nonneg_right h hc.le

theorem close_mono {x y k k' : ℚ} (h : |y - x| ≤ k * |x|) (hk : k ≤ k') :
    |y - x| ≤ k' * |x| :=
  le_trans h (mul_le_mul_of_nonneg_right hk (abs_nonneg x))

theorem f64_close0 (x : ℚ) : |f64 x - x| ≤ 1 / 2 ^ 53 * |x| := by
  have := f64_error x
  calc |f64 x - x| ≤ |x| / 2 ^ 53 := this
    _ = 1 / 2 ^ 53 * |x| := by ring

theorem tdiv_tmod_cast (d : Int) :
    ((Int.tdiv d timeSecond : Int) : ℚ) + ((Int.tmod d timeSecond : Int) : ℚ) / 1000000000 =
      (d : ℚ) / 1000000000 := by
  have h := Int.tdiv_add_tmod d timeSecond
  have hq : (d : ℚ) = (timeSecond : ℚ) * ((Int.tdiv d timeSecond : Int) : ℚ) +
      ((Int.tmod d timeSecond : Int) : ℚ) := by exact_mod_cast h.symm
  rw [hq]
  norm_num [timeSecond]
  ring

theorem tdiv_tmod_sign (d : Int) :
    (0 : ℚ) ≤ ((Int.tdiv d timeSecond : Int) : ℚ) *
      (((Int.tmod d timeSecond : Int) : ℚ) / 1000000000) := by
  rcases le_total 0 d with h | h
  · have a : 0 ≤ Int.tdiv d timeSecond := Int.tdiv_nonneg h (by decide)
    have b : 0 ≤ Int.tmod d timeSecond := Int.tmod_nonneg _ h
    have a' : (0 : ℚ) ≤ ((Int.tdiv d timeSecond : Int) : ℚ) := by exact_mod_cast a
    have b' : (0 : ℚ) ≤ ((Int.tmod d timeSecond : Int) : ℚ) := by exact_mod_cast b
    positivity
  · have a : Int.tdiv d timeSecond ≤ 0 := by
      have := Int.tdiv_nonneg (a := -d) (b := timeSecond) (by omega) (by decide)
      rw [Int.neg_tdiv] at this
      omega
    have b : Int.tmod d timeSecond ≤ 0 := by
      have h1 := Int.tmod_nonneg (a := -d) timeSecond (by omega)
      have h2 := Int.tdiv_add_tmod d timeSecond
      have h3 := Int.tdiv_add_tmod (-d) timeSecond
      rw [Int.neg_tdiv] at h3
      unfold timeSecond at h1 h2 h3 ⊢
      omega
    have a' : ((Int.tdiv d timeSecond : Int) : ℚ) ≤ 0 := by exact_mod_cast a
    have b' : ((Int.tmod d timeSecond : Int) : ℚ) ≤ 0 := by exact_mod_cast b
    have : ((Int.tmod d timeSecond : Int) : ℚ) / 1000000000 ≤ 0 :=
      div_nonpos_of_nonpos_of_nonneg b' (by norm_num)
    exact mul_nonneg_of_nonpos_of_nonpos a' this

/-- The float64 value `d.Seconds()` is within a relative error of 2^-51 of the
exact number of seconds. -/
theorem seconds_close (d : Int) :
    |seconds d - (d : ℚ) / 1000000000| ≤ 1 / 2 ^ 51 * |(d : ℚ) / 1000000000| := by
  have hS := f64_close0 ((Int.tdiv d timeSecond : Int) : ℚ)
  have hN := f64_close0 ((Int.tmod d timeSecond : Int) : ℚ)
  have hN2 := div_const_close (c := 1000000000) (by norm_num) hN
  have hb := f64_close hN2
  have hS' := close_mono hS (by norm_num :
    (1 : ℚ) / 2 ^ 53 ≤ 1 / 2 ^ 53 + (1 + 1 / 2 ^ 53) / 2 ^ 53)
  have hA := add_close (tdiv_tmod_sign d) hS' hb
  rw [tdiv_tmod_cast] at hA
  have hf := f64_close hA
  exact close_mono hf (by norm_num)

theorem f64_ofInt {x : ℚ} (n : Int) (h : x = (n : ℚ)) (hn : |n| ≤ 2 ^ 53) : f64 x = x := by
  rw [h]; exact f64_intCast n hn

theorem seconds_whole (s : Int) (hs : |s| ≤ 2 ^ 53) : seconds (s * timeSecond) = s := by
  unfold seconds
  have h1 : Int.tdiv (s * timeSecond) timeSecond = s :=
    Int.mul_tdiv_cancel _ (by decide)
  have h2 : Int.tmod (s * timeSecond) timeSecond = 0 := Int.mul_tmod_left _ _
  rw [h1, h2]
  simp [f64_zero, f64_intCast s hs]

theorem seconds_nonneg {d : Int} (hd : 0 ≤ d) : 0 ≤ seconds d := by
  unfold seconds
  have a : (0 : ℚ) ≤ ((Int.tdiv d timeSecond : Int) : ℚ) := by
    exact_mod_cast Int.tdiv_nonneg hd (by decide)
  have b : (0 : ℚ) ≤ ((Int.tmod d timeSecond : Int) : ℚ) := by
    exact_mod_cast Int.tmod_nonneg _ hd
  exact f64_nonneg (add_nonneg (f64_nonneg a)
    (f64_nonneg (div_nonneg (f64_nonneg b) (by norm_num))))

theorem seconds_nonpos {d : Int} (hd : d ≤ 0) : seconds d ≤ 0 := by
  unfold seconds
  have a : ((Int.tdiv d timeSecond : Int) : ℚ) ≤ 0 := by
    have := Int.tdiv_nonneg (a := -d) (b := timeSecond) (by omega) (by decide)
    rw [Int.neg_tdiv] at this
    exact_mod_cast (by omega : Int.tdiv d timeSecond ≤ 0)
  have b : ((Int.tmod d timeSecond : Int) : ℚ) ≤ 0 := by
    have h1 := Int.tmod_nonneg (a := -d) timeSecond (by omega)
    have h2 := Int.tdiv_add_tmod d timeSecond
    have h3 := Int.tdiv_add_tmod (-d) timeSecond
    rw [Int.neg_tdiv] at h3
    have : Int.tmod d timeSecond ≤ 0 := by
      unfold timeSecond at h1 h2 h3 ⊢
      omega
    exact_mod_cast this
  exact f64_nonpos (add_nonpos (f64_nonpos a)
    (f64_nonpos (div_nonpos_of_nonpos_of_nonneg (f64_nonpos b) (by norm_num))))

/-- The float64 product `float64(sr) * d.Seconds()` is within a relative error of
2^-50 of the exact number of frames. -/
theorem frames_close (sr d : Int) :
    |f64 (f64 (sr : ℚ) * seconds d) - (sr : ℚ) * ((d : ℚ) / 1000000000)| ≤
      1 / 2 ^ 50 * |(sr : ℚ) * ((d : ℚ) / 1000000000)| := by
  have h := f64_close (mul_close (f64_close0 (sr : ℚ)) (seconds_close d))
  exact close_mono h (by norm_num)

theorem frames_nonneg {sr d : Int} (hsr : 0 ≤ sr) (hd : 0 ≤ d) :
    0 ≤ goInt (f64 (f64 (sr : ℚ) * seconds d)) := by
  have h : (0 : ℚ) ≤ f64 (f64 (sr : ℚ) * seconds d) :=
    f64_nonneg (mul_nonneg (f64_nonneg (by exact_mod_cast hsr)) (seconds_nonneg hd))
  rw [goInt_of_nonneg h]
  exact Int.floor_nonneg.mpr h

theorem frames_nonpos {sr d : Int} (hsr : 0 ≤ sr) (hd : d ≤ 0) :
    goInt (f64 (f64 (sr : ℚ) * seconds d)) ≤ 0 := by
  have h : f64 (f64 (sr : ℚ) * seconds d) ≤ 0 :=
    f64_nonpos (mul_nonpos_of_nonneg_of_nonpos (f64_nonneg (by exact_mod_cast hsr))
      (seconds_nonpos hd))
  rw [goInt_of_nonpos h, Int.ceil_le]
  exact_mod_cast h

/-- The frame offset of a duration: less than one frame, plus a relative error of
2^-50, away from the exact product of rate and seconds. -/
theorem frames_near (sr d : Int) :
    |((goInt (f64 (f64 (sr : ℚ) * seconds d)) : Int) : ℚ) -
        (sr : ℚ) * ((d : ℚ) / 1000000000)| <
      1 + |(sr : ℚ) * ((d : ℚ) / 1000000000)| / 2 ^ 50 := by
  have h1 := goInt_near (f64 (f64 (sr : ℚ) * seconds d))
  have h2 := frames_close sr d
  have h3 := abs_add
    (((goInt (f64 (f64 (sr : ℚ) * seconds d)) : Int) : ℚ) - f64 (f64 (sr : ℚ) * seconds d))
    (f64 (f64 (sr : ℚ) * seconds d) - (sr : ℚ) * ((d : ℚ) / 1000000000))
  rw [sub_add_sub_cancel] at h3
  have e : (1 : ℚ) / 2 ^ 50 * |(sr : ℚ) * ((d : ℚ) / 1000000000)| =
      |(sr : ℚ) * ((d : ℚ) / 1000000000)| / 2 ^ 50 := by ring
  linarith

/-- A duration of at least l / sr seconds is at least l - 1 frames, for l up to
2^50. -/
theorem frames_ge {sr d l : Int} (hl1 : 1 ≤ l) (hl : l ≤ 2 ^ 50)
    (hd : l * timeSecond ≤ sr * d) :
    l - 1 ≤ goInt (f64 (f64 (sr : ℚ) * seconds d)) := by
  have hx : (l : ℚ) ≤ (sr : ℚ) * ((d : ℚ) / 1000000000) := by
    have : ((l * timeSecond : Int) : ℚ) ≤ ((sr * d : Int) : ℚ) := by exact_mod_cast hd
    push_cast [timeSecond] at this
    rw [← mul_div_assoc, le_div_iff₀ (by norm_num)]
    exact this
  have hlq : (1 : ℚ) ≤ (l : ℚ) := by exact_mod_cast hl1
  have hlq2 : (l : ℚ) ≤ 2 ^ 50 := by exact_mod_cast hl
  have hx0 : (0 : ℚ) ≤ (sr : ℚ) * ((d : ℚ) / 1000000000) := by linarith
  have h2 := frames_close sr d
  rw [abs_of_nonneg hx0, abs_le] at h2
  have hy : ((l - 1 : Int) : ℚ) ≤ f64 (f64 (sr : ℚ) * seconds d) := by
    push_cast
    have : (l : ℚ) * (1 - 1 / 2 ^ 50) ≤
        (sr : ℚ) * ((d : ℚ) / 1000000000) * (1 - 1 / 2 ^ 50) :=
      mul_le_mul_of_nonneg_right hx (by norm_num)
    have : (l : ℚ) / 2 ^ 50 ≤ 1 := by
      rw [div_le_iff₀ (by positivity)]; linarith
    linarith [h2.1]
  have hy0 : (0 : ℚ) ≤ f64 (f64 (sr : ℚ) * seconds d) := by
    have : (0 : ℚ) ≤ ((l - 1 : Int) : ℚ) := by exact_mod_cast (by omega : (0 : Int) ≤ l - 1)
    linarith
  rw [goInt_of_nonneg hy0]
  exact Int.le_floor.mpr hy

theorem div_close {x1 x2 y1 y2 k1 k2 : ℚ} (hk1 : 0 ≤ k1) (hk2 : 0 ≤ k2) (hk : k2 < 1)
    (hx2 : x2 ≠ 0) (h1 : |y1 - x1| ≤ k1 * |x1|) (h2 : |y2 - x2| ≤ k2 * |x2|) :
    |y1 / y2 - x1 / x2| ≤ (k1 + k2) / (1 - k2) * |x1 / x2| := by
  have hx2p : 0 < |x2| := abs_pos.mpr hx2
  have hy2 : (1 - k2) * |x2| ≤ |y2| := by
    have := abs_sub_abs_le_abs_sub x2 y2
    rw [abs_sub_comm] at this
    linarith
  have hy2p : 0 < |y2| := lt_of_lt_of_le (mul_pos (by linarith) hx2p) hy2
  have hy2n : y2 ≠ 0 := abs_pos.mp hy2p
  have e : y1 / y2 - x1 / x2 = ((y1 - x1) * x2 - x1 * (y2 - x2)) / (y2 * x2) := by
    field_simp
    ring
  have hnum : |(y1 - x1) * x2 - x1 * (y2 - x2)| ≤ (k1 + k2) * (|x1| * |x2|) := by
    have t := abs_sub ((y1 - x1) * x2) (x1 * (y2 - x2))
    have t1 : |(y1 - x1) * x2| ≤ k1 * |x1| * |x2| := by
      rw [abs_mul]; exact mul_le_mul_of_nonneg_right h1 (abs_nonneg _)
    have t2 : |x1 * (y2 - x2)| ≤ |x1| * (k2 * |x2|) := by
      rw [abs_mul]; exact mul_le_mul_of_nonneg_left h2 (abs_nonneg _)
    calc |(y1 - x1) * x2 - x1 * (y2 - x2)| ≤ |(y1 - x1) * x2| + |x1 * (y2 - x2)| := t
      _ ≤ k1 * |x1| * |x2| + |x1| * (k2 * |x2|) := by linarith
      _ = (k1 + k2) * (|x1| * |x2|) := by ring
  rw [e, abs_div, abs_mul, abs_div]
  have hden : 0 < |y2| * |x2| := mul_pos hy2p hx2p
  rw [div_le_iff₀ hden]
  have hk' : (0 : ℚ) < 1 - k2 := by linarith
  have hgoal : (k1 + k2) / (1 - k2) * (|x1| / |x2|) * (|y2| * |x2|) =
      (k1 + k2) * |x1| * (|y2| / (1 - k2)) := by
    field_simp
    ring
  rw [hgoal]
  have hq : |x2| ≤ |y2| / (1 - k2) := by
    rw [le_div_iff₀ hk']; linarith
  calc |(y1 - x1) * x2 - x1 * (y2 - x2)| ≤ (k1 + k2) * (|x1| * |x2|) := hnum
    _ = (k1 + k2) * |x1| * |x2| := by ring
    _ ≤ (k1 + k2) * |x1| * (|y2| / (1 - k2)) :=
        mul_le_mul_of_nonneg_left hq (mul_nonneg (by linarith) (abs_nonneg _))

/-- The float64 quotient `float64(time.Second) * float64(n) / float64(sr)` is within
a relative error of 2^-50 of the exact quotient. -/
theorem nanos_close (n sr : Int) (hsr : sr ≠ 0) :
    |f64 (f64 (f64 (timeSecond : ℚ) * f64 (n : ℚ)) / f64 (sr : ℚ)) -
        (timeSecond : ℚ) * (n : ℚ) / (sr : ℚ)| ≤
      1 / 2 ^ 50 * |(timeSecond : ℚ) * (n : ℚ) / (sr : ℚ)| := by
  have hp := f64_close (mul_close (f64_close0 (timeSecond : ℚ)) (f64_close0 (n : ℚ)))
  have hq := div_close (by norm_num) (by norm_num) (by norm_num)
    (by exact_mod_cast hsr : (sr : ℚ) ≠ 0) hp (f64_close0 (sr : ℚ))
  exact close_mono (f64_close hq) (by norm_num)

theorem f64_seven_tenths : f64 (7 / 10) = 3152519739159347 / 4503599627370496 := by
  have h := f64_eval (x := 7 / 10) (e := -1) (n := 6305039478318694)
    (by norm_num [abs_of_pos]) (by norm_num [abs_of_pos]) (by norm_num) (by norm_num)
  rw [h]
  norm_num

theorem f64_neg_seven_tenths : f64 (-7 / 10) = -3152519739159347 / 4503599627370496 := by
  have h := f64_eval (x := -7 / 10) (e := -1) (n := -6305039478318694)
    (by norm_num [abs_of_neg]) (by norm_num [abs_of_neg]) (by norm_num) (by norm_num)
  rw [h]
  norm_num

theorem seconds_700ms : seconds 700000000 = 3152519739159347 / 4503599627370496 := by
  unfold seconds
  have h1 : Int.tdiv 700000000 timeSecond = 0 := by decide
  have h2 : Int.tmod 700000000 timeSecond = 700000000 := by decide
  rw [h1, h2]
  have h3 : f64 ((700000000 : Int) : ℚ) = 700000000 := by
    simpa using f64_intCast 700000000 (by norm_num)
  have h4 : ((700000000 : ℚ)) / 1000000000 = 7 / 10 := by norm_num
  rw [h3, h4, f64_seven_tenths]
  have h5 : f64 ((0 : Int) : ℚ) = 0 := by simpa using f64_zero
  rw [h5, zero_add]
  have h6 := f64_exact 3152519739159347 (-52) (by norm_num)
  norm_num at h6 ⊢
  exact h6

theorem frames_700ms : goInt (f64 (f64 ((44100 : Int) : ℚ) * seconds 700000000)) = 30869 := by
  have h1 : f64 ((44100 : Int) : ℚ) = 44100 := by
    simpa using f64_intCast 44100 (by norm_num)
  rw [h1, seconds_700ms]
  have h := f64_eval (x := 44100 * (3152519739159347 / 4503599627370496)) (e := 14)
    (n := 8485480987361279)
    (by norm_num [abs_of_pos]) (by norm_num [abs_of_pos]) (by norm_num) (by norm_num)
  rw [h, goInt_of_nonneg (by norm_num), Int.floor_eq_iff]
  norm_num

theorem clamp01_ite (r : ℚ) :
    (if (if r < 0 then 0 else r) > 1 then 1 else (if r < 0 then 0 else r)) = clamp01 r := by
  unfold clamp01
  by_cases h0 : r < 0
  · have h2 : min r 1 = r := min_eq_left (by linarith)
    simp [h0, h2, max_eq_left (le_of_lt h0)]
  · by_cases h1 : r > 1
    · have h2 : min r 1 = 1 := min_eq_right (le_of_lt h1)
      simp [h0, h1, h2]
    · have h2 : min r 1 = r := min_eq_left (not_lt.mp h1)
      simp [h0, h1, h2, max_eq_right (not_lt.mp h0)]

theorem clamp01_bounds (r : ℚ) : 0 ≤ clamp01 r ∧ clamp01 r ≤ 1 := by
  unfold clamp01
  exact ⟨le_max_left _ _, max_le (by norm_num) (min_le_right _ _)⟩

theorem frames_whole (sr s : Int) {d n : Int} (hd : d = s * timeSecond) (hn : n = sr * s)
    (h1 : |sr| ≤ 2 ^ 53) (h2 : |s| ≤ 2 ^ 53) (h3 : |n| ≤ 2 ^ 53) :
    goInt (f64 (f64 (sr : ℚ) * seconds d)) = n := by
  subst hd hn
  rw [seconds_whole s h2, f64_intCast sr h1]
  apply goInt_eq_of_eq
  have := f64_intCast (sr * s) h3
  push_cast at this ⊢
  exact this

theorem nanos_exact (n sr q : Int) (hsr : sr ≠ 0) (h : timeSecond * n = q * sr)
    (b1 : |n| ≤ 2 ^ 53) (b2 : |timeSecond * n| ≤ 2 ^ 53) (b3 : |sr| ≤ 2 ^ 53)
    (b4 : |q| ≤ 2 ^ 53) :
    goInt (f64 (f64 (f64 (timeSecond : ℚ) * f64 (n : ℚ)) / f64 (sr : ℚ))) = q := by
  have hT : f64 (timeSecond : ℚ) = (timeSecond : ℚ) := f64_intCast timeSecond (by decide)
  rw [hT, f64_intCast n b1, f64_intCast sr b3]
  have hp : f64 ((timeSecond : ℚ) * (n : ℚ)) = (timeSecond : ℚ) * (n : ℚ) := by
    have := f64_intCast (timeSecond * n) b2
    push_cast at this
    exact this
  rw [hp]
  have hq : (timeSecond : ℚ) * (n : ℚ) / (sr : ℚ) = (q : ℚ) := by
    have hsrq : (sr : ℚ) ≠ 0 := by exact_mod_cast hsr
    rw [div_eq_iff hsrq]
    exact_mod_cast h
  rw [hq, f64_intCast q b4, goInt_intCast]

theorem ratioTarget_bounds {l : Int} (hl : 1 ≤ l) (r : ℚ) :
    0 ≤ ratioTarget l r ∧ ratioTarget l r ≤ l - 1 := by
  unfold ratioTarget
  dsimp only
  split_ifs <;> omega

theorem ratioTarget_eq {l : Int} (hl : 1 ≤ l) (r : ℚ) :
    ratioTarget l r =
      clampInt (goInt (f64 (f64 ((l - 1 : Int) : ℚ) * clamp01 r))) 0 (l - 1) := by
  unfold ratioTarget
  simp only [clamp01_ite]
  unfold clampInt
  split_ifs <;> omega

theorem ratioTarget_zero {l : Int} (hl : 1 ≤ l) : ratioTarget l 0 = 0 := by
  rw [ratioTarget_eq hl]
  have : clamp01 0 = 0 := by norm_num [clamp01]
  rw [this, mul_zero, f64_zero, goInt_zero]
  unfold clampInt
  omega

theorem ratioTarget_one {l : Int} (hl : 1 ≤ l) (hb : l - 1 ≤ 2 ^ 53) :
    ratioTarget l 1 = l - 1 := by
  rw [ratioTarget_eq hl]
  have : clamp01 1 = 1 := by norm_num [clamp01]
  have hf : f64 ((l - 1 : Int) : ℚ) = ((l - 1 : Int) : ℚ) :=
    f64_intCast (l - 1) (by rw [abs_of_nonneg (by omega)]; exact hb)
  rw [this, hf, mul_one, hf, goInt_intCast]
  unfold clampInt
  omega

/-- The target of `SeekRatio` is the truncation of the exact product or one frame
above it, for every length whose last index float64 holds exactly. -/
theorem ratioTarget_near {l : Int} (hl : 1 ≤ l) (hb : l - 1 ≤ 2 ^ 53) (r : ℚ) :
    ⌊((l - 1 : Int) : ℚ) * clamp01 r⌋ ≤ ratioTarget l r ∧
    ratioTarget l r ≤ ⌊((l - 1 : Int) : ℚ) * clamp01 r⌋ + 1 := by
  obtain ⟨hc0, hc1⟩ := clamp01_bounds r
  have hl0 : (0 : Int) ≤ l - 1 := by omega
  have hl1 : (0 : ℚ) ≤ ((l - 1 : Int) : ℚ) := by exact_mod_cast hl0
  have hf : f64 ((l - 1 : Int) : ℚ) = ((l - 1 : Int) : ℚ) :=
    f64_intCast (l - 1) (by rw [abs_of_nonneg hl0]; exact hb)
  have hx0 : (0 : ℚ) ≤ ((l - 1 : Int) : ℚ) * clamp01 r := mul_nonneg hl1 hc0
  have hx1 : ((l - 1 : Int) : ℚ) * clamp01 r ≤ ((l - 1 : Int) : ℚ) := by
    calc ((l - 1 : Int) : ℚ) * clamp01 r ≤ ((l - 1 : Int) : ℚ) * 1 :=
          mul_le_mul_of_nonneg_left hc1 hl1
      _ = ((l - 1 : Int) : ℚ) := mul_one _
  generalize hx : ((l - 1 : Int) : ℚ) * clamp01 r = x at hx0 hx1
  have hn0 : 0 ≤ ⌊x⌋ := Int.floor_nonneg.mpr hx0
  have hn1 : ⌊x⌋ ≤ l - 1 := by
    have := Int.floor_mono hx1
    rwa [Int.floor_intCast] at this
  have hy0 : (0 : ℚ) ≤ f64 x := f64_nonneg hx0
  have hlo : ((⌊x⌋ : Int) : ℚ) ≤ f64 x := by
    have := f64_mono (by exact_mod_cast hn0 : (0 : ℚ) ≤ ((⌊x⌋ : Int) : ℚ)) (Int.floor_le x)
    rwa [f64_intCast _ (by rw [abs_of_nonneg hn0]; omega)] at this
  have hhi : f64 x ≤ ((l - 1 : Int) : ℚ) := by
    have := f64_mono hx0 hx1
    rwa [hf] at this
  have hhi2 : ⌊x⌋ + 1 ≤ l - 1 → f64 x ≤ ((⌊x⌋ + 1 : Int) : ℚ) := by
    intro hle
    have h1 : x ≤ ((⌊x⌋ + 1 : Int) : ℚ) := by
      push_cast; exact (Int.lt_floor_add_one x).le
    have := f64_mono hx0 h1
    rwa [f64_intCast _ (by rw [abs_of_nonneg (by omega)]; omega)] at this
  have hfl : ⌊x⌋ ≤ ⌊f64 x⌋ := Int.le_floor.mpr hlo
  have hfu : ⌊f64 x⌋ ≤ l - 1 := by
    have := Int.floor_mono hhi
    rwa [Int.floor_intCast] at this
  have hfu2 : ⌊f64 x⌋ ≤ ⌊x⌋ + 1 := by
    rcases le_or_lt (⌊x⌋ + 1) (l - 1) with h | h
    · have := Int.floor_mono (hhi2 h)
      rwa [Int.floor_intCast] at this
    · omega
  rw [ratioTarget_eq hl, hf, hx, goInt_of_nonneg hy0]
  unfold clampInt
  omega

theorem clampTarget_eq_clampInt {l : Int} (hl : 1 ≤ l) (t : Int) :
    clampTarget l t = clampInt t 0 (l - 1) := by
  unfold clampTarget clampInt
  dsimp only
  split_ifs <;> omega

theorem clampTarget_nonneg (l t : Int) : 0 ≤ clampTarget l t := by
  unfold clampTarget
  dsimp only
  split_ifs <;> omega

theorem seekChain_reject {env : Env} (w : World) {st : Stream} {target : Int} {e : GoError}
    (h : env.seek st target = some e) :
    seekChain env w st target =
      (some e, w.logs [.speakerLock, .streamSeek st.id target, .speakerUnlock, .muUnlock]) := by
  simp [seekChain, Stream.Seek, h, World.log, World.logs]

theorem seekChain_accept {env : Env} (w : World) {st : Stream} {target : Int}
    (h : env.seek st target = none) :
    (seekChain env w st target).1 = none ∧
    (seekChain env w st target).2.p =
      { w.p with
        stream := some { st with pos := target }
        play := some (mkResampler w.nextId w.p.sr { st with pos := target })
        vol := some
          { id := w.nextId + 1, Streamer := w.nextId, Base := 10, Volume := volDB w.p }
        ctrl := w.p.ctrl.map fun c => { c with Streamer := w.nextId + 1 } } ∧
    (seekChain env w st target).2.mixer = w.mixer ∧
    (seekChain env w st target).2.nextId = w.nextId + 2 := by
  obtain ⟨⟨stream, play, vol, volNorm, ctrl, sr, started, current⟩, mixer, once, nextId, trace⟩ := w
  rcases ctrl with _ | c <;>
    simp [seekChain, Stream.Seek, h, rebuild, retarget, mkResampler, mkVolume, World.log,
      World.logs, volDB]

theorem seekChain_trace (env : Env) (w : World) (st : Stream) (target : Int) :
    ∃ evs, (seekChain env w st target).2.trace = w.trace ++ evs ∧
      seekCalls evs = [(st.id, target)] := by
  obtain ⟨⟨stream, play, vol, volNorm, ctrl, sr, started, current⟩, mixer, once, nextId, trace⟩ := w
  cases h : env.seek st target with
  | some e =>
    rw [seekChain_reject _ h]
    exact ⟨_, rfl, rfl⟩
  | none =>
    rcases ctrl with _ | c
    · refine ⟨[.speakerLock, .streamSeek st.id target, .resample nextId st.id,
        .newVolume (nextId + 1) nextId, .speakerUnlock, .muUnlock], ?_, rfl⟩
      simp [seekChain, Stream.Seek, h, rebuild, retarget, mkResampler, mkVolume, World.log,
        World.logs]
    · refine ⟨[.speakerLock, .streamSeek st.id target, .resample nextId st.id,
        .newVolume (nextId + 1) nextId, .ctrlStreamer c.id (nextId + 1), .speakerUnlock,
        .muUnlock], ?_, rfl⟩
      simp [seekChain, Stream.Seek, h, rebuild, retarget, mkResampler, mkVolume, World.log,
        World.logs]

theorem SeekRatio_loaded (env : Env) {w : World} {st : Stream} (r : ℚ)
    (hst : w.p.stream = some st) (hl : 0 < st.len) :
    SeekRatio env w r = seekChain env (w.log .muLock) st (ratioTarget st.len r) := by
  unfold SeekRatio
  have : (w.log .muLock).p.stream = some st := hst
  simp only [this]
  rw [if_neg (by omega)]

theorem SeekRatio_noLength (env : Env) {w : World} {st : Stream} (r : ℚ)
    (hst : w.p.stream = some st) (hl : st.len ≤ 0) :
    SeekRatio env w r = (some "uzunluk bilinmiyor", w.logs [.muLock, .muUnlock]) := by
  unfold SeekRatio
  have : (w.log .muLock).p.stream = some st := hst
  simp only [this]
  rw [if_pos hl]
  simp [World.log, World.logs, errorsNew]

theorem SeekBy_loaded (env : Env) {w : World} {st : Stream} (d : Int)
    (hst : w.p.stream = some st) (hsr : w.p.sr ≠ 0) :
    SeekBy env w d = seekChain env (w.log .muLock) st
      (clampTarget st.len (st.pos + goInt (f64 (f64 (w.p.sr : ℚ) * seconds d)))) := by
  unfold SeekBy
  have : (w.log .muLock).p.stream = some st := hst
  have h2 : (w.log .muLock).p.sr = w.p.sr := rfl
  simp only [this, h2]
  rw [if_neg hsr]

theorem SeekBy_noRate (env : Env) {w : World} {st : Stream} (d : Int)
    (hst : w.p.stream = some st) (hsr : w.p.sr = 0) :
    SeekBy env w d = (some "akış yok", w.logs [.muLock, .muUnlock]) := by
  unfold SeekBy
  have : (w.log .muLock).p.stream = some st := hst
  have h2 : (w.log .muLock).p.sr = w.p.sr := rfl
  simp only [this, h2]
  rw [if_pos hsr]
  simp [World.log, World.logs, errorsNew]

theorem SeekTo_loaded (env : Env) {w : World} {st : Stream} (d : Int)
    (hst : w.p.stream = some st) (hsr : w.p.sr ≠ 0) :
    SeekTo env w d = seekChain env (w.log .muLock) st
      (clampTarget st.len (goInt (f64 (f64 (w.p.sr : ℚ) * seconds d)))) := by
  unfold SeekTo
  have : (w.log .muLock).p.stream = some st := hst
  have h2 : (w.log .muLock).p.sr = w.p.sr := rfl
  simp only [this, h2]
  rw [if_neg hsr]

theorem SeekTo_noRate (env : Env) {w : World} {st : Stream} (d : Int)
    (hst : w.p.stream = some st) (hsr : w.p.sr = 0) :
    SeekTo env w d = (some "akış yok", w.logs [.muLock, .muUnlock]) := by
  unfold SeekTo
  have : (w.log .muLock).p.stream = some st := hst
  have h2 : (w.log .muLock).p.sr = w.p.sr := rfl
  simp only [this, h2]
  rw [if_pos hsr]
  simp [World.log, World.logs, errorsNew]

theorem Play_loaded {w : World} {st : Stream} {c : Ctrl}
    (hst : w.p.stream = some st) (hc : w.p.ctrl = some c) :
    (Play w).p = { w.p with started := true, ctrl := some { c with Paused := false } } ∧
    (Play w).mixer = (if w.p.started then w.mixer else w.mixer ++ [c.id]) ∧
    (Play w).nextId = w.nextId := by
  obtain ⟨⟨stream, play, vol, volNorm, ctrl, sr, started, current⟩, mixer, once, nextId, trace⟩ := w
  dsimp only at hst hc
  subst hst hc
  rcases started <;> simp [Play, setPaused, World.log, World.logs]

theorem Pause_loaded {w : World} {c : Ctrl} (hc : w.p.ctrl = some c) :
    Pause w =
      { w with
        p := { w.p with ctrl := some { c with Paused := true } }
        trace := w.trace ++
          [.muLock, .speakerLock, .ctrlPaused c.id true, .speakerUnlock, .muUnlock] } := by
  obtain ⟨⟨stream, play, vol, volNorm, ctrl, sr, started, current⟩, mixer, once, nextId, trace⟩ := w
  dsimp only at hc
  subst hc
  simp [Pause, setPaused, World.log, World.logs]

theorem Stop_loaded (env : Env) {w : World} {st : Stream} {c : Ctrl}
    (hst : w.p.stream = some st) (hc : w.p.ctrl = some c) :
    Stop env w =
      { p :=
          { w.p with
            stream := some (st.Seek env 0).1
            play := some (mkResampler w.nextId w.p.sr (st.Seek env 0).1)
            vol := some
              { id := w.nextId + 1, Streamer := w.nextId, Base := 10, Volume := volDB w.p }
            ctrl := some { c with Paused := true, Streamer := w.nextId + 1 }
            started := false }
        mixer := w.mixer
        speakerOnce := w.speakerOnce
        nextId := w.nextId + 2
        trace := w.trace ++
          [.muLock, .speakerLock, .ctrlPaused c.id true, .speakerUnlock, .speakerLock,
            .streamSeek st.id 0, .resample w.nextId st.id, .newVolume (w.nextId + 1) w.nextId,
            .ctrlStreamer c.id (w.nextId + 1), .speakerUnlock, .muUnlock] } := by
  obtain ⟨⟨stream, play, vol, volNorm, ctrl, sr, started, current⟩, mixer, once, nextId, trace⟩ := w
  dsimp only at hst hc
  subst hst hc
  have hid : (st.Seek env 0).1.id = st.id := by
    unfold Stream.Seek; cases env.seek st 0 <;> rfl
  simp [Stop, setPaused, rebuild, retarget, mkResampler, mkVolume, World.log, World.logs,
    volDB, hid]

theorem Stop_noCtrl (env : Env) {w : World} (hc : w.p.ctrl = none) :
    Stop env w = w.logs [.muLock, .muUnlock] := by
  obtain ⟨⟨stream, play, vol, volNorm, ctrl, sr, started, current⟩, mixer, once, nextId, trace⟩ := w
  dsimp only at hc
  subst hc
  rcases stream with _ | st <;> simp [Stop, World.log, World.logs]

theorem seekChain_muLock_trace (env : Env) (w : World) (st : Stream) (target : Int) :
    ∃ evs, (seekChain env (w.log .muLock) st target).2.trace = w.trace ++ evs ∧
      seekCalls evs = [(st.id, target)] := by
  obtain ⟨evs, h1, h2⟩ := seekChain_trace env (w.log .muLock) st target
  refine ⟨Event.muLock :: evs, ?_, ?_⟩
  · rw [h1]; simp [World.log]
  · simpa [seekCalls] using h2

theorem Stop_loaded_fields (env : Env) {w : World} {st : Stream} {c : Ctrl}
    (hst : w.p.stream = some st) (hc : w.p.ctrl = some c) :
    (Stop env w).p.sr = w.p.sr ∧ (Stop env w).p.stream = some (st.Seek env 0).1 := by
  rw [Stop_loaded env hst hc]
  exact ⟨rfl, rfl⟩

theorem Position_ok {p : Player} {st : Stream} (hs : p.stream = some st) (hsr : p.sr ≠ 0) :
    Position p = .ok (goInt
      (f64 (f64 (f64 (timeSecond : ℚ) * f64 (st.pos : ℚ)) / f64 (p.sr : ℚ)))) := by
  simp [Position, hs, hsr]

theorem reachable_run {w : World} (h : Reachable w) (ops : List Op) :
    Reachable (run w ops) := by
  induction ops generalizing w with
  | nil => exact h
  | cons op ops ih => exact ih (Reachable.step op h)

/-! ## Play, Pause and the output sink -/

/-- Play after Play leaves the player and the mixer as one Play leaves them. -/
theorem Play_Play (w : World) :
    (Play (Play w)).p = (Play w).p ∧ (Play (Play w)).mixer = (Play w).mixer := by
  obtain ⟨⟨stream, play, vol, volNorm, ctrl, sr, started, current⟩, mixer, once, nextId, trace⟩ := w
  rcases stream with _ | st <;> rcases ctrl with _ | c <;> rcases started <;>
    simp [Play, setPaused, World.log, World.logs]

/-- With a stream and a control, Play leaves the player playing. -/
theorem Play_isPlaying {w : World} {st : Stream} {c : Ctrl}
    (hst : w.p.stream = some st) (hc : w.p.ctrl = some c) : IsPlaying (Play w).p = true := by
  rw [(Play_loaded hst hc).1]
  simp [IsPlaying]

/-- From a loaded world in which the control is in the mixer once if started and not
at all otherwise, Pause, Play, Play ends playing with the control in the mixer
exactly once. -/
theorem pause_play_play_once {w : World} {st : Stream} {c : Ctrl}
    (hst : w.p.stream = some st) (hc : w.p.ctrl = some c)
    (hm : w.mixer.count c.id = if w.p.started then 1 else 0) :
    IsPlaying (Play (Play (Pause w))).p = true ∧
    (Play (Play (Pause w))).mixer.count c.id = 1 := by
  have hP := Pause_loaded hc
  have hst1 : (Pause w).p.stream = some st := by rw [hP]; exact hst
  have hc1 : (Pause w).p.ctrl = some { c with Paused := true } := by rw [hP]
  obtain ⟨h1, h2, -⟩ := Play_loaded hst1 hc1
  have hst2 : (Play (Pause w)).p.stream = some st := by rw [h1]; exact hst1
  have hc2 : (Play (Pause w)).p.ctrl = some { c with Paused := false } := by rw [h1]
  refine ⟨Play_isPlaying hst2 hc2, ?_⟩
  rw [(Play_Play (Pause w)).2, h2]
  have hs : (Pause w).p.started = w.p.started := by rw [hP]
  have hmx : (Pause w).mixer = w.mixer := by rw [hP]
  rw [hs, hmx]
  cases hstd : w.p.started <;> simp [hstd] at hm ⊢ <;> simp [hm]

/-- C11 (failing input): after Load, Play and Stop the control is still in the mixer
and the started flag is false; Pause, Play, Play from this loaded state ends playing
with the control in the mixer twice. -/
theorem pause_play_play_after_stop_attaches_twice :
    demoStopped.p.stream = some ⟨0, 441000, 0⟩ ∧
    demoStopped.p.ctrl = some ⟨3, 5, true⟩ ∧
    demoStopped.p.started = false ∧
    demoStopped.mixer = [3] ∧
    (run demoStopped [.pause, .play, .play]).mixer = [3, 3] ∧
    (run demoStopped [.pause, .play, .play]).mixer.count 3 = 2 ∧
    IsPlaying (run demoStopped [.pause, .play, .play]).p = true := by
  refine ⟨by decide, by decide, by decide, by decide, by decide, by decide, by decide⟩

/-- C12 (failing input): Load, Play, Stop, Play hands the same control to
`speaker.Play` twice with no `speaker.Clear` in between: after Stop the control is
still in the mixer, and the Play that follows adds it again. -/
theorem play_after_stop_attaches_twice :
    demoStopped.mixer = [3] ∧
    demoStopped.p.started = false ∧
    demoReplayed.p.ctrl = some ⟨3, 5, false⟩ ∧
    demoReplayed.mixer = [3, 3] ∧
    demoReplayed.mixer.count 3 = 2 ∧
    demoReplayed.trace.count (.speakerPlay 3) = 2 ∧
    demoReplayed.trace.count .speakerClear = 1 ∧
    (demoReplayed.trace.dropWhile fun e => decide (e ≠ .speakerClear)).count (.speakerPlay 3) = 2 := by
  refine ⟨by decide, by decide, by decide, by decide, by decide, by decide, by decide,
    by decide⟩

/-- C13: in every reachable world with a stream loaded, Pause sets the paused flag of
the control and appends its lock and unlock events to the trace; the stream and its
position, the resampler, the gain stage, the control's streamer, the started flag,
the current file, the volume, the mixer and the allocation counter are unchanged,
and `IsPlaying()` is false afterwards. -/
theorem pause_only_sets_paused (w : World) (st : Stream) (hw : Reachable w)
    (hst : w.p.stream = some st) :
    ∃ c, w.p.ctrl = some c ∧
      Pause w =
        { w with
          p := { w.p with ctrl := some { c with Paused := true } }
          trace := w.trace ++
            [.muLock, .speakerLock, .ctrlPaused c.id true, .speakerUnlock, .muUnlock] } ∧
      (Pause w).p.stream = some st ∧
      (Pause w).mixer = w.mixer ∧
      IsPlaying (Pause w).p = false := by
  obtain ⟨r, v, c, -, -, hc, -⟩ := (inv_of_reachable hw).chain st hst
  have hP := Pause_loaded hc
  refine ⟨c, hc, hP, ?_, ?_, ?_⟩
  · rw [hP]; exact hst
  · rw [hP]
  · rw [hP]; simp [IsPlaying]

/-- C13 (witness): Pause while `a.mp3` is playing. -/
theorem pause_only_sets_paused_witness :
    Reachable demoPlaying ∧ demoPlaying.p.stream = some ⟨0, 441000, 0⟩ ∧
    IsPlaying demoPlaying.p = true ∧
    ∃ c, demoPlaying.p.ctrl = some c ∧
      (Pause demoPlaying).p = { demoPlaying.p with ctrl := some { c with Paused := true } } ∧
      (Pause demoPlaying).mixer = demoPlaying.mixer ∧
      IsPlaying (Pause demoPlaying).p = false := by
  have hR : Reachable demoPlaying := reachable_run Reachable.init _
  have hst : demoPlaying.p.stream = some ⟨0, 441000, 0⟩ := by decide
  obtain ⟨c, h1, h2, -, h4, h5⟩ := pause_only_sets_paused demoPlaying _ hR hst
  exact ⟨hR, hst, by decide, c, h1, by rw [h2], h4, h5⟩

/-! ## Stop -/

theorem demoLoaded_p :
    demoLoaded.p =
      { stream := some ⟨0, 441000, 0⟩
        play := some ⟨1, 4, 44100, 44100, 0⟩
        vol := some ⟨2, 1, 10, 0⟩
        volNorm := 1
        ctrl := some ⟨3, 2, true⟩
        sr := 44100
        started := false
        current := "a.mp3" } ∧
    demoLoaded.nextId = 4 ∧ demoLoaded.mixer = [] := by
  have hd : (decodeFile demoEnv World.init "a.mp3").1 =
      .ok (⟨0, 441000, 0⟩, ⟨44100, 2, 2⟩) := by rfl
  obtain ⟨-, h2, h3, h4, -⟩ := Load_ok hd
  refine ⟨?_, h4, h3⟩
  show (Load demoEnv World.init "a.mp3").2.p = _
  rw [h2]
  norm_num [World.init, New, mkResampler, speakerSR, volDB]

theorem demoAtFive_p :
    demoAtFive.p.stream = some ⟨0, 441000, 220500⟩ ∧ demoAtFive.p.sr = 44100 := by
  obtain ⟨hp, -, -⟩ := demoLoaded_p
  have hst : demoLoaded.p.stream = some ⟨0, 441000, 0⟩ := by rw [hp]
  have hsr : demoLoaded.p.sr = 44100 := by rw [hp]
  have ht : goInt (f64 (f64 (demoLoaded.p.sr : ℚ) * seconds 5000000000)) = 220500 := by
    rw [hsr]
    exact frames_whole 44100 5 (by decide) (by decide) (by norm_num) (by norm_num)
      (by norm_num)
  have hE : demoAtFive = (SeekTo demoEnv demoLoaded 5000000000).2 := rfl
  rw [hE, SeekTo_loaded demoEnv _ hst (by rw [hsr]; decide), ht]
  have hc : clampTarget (441000 : Int) 220500 = 220500 := by decide
  have hk : demoEnv.seek ⟨0, 441000, 0⟩ 220500 = none := rfl
  obtain ⟨-, h2, -⟩ := seekChain_accept (demoLoaded.log .muLock) hk
  simp only [hc]
  rw [h2]
  exact ⟨rfl, hsr⟩

/-- C14 (counterexample): with a stream loaded at native rate 0, `Position()` after
Stop returns the error "akış yok"; and with `a.mp3` at frame 220500 and a decoder
that rejects the seek, Stop leaves the stream at frame 220500 and `Position()`
reports 5 s, not 0. -/
theorem position_after_stop_not_zero :
    zeroLoaded.p.stream = some ⟨0, 1000, 0⟩ ∧
    Position (Stop zeroRateEnv zeroLoaded).p = .error "akış yok" ∧
    demoAtFive.p.stream = some ⟨0, 441000, 220500⟩ ∧
    (Stop failSeekEnv demoAtFive).p.stream = some ⟨0, 441000, 220500⟩ ∧
    Position (Stop failSeekEnv demoAtFive).p = .ok 5000000000 ∧
    Position (Stop failSeekEnv demoAtFive).p ≠ .ok 0 := by
  obtain ⟨hst, hsr⟩ := demoAtFive_p
  have hR : Reachable demoAtFive := reachable_run Reachable.init _
  obtain ⟨r, v, c, -, -, hc, -⟩ := (inv_of_reachable hR).chain _ hst
  have hS := Stop_loaded failSeekEnv hst hc
  have he : ((⟨0, 441000, 220500⟩ : Stream).Seek failSeekEnv 0).1 = ⟨0, 441000, 220500⟩ := rfl
  have hs2 : (Stop failSeekEnv demoAtFive).p.stream = some ⟨0, 441000, 220500⟩ := by
    rw [(Stop_loaded_fields failSeekEnv hst hc).2, he]
  have hsr2 : (Stop failSeekEnv demoAtFive).p.sr = 44100 :=
    (Stop_loaded_fields failSeekEnv hst hc).1.trans hsr
  have hpos : Position (Stop failSeekEnv demoAtFive).p = .ok 5000000000 := by
    have hg : goInt (f64 (f64 (f64 (timeSecond : ℚ) * f64 ((220500 : Int) : ℚ)) /
        f64 ((44100 : Int) : ℚ))) = 5000000000 :=
      nanos_exact 220500 44100 5000000000 (by decide) (by decide) (by norm_num)
        (by norm_num [timeSecond]) (by norm_num) (by norm_num)
    rw [Position_ok hs2 (by rw [hsr2]; decide), hsr2]
    exact congrArg Except.ok hg
  refine ⟨by decide, by rfl, hst, hs2, hpos, ?_⟩
  rw [hpos]; intro h; cases h

/-- C14 (amended): in every reachable world with a stream loaded, Stop pauses the
control, calls `Seek(0)` on the stream once, rebuilds the chain and clears the
started flag; `IsPlaying()` is false, and the current file, the native rate and the
volume are unchanged.  `Position()` then reports 0 when the decoder accepted the
seek and the native rate is not 0; when the decoder rejected the seek the stream
keeps its position, and when the native rate is 0 `Position()` returns the error
"akış yok". -/
theorem stop_rewinds_when_seek_accepted (env : Env) (w : World) (st : Stream)
    (hw : Reachable w) (hst : w.p.stream = some st) :
    (Stop env w).p.started = false ∧
    IsPlaying (Stop env w).p = false ∧
    (∃ c, (Stop env w).p.ctrl = some c ∧ c.Paused = true) ∧
    (∃ evs, (Stop env w).trace = w.trace ++ evs ∧ seekCalls evs = [(st.id, 0)]) ∧
    (Stop env w).p.current = w.p.current ∧
    (Stop env w).p.sr = w.p.sr ∧
    Volume (Stop env w).p = Volume w.p ∧
    (env.seek st 0 = none → (Stop env w).p.stream = some { st with pos := 0 }) ∧
    (env.seek st 0 = none → w.p.sr ≠ 0 → Position (Stop env w).p = .ok 0) ∧
    (env.seek st 0 ≠ none → (Stop env w).p.stream = some st) ∧
    (w.p.sr = 0 → Position (Stop env w).p = .error "akış yok") := by
  obtain ⟨r, v, c, -, -, hc, -⟩ := (inv_of_reachable hw).chain st hst
  have hS := Stop_loaded env hst hc
  rw [hS]
  refine ⟨rfl, by simp [IsPlaying], ⟨_, rfl, rfl⟩, ⟨_, rfl, rfl⟩, rfl, rfl, rfl, ?_, ?_, ?_, ?_⟩
  · intro ha
    simp [Stream.Seek, ha]
  · intro ha hsr
    simp [Position, Stream.Seek, ha, hsr, goInt_zero, f64_zero]
  · intro hr
    cases hs : env.seek st 0 with
    | none => exact absurd hs hr
    | some e => simp [Stream.Seek, hs]
  · intro hsr
    simp [Position, hsr, errorsNew]

/-- C14 (witness): Stop while `a.mp3` is playing, the decoder accepting the seek. -/
theorem stop_rewinds_when_seek_accepted_witness :
    Reachable demoPlaying ∧ demoPlaying.p.stream = some ⟨0, 441000, 0⟩ ∧
    IsPlaying demoPlaying.p = true ∧
    (Stop demoEnv demoPlaying).p.started = false ∧
    IsPlaying (Stop demoEnv demoPlaying).p = false ∧
    Position (Stop demoEnv demoPlaying).p = .ok 0 := by
  have hR : Reachable demoPlaying := reachable_run Reachable.init _
  have hst : demoPlaying.p.stream = some ⟨0, 441000, 0⟩ := by decide
  have h := stop_rewinds_when_seek_accepted demoEnv demoPlaying _ hR hst
  exact ⟨hR, hst, by decide, h.1, h.2.1, h.2.2.2.2.2.2.2.2.1 rfl (by decide)⟩

/-! ## Seeking -/

theorem SeekRatio_calls (env : Env) {w : World} {st : Stream} (r : ℚ)
    (hst : w.p.stream = some st) :
    ∃ evs, ( SeekRatio env w r).2.trace = w.trace ++ evs ∧
      ((st.len ≤ 0 ∧ seekCalls evs = []) ∨
        (0 < st.len ∧ seekCalls evs = [(st.id, ratioTarget st.len r)])) := by
  by_cases hl : st.len ≤ 0
  · rw [SeekRatio_noLength env r hst hl]
    exact ⟨_, rfl, Or.inl ⟨hl, rfl⟩⟩
  · rw [SeekRatio_loaded env r hst (by omega)]
    obtain ⟨evs, h1, h2⟩ := seekChain_muLock_trace env w st (ratioTarget st.len r)
    exact ⟨evs, h1, Or.inr ⟨by omega, h2⟩⟩

theorem SeekBy_calls (env : Env) {w : World} {st : Stream} (d : Int)
    (hst : w.p.stream = some st) :
    ∃ evs, (SeekBy env w d).2.trace = w.trace ++ evs ∧
      ((w.p.sr = 0 ∧ seekCalls evs = []) ∨
        (w.p.sr ≠ 0 ∧ seekCalls evs =
          [(st.id, clampTarget st.len (st.pos + goInt (f64 (f64 (w.p.sr : ℚ) * seconds d))))])) := by
  by_cases hsr : w.p.sr = 0
  · rw [SeekBy_noRate env d hst hsr]
    exact ⟨_, rfl, Or.inl ⟨hsr, rfl⟩⟩
  · rw [SeekBy_loaded env d hst hsr]
    obtain ⟨evs, h1, h2⟩ := seekChain_muLock_trace env w st
      (clampTarget st.len (st.pos + goInt (f64 (f64 (w.p.sr : ℚ) * seconds d))))
    exact ⟨evs, h1, Or.inr ⟨hsr, h2⟩⟩

theorem SeekTo_calls (env : Env) {w : World} {st : Stream} (d : Int)
    (hst : w.p.stream = some st) :
    ∃ evs, (SeekTo env w d).2.trace = w.trace ++ evs ∧
      ((w.p.sr = 0 ∧ seekCalls evs = []) ∨
        (w.p.sr ≠ 0 ∧ seekCalls evs =
          [(st.id, clampTarget st.len (goInt (f64 (f64 (w.p.sr : ℚ) * seconds d))))])) := by
  by_cases hsr : w.p.sr = 0
  · rw [SeekTo_noRate env d hst hsr]
    exact ⟨_, rfl, Or.inl ⟨hsr, rfl⟩⟩
  · rw [SeekTo_loaded env d hst hsr]
    obtain ⟨evs, h1, h2⟩ := seekChain_muLock_trace env w st
      (clampTarget st.len (goInt (f64 (f64 (w.p.sr : ℚ) * seconds d))))
    exact ⟨evs, h1, Or.inr ⟨hsr, h2⟩⟩

theorem Stop_calls (env : Env) {w : World} {st : Stream} (hst : w.p.stream = some st) :
    ∃ evs, (Stop env w).trace = w.trace ++ evs ∧
      (seekCalls evs = [] ∨ seekCalls evs = [(st.id, 0)]) := by
  cases hc : w.p.ctrl with
  | none =>
    rw [Stop_noCtrl env hc]
    exact ⟨_, rfl, Or.inl rfl⟩
  | some c =>
    rw [Stop_loaded env hst hc]
    exact ⟨_, rfl, Or.inr rfl⟩

theorem seekChain_accept_stream {env : Env} (w : World) {st : Stream} {target : Int}
    (h : env.seek st target = none) :
    (seekChain env w st target).1 = none ∧
    (seekChain env w st target).2.p.stream = some { st with pos := target } ∧
    (seekChain env w st target).2.p.sr = w.p.sr := by
  obtain ⟨h1, h2, -⟩ := seekChain_accept w h
  rw [h2]
  exact ⟨h1, rfl, rfl⟩

theorem ratioTarget_four_half : ratioTarget 4 (1 / 2) = 1 := by
  rw [ratioTarget_eq (by decide)]
  have hc : clamp01 (1 / 2) = 1 / 2 := by norm_num [clamp01]
  have h3 : f64 ((4 - 1 : Int) : ℚ) = 3 := by
    simpa using f64_intCast 3 (by norm_num)
  have hp : f64 ((3 : ℚ) * (1 / 2)) = 3 / 2 := by
    have := f64_exact 3 (-1) (by norm_num)
    norm_num at this ⊢
    exact this
  have hg : goInt ((3 : ℚ) / 2) = 1 := by
    rw [goInt_of_nonneg (by norm_num), Int.floor_eq_iff]
    norm_num
  rw [hc, h3, hp, hg]
  decide

theorem ratioTarget_slider :
    ratioTarget 441001 (f64 (7 / 10)) = 308700 ∧
    ⌊((441001 - 1 : Int) : ℚ) * clamp01 (f64 (7 / 10))⌋ = 308699 := by
  have hc : clamp01 (3152519739159347 / 4503599627370496) =
      3152519739159347 / 4503599627370496 := by norm_num [clamp01]
  have hl : f64 ((441001 - 1 : Int) : ℚ) = 441000 := by
    simpa using f64_intCast 441000 (by norm_num)
  have hp : f64 ((441000 : ℚ) * (3152519739159347 / 4503599627370496)) = 308700 := by
    have h := f64_eval (x := 441000 * (3152519739159347 / 4503599627370496)) (e := 18)
      (n := 5303425617100800)
      (by norm_num [abs_of_pos]) (by norm_num [abs_of_pos]) (by norm_num) (by norm_num)
    rw [h]
    norm_num
  constructor
  · rw [ratioTarget_eq (by decide), f64_seven_tenths, hc, hl, hp]
    have : goInt (308700 : ℚ) = 308700 := by
      simpa using goInt_intCast 308700
    rw [this]
    decide
  · rw [f64_seven_tenths, hc, Int.floor_eq_iff]
    norm_num

/-- C15 (counterexample): on a stream of 4 frames `SeekRatio(0.5)` seeks to frame 1,
the product 1.5 truncated, where rounding to the nearest frame gives 2. -/
theorem seekRatio_half_of_four_is_one :
    tinyLoaded.p.stream = some ⟨0, 4, 0⟩ ∧
    ratioTarget 4 (1 / 2) = 1 ∧
    specRatioTarget 4 (1 / 2) = 2 ∧
    ratioTarget 4 (1 / 2) ≠ specRatioTarget 4 (1 / 2) ∧
    ( SeekRatio tinyEnv tinyLoaded (1 / 2)).1 = none ∧
    ( SeekRatio tinyEnv tinyLoaded (1 / 2)).2.p.stream = some ⟨0, 4, 1⟩ := by
  have hst : tinyLoaded.p.stream = some ⟨0, 4, 0⟩ := by decide
  have hs : specRatioTarget 4 (1 / 2) = 2 := by
    have hr : round (((4 - 1 : Int) : ℚ) * clamp01 (1 / 2)) = 2 := by
      rw [round_eq, Int.floor_eq_iff]
      norm_num [clamp01]
    unfold specRatioTarget
    rw [hr]
    decide
  have hS := SeekRatio_loaded tinyEnv (1 / 2) hst (by decide)
  simp only [ratioTarget_four_half] at hS
  have hk : tinyEnv.seek ⟨0, 4, 0⟩ 1 = none := rfl
  obtain ⟨h1, h2, -⟩ := seekChain_accept_stream (tinyLoaded.log .muLock) hk
  refine ⟨hst, ratioTarget_four_half, hs, ?_, ?_, ?_⟩
  · rw [ratioTarget_four_half, hs]; decide
  · rw [hS]; exact h1
  · rw [hS]; exact h2

/-- C15 (amended): for every loaded stream of length l >= 1 and every ratio r,
`SeekRatio(r)` seeks the stream to frame clamp(trunc(p), 0, l-1), where p is the
float64 product `float64(l-1) * r` of the clamped ratio: the product is truncated
toward zero (here the same as rounding down), not rounded to the nearest frame.
As p is the exact product rounded to float64, the frame is the truncation of the
exact product or one more, for every l with l - 1 <= 2^53.  If the decoder accepts
the seek the stream is at that frame and no error is returned. -/
theorem seekRatio_truncates (env : Env) (w : World) (st : Stream) (r : ℚ)
    (hst : w.p.stream = some st) (hl : 1 ≤ st.len) :
    ratioTarget st.len r =
      clampInt (goInt (f64 (f64 ((st.len - 1 : Int) : ℚ) * clamp01 r))) 0 (st.len - 1) ∧
    goInt (f64 (f64 ((st.len - 1 : Int) : ℚ) * clamp01 r)) =
      ⌊f64 (f64 ((st.len - 1 : Int) : ℚ) * clamp01 r)⌋ ∧
    (st.len - 1 ≤ 2 ^ 53 →
      ⌊((st.len - 1 : Int) : ℚ) * clamp01 r⌋ ≤ ratioTarget st.len r ∧
      ratioTarget st.len r ≤ ⌊((st.len - 1 : Int) : ℚ) * clamp01 r⌋ + 1) ∧
    (∃ evs, ( SeekRatio env w r).2.trace = w.trace ++ evs ∧
      seekCalls evs = [(st.id, ratioTarget st.len r)]) ∧
    (env.seek st (ratioTarget st.len r) = none →
      ( SeekRatio env w r).1 = none ∧
      ( SeekRatio env w r).2.p.stream = some { st with pos := ratioTarget st.len r }) := by
  obtain ⟨hc0, -⟩ := clamp01_bounds r
  have hl1 : (0 : ℚ) ≤ ((st.len - 1 : Int) : ℚ) := by
    exact_mod_cast (by omega : (0 : Int) ≤ st.len - 1)
  have hx0 : (0 : ℚ) ≤ f64 (f64 ((st.len - 1 : Int) : ℚ) * clamp01 r) :=
    f64_nonneg (mul_nonneg (f64_nonneg hl1) hc0)
  refine ⟨ratioTarget_eq hl r, goInt_of_nonneg hx0, fun hb => ratioTarget_near hl hb r, ?_, ?_⟩
  · rw [SeekRatio_loaded env r hst (by omega)]
    exact seekChain_muLock_trace env w st _
  · intro ha
    rw [SeekRatio_loaded env r hst (by omega)]
    obtain ⟨k1, k2, -⟩ := seekChain_accept_stream (w.log .muLock) ha
    exact ⟨k1, k2⟩

/-- C15 (witness): `SeekRatio(0.5)` on the stream of 4 frames; and the slider value
float64(0.7) on 441001 frames, where the float64 product rounds up to 308700. -/
theorem seekRatio_truncates_witness :
    tinyLoaded.p.stream = some ⟨0, 4, 0⟩ ∧
    ratioTarget 4 (1 / 2) =
      clampInt (goInt (f64 (f64 ((4 - 1 : Int) : ℚ) * clamp01 (1 / 2)))) 0 (4 - 1) ∧
    ( SeekRatio tinyEnv tinyLoaded (1 / 2)).1 = none ∧
    ratioTarget 441001 (f64 (7 / 10)) = 308700 ∧
    ⌊((441001 - 1 : Int) : ℚ) * clamp01 (f64 (7 / 10))⌋ = 308699 := by
  have hst : tinyLoaded.p.stream = some ⟨0, 4, 0⟩ := by decide
  have h := seekRatio_truncates tinyEnv tinyLoaded _ (1 / 2) hst (by decide)
  exact ⟨hst, h.1, (h.2.2.2.2 rfl).1, ratioTarget_slider.1, ratioTarget_slider.2⟩

theorem f64_odd_above_two_pow_53 : f64 (9007199254740993 : ℚ) = 9007199254740992 := by
  have h := f64_of_binade (x := 9007199254740993) (e := 53)
    (by norm_num [abs_of_pos]) (by norm_num [abs_of_pos])
  have hq : (9007199254740993 : ℚ) / 2 ^ ((53 : Int) - 52) =
      ((4503599627370496 : Int) : ℚ) + 1 / 2 := by norm_num
  rw [h, hq, roundEven_half_even (by decide)]
  norm_num

theorem ratioTarget_one_rounds_down :
    ratioTarget 9007199254740994 1 = 9007199254740992 := by
  rw [ratioTarget_eq (by decide)]
  have hc : clamp01 1 = 1 := by norm_num [clamp01]
  have hl : ((9007199254740994 - 1 : Int) : ℚ) = 9007199254740993 := by norm_num
  have h2 : f64 (9007199254740992 : ℚ) = 9007199254740992 := by
    simpa using f64_intCast 9007199254740992 (by norm_num)
  have hg : goInt (9007199254740992 : ℚ) = 9007199254740992 := by
    simpa using goInt_intCast 9007199254740992
  rw [hc, hl, f64_odd_above_two_pow_53, mul_one, h2, hg]
  decide

/-- C16 (counterexample): with `a.mp3` loaded (441000 frames) and a decoder that
rejects the seek, `SeekRatio(1.0)` passes frame 440999 to `Seek` and returns the
decoder's error.  And on a length of 2^53 + 2 frames the conversion
`float64(l-1)` rounds 2^53 + 1 down to 2^53, so `SeekRatio(1.0)` computes the frame
l-2, not l-1. -/
theorem seekRatio_one_returns_decoder_error :
    demoLoaded.p.stream = some ⟨0, 441000, 0⟩ ∧
    ratioTarget 441000 1 = 440999 ∧
    ( SeekRatio failSeekEnv demoLoaded 1).1 = some "seek: input/output error" ∧
    ( SeekRatio failSeekEnv demoLoaded 1).1 ≠ none ∧
    ratioTarget 9007199254740994 1 = 9007199254740992 ∧
    ratioTarget 9007199254740994 1 ≠ 9007199254740994 - 1 := by
  have hst : demoLoaded.p.stream = some ⟨0, 441000, 0⟩ := by decide
  have hS := SeekRatio_loaded failSeekEnv 1 hst (by decide)
  have hr : failSeekEnv.seek ⟨0, 441000, 0⟩ (ratioTarget 441000 1) =
      some "seek: input/output error" := rfl
  have hE : ( SeekRatio failSeekEnv demoLoaded 1).1 = some "seek: input/output error" := by
    rw [hS, seekChain_reject _ hr]
  refine ⟨hst, ratioTarget_one (by decide) (by decide), hE, ?_, ratioTarget_one_rounds_down,
    ?_⟩
  · rw [hE]
    decide
  · rw [ratioTarget_one_rounds_down]
    decide

/-- C16 (amended): for every loaded stream of length l >= 1 and every ratio r, the
frame `SeekRatio(r)` passes to `Seek` lies in [0, l-1]; `SeekRatio(1.0)` passes
exactly l-1, for every l with l - 1 <= 2^53, and `SeekRatio(0)` passes frame 0; each
returns no error and leaves the stream at that frame provided the decoder accepts
the seek, and returns the decoder's error otherwise. -/
theorem seekRatio_target_in_range (env : Env) (w : World) (st : Stream) (r : ℚ)
    (hst : w.p.stream = some st) (hl : 1 ≤ st.len) :
    0 ≤ ratioTarget st.len r ∧ ratioTarget st.len r ≤ st.len - 1 ∧
    (∃ evs, ( SeekRatio env w r).2.trace = w.trace ++ evs ∧
      seekCalls evs = [(st.id, ratioTarget st.len r)]) ∧
    (st.len - 1 ≤ 2 ^ 53 → ratioTarget st.len 1 = st.len - 1) ∧
    ratioTarget st.len 0 = 0 ∧
    (st.len - 1 ≤ 2 ^ 53 → env.seek st (st.len - 1) = none →
      ( SeekRatio env w 1).1 = none ∧
      ( SeekRatio env w 1).2.p.stream = some { st with pos := st.len - 1 }) ∧
    (env.seek st 0 = none →
      ( SeekRatio env w 0).1 = none ∧
      ( SeekRatio env w 0).2.p.stream = some { st with pos := 0 }) ∧
    (∀ e, env.seek st (ratioTarget st.len r) = some e → ( SeekRatio env w r).1 = some e) := by
  obtain ⟨h0, h1⟩ := ratioTarget_bounds hl r
  refine ⟨h0, h1, ?_, fun hb => ratioTarget_one hl hb, ratioTarget_zero hl, ?_, ?_, ?_⟩
  · rw [SeekRatio_loaded env r hst (by omega)]
    exact seekChain_muLock_trace env w st _
  · intro hb ha
    rw [SeekRatio_loaded env 1 hst (by omega), ratioTarget_one hl hb]
    obtain ⟨k1, k2, -⟩ := seekChain_accept_stream (w.log .muLock) ha
    exact ⟨k1, k2⟩
  · intro ha
    rw [SeekRatio_loaded env 0 hst (by omega), ratioTarget_zero hl]
    obtain ⟨k1, k2, -⟩ := seekChain_accept_stream (w.log .muLock) ha
    exact ⟨k1, k2⟩
  · intro e he
    rw [SeekRatio_loaded env r hst (by omega), seekChain_reject _ he]

/-- C16 (witness): `SeekRatio(1.0)` on `a.mp3`, the decoder accepting the seek. -/
theorem seekRatio_target_in_range_witness :
    demoLoaded.p.stream = some ⟨0, 441000, 0⟩ ∧
    ( SeekRatio demoEnv demoLoaded 1).1 = none ∧
    ( SeekRatio demoEnv demoLoaded 1).2.p.stream = some ⟨0, 441000, 440999⟩ := by
  have hst : demoLoaded.p.stream = some ⟨0, 441000, 0⟩ := by decide
  have h := seekRatio_target_in_range demoEnv demoLoaded _ 1 hst (by decide)
  exact ⟨hst, (h.2.2.2.2.2.1 (by decide) rfl).1, (h.2.2.2.2.2.1 (by decide) rfl).2⟩

/-- C17 (counterexample): with a stream of 1000 frames loaded at native rate 0,
`SeekBy` and `SeekTo` return the error "akış yok"; with a stream of 0 frames loaded,
`SeekRatio` returns the error "uzunluk bilinmiyor".  Both decoders accept every
seek. -/
theorem seek_fails_with_stream_loaded :
    zeroLoaded.p.stream = some ⟨0, 1000, 0⟩ ∧
    (SeekBy zeroRateEnv zeroLoaded 1000000000).1 = some "akış yok" ∧
    (SeekTo zeroRateEnv zeroLoaded 1000000000).1 = some "akış yok" ∧
    emptyLoaded.p.stream = some ⟨0, 0, 0⟩ ∧
    ( SeekRatio emptyEnv emptyLoaded (1 / 2)).1 = some "uzunluk bilinmiyor" := by
  have h1 : zeroLoaded.p.stream = some ⟨0, 1000, 0⟩ := by decide
  have h2 : emptyLoaded.p.stream = some ⟨0, 0, 0⟩ := by decide
  refine ⟨h1, ?_, ?_, h2, ?_⟩
  · rw [SeekBy_noRate zeroRateEnv _ h1 (by decide)]
  · rw [SeekTo_noRate zeroRateEnv _ h1 (by decide)]
  · rw [SeekRatio_noLength emptyEnv _ h2 (by decide)]

/-- C17 (amended): with a stream loaded, `SeekRatio` returns the error "uzunluk
bilinmiyor" without seeking when the stream's length is <= 0, and `SeekBy` and
`SeekTo` return the error "akış yok" without seeking when the native rate is 0; in
every other case the target is clamped (never below 0, and to at most l-1 when the
length l is >= 1) and the call returns no error provided the decoder accepts the
seek. -/
theorem seek_errors_with_stream_loaded (env : Env) (w : World) (st : Stream) (r : ℚ)
    (d : Int) (hst : w.p.stream = some st) :
    (st.len ≤ 0 →
      SeekRatio env w r = (some "uzunluk bilinmiyor", w.logs [.muLock, .muUnlock])) ∧
    (w.p.sr = 0 →
      SeekBy env w d = (some "akış yok", w.logs [.muLock, .muUnlock]) ∧
      SeekTo env w d = (some "akış yok", w.logs [.muLock, .muUnlock])) ∧
    (0 < st.len → env.seek st (ratioTarget st.len r) = none →
      ( SeekRatio env w r).1 = none) ∧
    (w.p.sr ≠ 0 →
      env.seek st (clampTarget st.len (st.pos + goInt (f64 (f64 (w.p.sr : ℚ) * seconds d)))) = none →
      (SeekBy env w d).1 = none) ∧
    (w.p.sr ≠ 0 →
      env.seek st (clampTarget st.len (goInt (f64 (f64 (w.p.sr : ℚ) * seconds d)))) = none →
      (SeekTo env w d).1 = none) ∧
    (0 < st.len → 0 ≤ ratioTarget st.len r ∧ ratioTarget st.len r ≤ st.len - 1) ∧
    (∀ t, 0 ≤ clampTarget st.len t ∧ (0 < st.len → clampTarget st.len t ≤ st.len - 1)) := by
  refine ⟨fun hl => SeekRatio_noLength env r hst hl,
    fun hsr => ⟨SeekBy_noRate env d hst hsr, SeekTo_noRate env d hst hsr⟩, ?_, ?_, ?_, ?_, ?_⟩
  · intro hl ha
    rw [SeekRatio_loaded env r hst hl]
    exact (seekChain_accept_stream _ ha).1
  · intro hsr ha
    rw [SeekBy_loaded env d hst hsr]
    exact (seekChain_accept_stream _ ha).1
  · intro hsr ha
    rw [SeekTo_loaded env d hst hsr]
    exact (seekChain_accept_stream _ ha).1
  · intro hl
    exact ratioTarget_bounds (by omega) r
  · intro t
    refine ⟨clampTarget_nonneg _ _, fun hl => ?_⟩
    rw [clampTarget_eq_clampInt (by omega)]
    unfold clampInt
    omega

/-- C17 (witness): the three seeks on the stream loaded at native rate 0. -/
theorem seek_errors_with_stream_loaded_witness :
    zeroLoaded.p.stream = some ⟨0, 1000, 0⟩ ∧
    (SeekBy zeroRateEnv zeroLoaded 1000000000).1 = some "akış yok" ∧
    ( SeekRatio zeroRateEnv zeroLoaded (1 / 2)).1 = none := by
  have hst : zeroLoaded.p.stream = some ⟨0, 1000, 0⟩ := by decide
  have h := seek_errors_with_stream_loaded zeroRateEnv zeroLoaded _ (1 / 2) 1000000000 hst
  refine ⟨hst, ?_, h.2.2.1 (by decide) rfl⟩
  rw [(h.2.1 (by decide)).1]

theorem Position_at_zero {p : Player} {st : Stream} (hs : p.stream = some st)
    (hsr : p.sr ≠ 0) (hpos : st.pos = 0) : Position p = .ok 0 := by
  simp [Position, hs, hsr, hpos, goInt_zero, f64_zero]

theorem seconds_neg_700ms :
    seconds (-700000000) = -3152519739159347 / 4503599627370496 := by
  unfold seconds
  have h1 : Int.tdiv (-700000000) timeSecond = 0 := by decide
  have h2 : Int.tmod (-700000000) timeSecond = -700000000 := by decide
  rw [h1, h2]
  have h3 : f64 ((-700000000 : Int) : ℚ) = -700000000 := by
    simpa using f64_intCast (-700000000) (by norm_num)
  have h4 : ((-700000000 : ℚ)) / 1000000000 = -7 / 10 := by norm_num
  rw [h3, h4, f64_neg_seven_tenths]
  have h5 : f64 ((0 : Int) : ℚ) = 0 := by simpa using f64_zero
  rw [h5, zero_add]
  have h6 := f64_exact (-3152519739159347) (-52) (by norm_num)
  norm_num at h6 ⊢
  exact h6

theorem frames_neg_700ms :
    goInt (f64 (f64 ((44100 : Int) : ℚ) * seconds (-700000000))) = -30869 := by
  have h1 : f64 ((44100 : Int) : ℚ) = 44100 := by
    simpa using f64_intCast 44100 (by norm_num)
  rw [h1, seconds_neg_700ms]
  have h := f64_eval (x := 44100 * (-3152519739159347 / 4503599627370496)) (e := 14)
    (n := -8485480987361279)
    (by norm_num [abs_of_neg]) (by norm_num [abs_of_neg]) (by norm_num) (by norm_num)
  rw [h, goInt_of_nonpos (by norm_num), Int.ceil_eq_iff]
  norm_num

/-- C18 (counterexample): with `a.mp3` at frame 220500 (5.0 s) and a decoder that
rejects the seek, `SeekBy(-20 s)` passes frame 0 to `Seek` and returns the decoder's
error; the stream stays at frame 220500.  And with a decoder that accepts the seek,
`SeekBy(-700 ms)` moves by 30869 frames to frame 189631, where 44100 Hz times 0.7 s
is exactly 30870 frames: the float64 value of 0.7 lies below 7/10. -/
theorem seekBy_returns_decoder_error :
    demoAtFive.p.stream = some ⟨0, 441000, 220500⟩ ∧
    demoAtFive.p.sr = 44100 ∧
    (SeekBy failSeekEnv demoAtFive (-20000000000)).1 = some "seek: input/output error" ∧
    (SeekBy failSeekEnv demoAtFive (-20000000000)).1 ≠ none ∧
    (SeekBy failSeekEnv demoAtFive (-20000000000)).2.p.stream =
      some ⟨0, 441000, 220500⟩ ∧
    (SeekBy demoEnv demoAtFive (-700000000)).2.p.stream = some ⟨0, 441000, 189631⟩ ∧
    goInt (((44100 : Int) : ℚ) * (((-700000000 : Int) : ℚ) / 1000000000)) = -30870 ∧
    clampInt (220500 + -30870) 0 (441000 - 1) = 189630 := by
  obtain ⟨hst, hsr⟩ := demoAtFive_p
  have hS := SeekBy_loaded failSeekEnv (-20000000000) hst (by rw [hsr]; decide)
  have hr : failSeekEnv.seek ⟨0, 441000, 220500⟩
      (clampTarget (441000 : Int)
        ((220500 : Int) +
          goInt (f64 (f64 (demoAtFive.p.sr : ℚ) * seconds (-20000000000))))) =
      some "seek: input/output error" := rfl
  have hE := seekChain_reject (demoAtFive.log .muLock) hr
  have hS2 := SeekBy_loaded demoEnv (-700000000) hst (by rw [hsr]; decide)
  rw [hsr, frames_neg_700ms] at hS2
  have hc : clampTarget (441000 : Int) ((220500 : Int) + -30869) = 189631 := by decide
  have hk : demoEnv.seek ⟨0, 441000, 220500⟩ 189631 = none := rfl
  have hg : goInt (((44100 : Int) : ℚ) * (((-700000000 : Int) : ℚ) / 1000000000)) =
      -30870 := by
    apply goInt_eq_of_eq
    norm_num
  rw [hS, hE]
  refine ⟨hst, hsr, rfl, by decide, hst, ?_, hg, by decide⟩
  rw [hS2]
  simp only [hc]
  exact (seekChain_accept_stream _ hk).2.1

/-- C18 (amended): for every loaded state with native rate sr > 0, stream length
l >= 1 and current frame cur, `SeekBy(d)` passes clamp(cur + f, 0, l-1) to `Seek`,
where f is the float64 product `float64(sr) * d.Seconds()` truncated toward zero;
f has the sign of d and is less than 1 + |x| / 2^50 away from the exact number of
frames x = sr * (d in seconds); whenever cur + f is negative the target is exactly
frame 0.  Provided the decoder accepts the seek, no error is returned, the stream
is at the target, and when the target is 0 `Position()` is exactly 0; if the decoder
rejects the seek its error is returned. -/
theorem seekBy_clamps (env : Env) (w : World) (st : Stream) (d : Int)
    (hst : w.p.stream = some st) (hsr : 0 < w.p.sr) (hl : 1 ≤ st.len) :
    (∃ evs, (SeekBy env w d).2.trace = w.trace ++ evs ∧
      seekCalls evs =
        [(st.id,
          clampInt (st.pos + goInt (f64 (f64 (w.p.sr : ℚ) * seconds d))) 0 (st.len - 1))]) ∧
    |((goInt (f64 (f64 (w.p.sr : ℚ) * seconds d)) : Int) : ℚ) -
        (w.p.sr : ℚ) * ((d : ℚ) / 1000000000)| <
      1 + |(w.p.sr : ℚ) * ((d : ℚ) / 1000000000)| / 2 ^ 50 ∧
    (0 ≤ d → 0 ≤ goInt (f64 (f64 (w.p.sr : ℚ) * seconds d))) ∧
    (d ≤ 0 → goInt (f64 (f64 (w.p.sr : ℚ) * seconds d)) ≤ 0) ∧
    (st.pos + goInt (f64 (f64 (w.p.sr : ℚ) * seconds d)) < 0 →
      clampInt (st.pos + goInt (f64 (f64 (w.p.sr : ℚ) * seconds d))) 0 (st.len - 1) = 0) ∧
    (env.seek st
        (clampInt (st.pos + goInt (f64 (f64 (w.p.sr : ℚ) * seconds d))) 0 (st.len - 1)) =
        none →
      (SeekBy env w d).1 = none ∧
      (SeekBy env w d).2.p.stream = some
        { st with
          pos := clampInt (st.pos + goInt (f64 (f64 (w.p.sr : ℚ) * seconds d))) 0
            (st.len - 1) } ∧
      (st.pos + goInt (f64 (f64 (w.p.sr : ℚ) * seconds d)) < 0 →
        Position (SeekBy env w d).2.p = .ok 0)) ∧
    (∀ e,
      env.seek st
        (clampInt (st.pos + goInt (f64 (f64 (w.p.sr : ℚ) * seconds d))) 0 (st.len - 1)) =
        some e →
      (SeekBy env w d).1 = some e) := by
  have hsr0 : w.p.sr ≠ 0 := by omega
  have hS := SeekBy_loaded env d hst hsr0
  rw [clampTarget_eq_clampInt hl] at hS
  have hneg : st.pos + goInt (f64 (f64 (w.p.sr : ℚ) * seconds d)) < 0 →
      clampInt (st.pos + goInt (f64 (f64 (w.p.sr : ℚ) * seconds d))) 0 (st.len - 1) = 0 := by
    intro h
    unfold clampInt
    omega
  refine ⟨?_, frames_near _ _, fun hd => frames_nonneg hsr.le hd,
    fun hd => frames_nonpos hsr.le hd, hneg, ?_, ?_⟩
  · rw [hS]
    exact seekChain_muLock_trace env w st _
  · intro ha
    obtain ⟨k1, k2, k3⟩ := seekChain_accept_stream (w.log .muLock) ha
    rw [hS]
    refine ⟨k1, k2, fun h => ?_⟩
    have k4 : (seekChain env (w.log .muLock) st
        (clampInt (st.pos + goInt (f64 (f64 (w.p.sr : ℚ) * seconds d))) 0
          (st.len - 1))).2.p.sr ≠ 0 := by
      rw [k3]; exact hsr0
    exact Position_at_zero k2 k4 (hneg h)
  · intro e he
    rw [hS, seekChain_reject _ he]

/-- C18 (witness): at 5.0 s of the 44100 Hz track `a.mp3`, `SeekBy(-20 s)` with a
decoder that accepts the seek gives `Position() == 0`. -/
theorem seekBy_clamps_witness :
    demoAtFive.p.stream = some ⟨0, 441000, 220500⟩ ∧
    demoAtFive.p.sr = 44100 ∧
    (SeekBy demoEnv demoAtFive (-20000000000)).1 = none ∧
    Position (SeekBy demoEnv demoAtFive (-20000000000)).2.p = .ok 0 := by
  obtain ⟨hst, hsr⟩ := demoAtFive_p
  have hf : goInt (f64 (f64 (demoAtFive.p.sr : ℚ) * seconds (-20000000000))) = -882000 := by
    rw [hsr]
    exact frames_whole 44100 (-20) (by decide) (by decide) (by norm_num) (by norm_num)
      (by norm_num)
  have h := seekBy_clamps demoEnv demoAtFive _ (-20000000000) hst (by rw [hsr]; decide)
    (by decide)
  obtain ⟨k1, -, k3⟩ := h.2.2.2.2.2.1 rfl
  exact ⟨hst, hsr, k1, k3 (by rw [hf]; decide)⟩

theorem seconds_long : seconds 18014398509481986 = 4835703278458517 / 268435456 := by
  unfold seconds
  have h1 : Int.tdiv 18014398509481986 timeSecond = 18014398 := by decide
  have h2 : Int.tmod 18014398509481986 timeSecond = 509481986 := by decide
  rw [h1, h2]
  have h3 : f64 ((509481986 : Int) : ℚ) = 509481986 := by
    simpa using f64_intCast 509481986 (by norm_num)
  have h4 : f64 ((18014398 : Int) : ℚ) = 18014398 := by
    simpa using f64_intCast 18014398 (by norm_num)
  have h5 : f64 ((509481986 : ℚ) / 1000000000) = 4589005764603161 / 9007199254740992 := by
    have h := f64_eval (x := (509481986 : ℚ) / 1000000000) (e := -1) (n := 4589005764603161)
      (by norm_num [abs_of_pos]) (by norm_num [abs_of_pos]) (by norm_num) (by norm_num)
    rw [h]
    norm_num
  rw [h3, h4, h5]
  have h := f64_eval (x := (18014398 : ℚ) + 4589005764603161 / 9007199254740992) (e := 24)
    (n := 4835703278458517)
    (by norm_num [abs_of_pos]) (by norm_num [abs_of_pos]) (by norm_num) (by norm_num)
  rw [h]
  norm_num

theorem frames_long :
    goInt (f64 (f64 ((1000000000 : Int) : ℚ) * seconds 18014398509481986)) =
      18014398509481984 := by
  have h1 : f64 ((1000000000 : Int) : ℚ) = 1000000000 := by
    simpa using f64_intCast 1000000000 (by norm_num)
  rw [h1, seconds_long]
  have h := f64_eval (x := 1000000000 * (4835703278458517 / 268435456)) (e := 54)
    (n := 4503599627370496)
    (by norm_num [abs_of_pos]) (by norm_num [abs_of_pos]) (by norm_num) (by norm_num)
  rw [h]
  apply goInt_eq_of_eq
  norm_num

/-- C19 (counterexample): on `a.mp3` (44100 Hz) `SeekTo(700 ms)` seeks to frame
30869, where 44100 Hz times 0.7 s is exactly 30870 frames: `d.Seconds()` is the
float64 nearest to 0.7, which lies below 7/10, and the product is truncated.  And
on a stream of 2^54 + 2 frames at 10^9 Hz, `SeekTo` of exactly the track's length
(2^54 + 2 ns) seeks to frame 2^54, which is l-2: the float64 product rounds
down by two frames. -/
theorem seekTo_700ms_is_one_frame_short :
    demoLoaded.p.stream = some ⟨0, 441000, 0⟩ ∧
    demoLoaded.p.sr = 44100 ∧
    (SeekTo demoEnv demoLoaded 700000000).1 = none ∧
    (SeekTo demoEnv demoLoaded 700000000).2.p.stream = some ⟨0, 441000, 30869⟩ ∧
    goInt (((44100 : Int) : ℚ) * (((700000000 : Int) : ℚ) / 1000000000)) = 30870 ∧
    clampInt 30870 0 (441000 - 1) = 30870 ∧
    hugeLoaded.p.stream = some ⟨0, 18014398509481986, 0⟩ ∧
    hugeLoaded.p.sr = 1000000000 ∧
    (18014398509481986 : Int) * timeSecond ≤ 1000000000 * 18014398509481986 ∧
    (SeekTo hugeEnv hugeLoaded 18014398509481986).1 = none ∧
    (SeekTo hugeEnv hugeLoaded 18014398509481986).2.p.stream =
      some ⟨0, 18014398509481986, 18014398509481984⟩ ∧
    (18014398509481984 : Int) ≠ 18014398509481986 - 1 := by
  obtain ⟨hp, -, -⟩ := demoLoaded_p
  have hst : demoLoaded.p.stream = some ⟨0, 441000, 0⟩ := by rw [hp]
  have hsr : demoLoaded.p.sr = 44100 := by rw [hp]
  have hS := SeekTo_loaded demoEnv 700000000 hst (by rw [hsr]; decide)
  rw [hsr, frames_700ms] at hS
  have hc : clampTarget (441000 : Int) 30869 = 30869 := by decide
  have hk : demoEnv.seek ⟨0, 441000, 0⟩ 30869 = none := rfl
  have hg : goInt (((44100 : Int) : ℚ) * (((700000000 : Int) : ℚ) / 1000000000)) =
      30870 := by
    apply goInt_eq_of_eq
    norm_num
  obtain ⟨k1, k2, -⟩ := seekChain_accept_stream (demoLoaded.log .muLock) hk
  have hst2 : hugeLoaded.p.stream = some ⟨0, 18014398509481986, 0⟩ := by decide
  have hsr2 : hugeLoaded.p.sr = 1000000000 := by decide
  have hS2 := SeekTo_loaded hugeEnv 18014398509481986 hst2 (by rw [hsr2]; decide)
  rw [hsr2, frames_long] at hS2
  have hc2 : clampTarget (18014398509481986 : Int) 18014398509481984 =
      18014398509481984 := by decide
  have hk2 : hugeEnv.seek ⟨0, 18014398509481986, 0⟩ 18014398509481984 = none := rfl
  obtain ⟨m1, m2, -⟩ := seekChain_accept_stream (hugeLoaded.log .muLock) hk2
  refine ⟨hst, hsr, ?_, ?_, hg, by decide, hst2, hsr2, by decide, ?_, ?_, by decide⟩
  · rw [hS]
    simp only [hc]
    exact k1
  · rw [hS]
    simp only [hc]
    exact k2
  · rw [hS2]
    simp only [hc2]
    exact m1
  · rw [hS2]
    simp only [hc2]
    exact m2

/-- C19 (amended): for every loaded state with native rate sr > 0 and stream length
l >= 1, `SeekTo(d)` passes clamp(t, 0, l-1) to `Seek`, where t is the float64
product `float64(sr) * d.Seconds()` truncated toward zero, whatever the current
position; t is less than 1 + |x| / 2^50 away from the exact number of frames
x = sr * (d in seconds); a d that is negative or zero gives frame 0, and for
l <= 2^50 a d of at least l / sr seconds gives frame l-1; when the decoder accepts
the seek the stream is at that frame and no error is returned. -/
theorem seekTo_clamps (env : Env) (w : World) (st : Stream) (d : Int)
    (hst : w.p.stream = some st) (hsr : 0 < w.p.sr) (hl : 1 ≤ st.len) :
    (∀ cur : Int, ∃ evs,
      (SeekTo env { w with p := { w.p with stream := some { st with pos := cur } } } d).2.trace =
        w.trace ++ evs ∧
      seekCalls evs =
        [(st.id, clampInt (goInt (f64 (f64 (w.p.sr : ℚ) * seconds d))) 0 (st.len - 1))]) ∧
    (∃ evs, (SeekTo env w d).2.trace = w.trace ++ evs ∧
      seekCalls evs =
        [(st.id, clampInt (goInt (f64 (f64 (w.p.sr : ℚ) * seconds d))) 0 (st.len - 1))]) ∧
    |((goInt (f64 (f64 (w.p.sr : ℚ) * seconds d)) : Int) : ℚ) -
        (w.p.sr : ℚ) * ((d : ℚ) / 1000000000)| <
      1 + |(w.p.sr : ℚ) * ((d : ℚ) / 1000000000)| / 2 ^ 50 ∧
    (d ≤ 0 → clampInt (goInt (f64 (f64 (w.p.sr : ℚ) * seconds d))) 0 (st.len - 1) = 0) ∧
    (st.len ≤ 2 ^ 50 → st.len * timeSecond ≤ w.p.sr * d →
      clampInt (goInt (f64 (f64 (w.p.sr : ℚ) * seconds d))) 0 (st.len - 1) = st.len - 1) ∧
    (env.seek st (clampInt (goInt (f64 (f64 (w.p.sr : ℚ) * seconds d))) 0 (st.len - 1)) =
        none →
      (SeekTo env w d).1 = none ∧
      (SeekTo env w d).2.p.stream = some
        { st with
          pos := clampInt (goInt (f64 (f64 (w.p.sr : ℚ) * seconds d))) 0 (st.len - 1) }) := by
  have hsr0 : w.p.sr ≠ 0 := by omega
  have hS := SeekTo_loaded env d hst hsr0
  rw [clampTarget_eq_clampInt hl] at hS
  refine ⟨?_, ?_, frames_near _ _, ?_, ?_, ?_⟩
  · intro cur
    have hcur : ({ w with p := { w.p with stream := some { st with pos := cur } } } :
        World).p.stream = some { st with pos := cur } := rfl
    have hS2 := SeekTo_loaded env d hcur hsr0
    rw [clampTarget_eq_clampInt (by exact hl)] at hS2
    rw [hS2]
    exact seekChain_muLock_trace env _ _ _
  · rw [hS]
    exact seekChain_muLock_trace env w st _
  · intro hd
    have := frames_nonpos hsr.le hd
    unfold clampInt
    omega
  · intro hb hd
    have := frames_ge hl hb hd
    unfold clampInt
    omega
  · intro ha
    obtain ⟨k1, k2, -⟩ := seekChain_accept_stream (w.log .muLock) ha
    rw [hS]
    exact ⟨k1, k2⟩

/-- C19 (witness): `SeekTo(5 s)` on `a.mp3` seeks to frame 220500. -/
theorem seekTo_clamps_witness :
    demoLoaded.p.stream = some ⟨0, 441000, 0⟩ ∧ (0 : Int) < demoLoaded.p.sr ∧
    (SeekTo demoEnv demoLoaded 5000000000).1 = none ∧
    (SeekTo demoEnv demoLoaded 5000000000).2.p.stream = some ⟨0, 441000, 220500⟩ := by
  have hst : demoLoaded.p.stream = some ⟨0, 441000, 0⟩ := by decide
  have hsr : (0 : Int) < demoLoaded.p.sr := by decide
  have h := seekTo_clamps demoEnv demoLoaded _ 5000000000 hst hsr (by decide)
  obtain ⟨k1, -⟩ := h.2.2.2.2.2 rfl
  exact ⟨hst, hsr, k1, demoAtFive_p.1⟩

theorem seekCalls_append (a b : List Event) :
    seekCalls (a ++ b) = seekCalls a ++ seekCalls b := by
  simp [seekCalls, List.filterMap_append]

/-- C20 (counterexample): with a stream of length 0 loaded at 44100 Hz, Stop passes
frame 0 and `SeekTo(1 s)` passes frame 44100 to `Seek`; both are at or beyond the
length 0. -/
theorem seek_index_reaches_length_on_empty_stream :
    emptyLoaded.p.stream = some ⟨0, 0, 0⟩ ∧
    seekCalls emptyLoaded.trace = [] ∧
    seekCalls (Stop emptyEnv emptyLoaded).trace = [(0, 0)] ∧
    seekCalls (SeekTo emptyEnv emptyLoaded 1000000000).2.trace = [(0, 44100)] ∧
    ¬ ((0 : Int) ≤ 0 - 1) ∧ ¬ ((44100 : Int) ≤ 0 - 1) := by
  have hst : emptyLoaded.p.stream = some ⟨0, 0, 0⟩ := by decide
  have hsr : emptyLoaded.p.sr = 44100 := by decide
  have htr : seekCalls emptyLoaded.trace = [] := by decide
  have ht : goInt (f64 (f64 (emptyLoaded.p.sr : ℚ) * seconds 1000000000)) = 44100 := by
    rw [hsr]
    exact frames_whole 44100 1 (by decide) (by decide) (by norm_num) (by norm_num)
      (by norm_num)
  have hS := SeekTo_loaded emptyEnv 1000000000 hst (by rw [hsr]; decide)
  rw [ht] at hS
  have hc : clampTarget (0 : Int) 44100 = 44100 := by decide
  obtain ⟨evs, h1, h2⟩ := seekChain_muLock_trace emptyEnv emptyLoaded ⟨0, 0, 0⟩
    (clampTarget (0 : Int) 44100)
  refine ⟨hst, htr, by decide, ?_, by decide, by decide⟩
  rw [hS, h1, seekCalls_append, htr, h2, hc]
  rfl

/-- C20 (amended): with a stream loaded, every frame index that Stop, `SeekRatio`,
`SeekBy` or `SeekTo` passes to the stream's `Seek` is at least 0, and when the
stream's length is >= 1 it is at most length-1, hence below the length. -/
theorem seek_indices_in_range (env : Env) (w : World) (st : Stream) (r : ℚ) (d : Int)
    (hst : w.p.stream = some st) :
    (∃ evs, (Stop env w).trace = w.trace ++ evs ∧
      ∀ c ∈ seekCalls evs, c.1 = st.id ∧ 0 ≤ c.2 ∧ (1 ≤ st.len → c.2 ≤ st.len - 1)) ∧
    (∃ evs, ( SeekRatio env w r).2.trace = w.trace ++ evs ∧
      ∀ c ∈ seekCalls evs, c.1 = st.id ∧ 0 ≤ c.2 ∧ (1 ≤ st.len → c.2 ≤ st.len - 1)) ∧
    (∃ evs, (SeekBy env w d).2.trace = w.trace ++ evs ∧
      ∀ c ∈ seekCalls evs, c.1 = st.id ∧ 0 ≤ c.2 ∧ (1 ≤ st.len → c.2 ≤ st.len - 1)) ∧
    (∃ evs, (SeekTo env w d).2.trace = w.trace ++ evs ∧
      ∀ c ∈ seekCalls evs, c.1 = st.id ∧ 0 ≤ c.2 ∧ (1 ≤ st.len → c.2 ≤ st.len - 1)) := by
  have hclamp : ∀ t : Int, 0 ≤ clampTarget st.len t ∧
      (1 ≤ st.len → clampTarget st.len t ≤ st.len - 1) := by
    intro t
    refine ⟨clampTarget_nonneg _ _, fun hl => ?_⟩
    rw [clampTarget_eq_clampInt hl]
    unfold clampInt
    omega
  refine ⟨?_, ?_, ?_, ?_⟩
  · obtain ⟨evs, h1, h2⟩ := Stop_calls env hst
    refine ⟨evs, h1, fun c hc => ?_⟩
    rcases h2 with h2 | h2
    · rw [h2] at hc; cases hc
    · rw [h2, List.mem_singleton] at hc
      subst hc
      exact ⟨rfl, le_refl _, fun hl => by show (0 : Int) ≤ st.len - 1; omega⟩
  · obtain ⟨evs, h1, h2⟩ := SeekRatio_calls env r hst
    refine ⟨evs, h1, fun c hc => ?_⟩
    rcases h2 with ⟨-, h2⟩ | ⟨hl, h2⟩
    · rw [h2] at hc; cases hc
    · rw [h2, List.mem_singleton] at hc
      subst hc
      obtain ⟨k0, k1⟩ := ratioTarget_bounds (by omega : 1 ≤ st.len) r
      exact ⟨rfl, k0, fun _ => k1⟩
  · obtain ⟨evs, h1, h2⟩ := SeekBy_calls env d hst
    refine ⟨evs, h1, fun c hc => ?_⟩
    rcases h2 with ⟨-, h2⟩ | ⟨-, h2⟩
    · rw [h2] at hc; cases hc
    · rw [h2, List.mem_singleton] at hc
      subst hc
      exact ⟨rfl, (hclamp _).1, (hclamp _).2⟩
  · obtain ⟨evs, h1, h2⟩ := SeekTo_calls env d hst
    refine ⟨evs, h1, fun c hc => ?_⟩
    rcases h2 with ⟨-, h2⟩ | ⟨-, h2⟩
    · rw [h2] at hc; cases hc
    · rw [h2, List.mem_singleton] at hc
      subst hc
      exact ⟨rfl, (hclamp _).1, (hclamp _).2⟩

/-- C20 (witness): the four operations on `a.mp3` (441000 frames) at frame 220500. -/
theorem seek_indices_in_range_witness :
    demoAtFive.p.stream = some ⟨0, 441000, 220500⟩ ∧
    ∃ evs, (SeekBy demoEnv demoAtFive 20000000000).2.trace = demoAtFive.trace ++ evs ∧
      ∀ c ∈ seekCalls evs, c.1 = 0 ∧ 0 ≤ c.2 ∧ c.2 ≤ 441000 - 1 := by
  have hst := demoAtFive_p.1
  obtain ⟨evs, h1, h2⟩ :=
    (seek_indices_in_range demoEnv demoAtFive _ 0 20000000000 hst).2.2.1
  exact ⟨hst, evs, h1, fun c hc => ⟨(h2 c hc).1, (h2 c hc).2.1, (h2 c hc).2.2 (by decide)⟩⟩

/-! ## What a seek leaves alone -/

theorem seekChain_frame (env : Env) (w : World) (st : Stream) (target : Int) :
    (seekChain env w st target).2.p.started = w.p.started ∧
    (seekChain env w st target).2.p.current = w.p.current ∧
    (seekChain env w st target).2.p.sr = w.p.sr ∧
    (seekChain env w st target).2.p.volNorm = w.p.volNorm ∧
    (seekChain env w st target).2.p.ctrl.map (fun c => c.Paused) =
      w.p.ctrl.map (fun c => c.Paused) ∧
    (w.p.stream = some st →
      (seekChain env w st target).2.p.stream.map (fun s => s.len) = some st.len) ∧
    (seekChain env w st target).2.mixer = w.mixer := by
  cases h : env.seek st target with
  | some e =>
    rw [seekChain_reject w h]
    exact ⟨rfl, rfl, rfl, rfl, rfl, fun hst => by simp [World.logs, hst], rfl⟩
  | none =>
    obtain ⟨-, h2, h3, -⟩ := seekChain_accept w h
    rw [h2]
    refine ⟨rfl, rfl, rfl, rfl, ?_, fun _ => rfl, h3⟩
    cases w.p.ctrl <;> rfl

/-- The fields of the player that decide `IsPlaying()`, `Duration()` and
`CurrentFile()`. -/
theorem IsPlaying_congr {p q : Player} (h1 : p.started = q.started)
    (h2 : p.ctrl.map (fun c => c.Paused) = q.ctrl.map (fun c => c.Paused)) :
    IsPlaying p = IsPlaying q := by
  unfold IsPlaying
  rw [h1]
  cases hp : p.ctrl <;> cases hq : q.ctrl <;> simp [hp, hq] at h2 ⊢
  simp [h2]

theorem Duration_congr {p q : Player}
    (h1 : p.stream.map (fun s => s.len) = q.stream.map (fun s => s.len))
    (h2 : p.sr = q.sr) : Duration p = Duration q := by
  unfold Duration
  rw [h2]
  cases hp : p.stream <;> cases hq : q.stream <;> simp [hp, hq] at h1 ⊢
  simp [h1]

theorem seekFrame_logs (w : World) (es : List Event) : SeekFrame w (w.logs es) :=
  ⟨rfl, rfl, rfl, rfl, rfl, rfl, rfl⟩

theorem seekFrame_seekChain (env : Env) {w : World} {st : Stream} (target : Int)
    (hst : w.p.stream = some st) :
    SeekFrame w (seekChain env (w.log .muLock) st target).2 := by
  obtain ⟨h1, h2, h3, h4, h5, h6, h7⟩ := seekChain_frame env (w.log .muLock) st target
  exact ⟨h1, h5, h2, h3, by rw [h6 hst, hst]; rfl, h4, h7⟩

theorem SeekRatio_frame (env : Env) (w : World) (r : ℚ) :
    SeekFrame w ( SeekRatio env w r).2 := by
  cases hst : w.p.stream with
  | none => rw [SeekRatio_noStream env r hst]; exact seekFrame_logs _ _
  | some st =>
    by_cases hl : st.len ≤ 0
    · rw [SeekRatio_noLength env r hst hl]; exact seekFrame_logs _ _
    · rw [SeekRatio_loaded env r hst (by omega)]; exact seekFrame_seekChain env _ hst

theorem SeekBy_frame (env : Env) (w : World) (d : Int) :
    SeekFrame w (SeekBy env w d).2 := by
  cases hst : w.p.stream with
  | none => rw [SeekBy_noStream env d hst]; exact seekFrame_logs _ _
  | some st =>
    by_cases hsr : w.p.sr = 0
    · rw [SeekBy_noRate env d hst hsr]; exact seekFrame_logs _ _
    · rw [SeekBy_loaded env d hst hsr]; exact seekFrame_seekChain env _ hst

theorem SeekTo_frame (env : Env) (w : World) (d : Int) :
    SeekFrame w (SeekTo env w d).2 := by
  cases hst : w.p.stream with
  | none => rw [SeekTo_noStream env d hst]; exact seekFrame_logs _ _
  | some st =>
    by_cases hsr : w.p.sr = 0
    · rw [SeekTo_noRate env d hst hsr]; exact seekFrame_logs _ _
    · rw [SeekTo_loaded env d hst hsr]; exact seekFrame_seekChain env _ hst

/-- C21: every `SeekRatio`, `SeekBy` and `SeekTo`, successful or not, leaves the started
flag, the control's paused flag, the current file, the native rate, the stream's
length, the volume and the mixer unchanged; hence `IsPlaying()`, `CurrentFile()` and
`Duration()` return after the seek what they returned before it. -/
theorem seek_preserves_session (env : Env) (w : World) (r : ℚ) (d : Int) :
    (SeekFrame w ( SeekRatio env w r).2 ∧
      IsPlaying ( SeekRatio env w r).2.p = IsPlaying w.p ∧
      CurrentFile ( SeekRatio env w r).2.p = CurrentFile w.p ∧
      Duration ( SeekRatio env w r).2.p = Duration w.p) ∧
    (SeekFrame w (SeekBy env w d).2 ∧
      IsPlaying (SeekBy env w d).2.p = IsPlaying w.p ∧
      CurrentFile (SeekBy env w d).2.p = CurrentFile w.p ∧
      Duration (SeekBy env w d).2.p = Duration w.p) ∧
    (SeekFrame w (SeekTo env w d).2 ∧
      IsPlaying (SeekTo env w d).2.p = IsPlaying w.p ∧
      CurrentFile (SeekTo env w d).2.p = CurrentFile w.p ∧
      Duration (SeekTo env w d).2.p = Duration w.p) := by
  have key : ∀ w1 : World, SeekFrame w w1 →
      SeekFrame w w1 ∧ IsPlaying w1.p = IsPlaying w.p ∧
      CurrentFile w1.p = CurrentFile w.p ∧ Duration w1.p = Duration w.p := by
    intro w1 h
    refine ⟨h, IsPlaying_congr h.started h.paused, ?_, Duration_congr h.len h.sr⟩
    unfold CurrentFile
    rw [h.current]
  exact ⟨key _ (SeekRatio_frame env w r), key _ (SeekBy_frame env w d),
    key _ (SeekTo_frame env w d)⟩

/-! ## Duration and Position -/

/-- C23 (counterexample): with 24473143 frames loaded at 22254 Hz `Duration()`
returns 1099718837063 ns, one more than 10^9 * l / sr truncated to whole
nanoseconds (1099718837062): the float64 quotient rounds up to a whole number. -/
theorem duration_rounds_up :
    longLoaded.p.stream = some ⟨0, 24473143, 0⟩ ∧
    longLoaded.p.sr = 22254 ∧
    Duration longLoaded.p = .ok 1099718837063 ∧
    ⌊((24473143 : Int) : ℚ) / ((22254 : Int) : ℚ) * (timeSecond : ℚ)⌋ = 1099718837062 := by
  have hst : longLoaded.p.stream = some ⟨0, 24473143, 0⟩ := by decide
  have hsr : longLoaded.p.sr = 22254 := by decide
  have hT : f64 (timeSecond : ℚ) = 1000000000 := by
    simpa [timeSecond] using f64_intCast timeSecond (by decide)
  have hl : f64 ((24473143 : Int) : ℚ) = 24473143 := by
    simpa using f64_intCast 24473143 (by norm_num)
  have hs : f64 ((22254 : Int) : ℚ) = 22254 := by
    simpa using f64_intCast 22254 (by norm_num)
  have hp : f64 ((1000000000 : ℚ) * 24473143) = 24473143000000000 := by
    have := f64_exact 3059142875000000 3 (by norm_num)
    norm_num at this ⊢
    exact this
  have hq : f64 ((24473143000000000 : ℚ) / 22254) = 1099718837063 := by
    have h := f64_eval (x := 24473143000000000 / 22254) (e := 40) (n := 4504448356610048)
      (by norm_num [abs_of_pos]) (by norm_num [abs_of_pos]) (by norm_num) (by norm_num)
    rw [h]
    norm_num
  have hg : goInt (1099718837063 : ℚ) = 1099718837063 := by
    simpa using goInt_intCast 1099718837063
  refine ⟨hst, hsr, ?_, ?_⟩
  · simp only [Duration, hst, hsr]
    rw [if_neg (by decide), hT, hl, hs, hp, hq, hg]
  · rw [Int.floor_eq_iff]
    norm_num [timeSecond]

/-- C23 (amended): with a stream of length l loaded at native rate sr, `Duration()`
returns the error "uzunluk bilinmiyor" exactly when l <= 0 or sr = 0; otherwise it
returns the float64 quotient `float64(time.Second) * float64(l) / float64(sr)`
truncated toward zero, which for l > 0 and sr > 0 is less than 1 + x / 2^50
nanoseconds away from the exact x = 10^9 * l / sr.  The device rate does not
enter. -/
theorem duration_from_native_rate (p : Player) (st : Stream) (hst : p.stream = some st) :
    (Duration p = .error "uzunluk bilinmiyor" ↔ st.len ≤ 0 ∨ p.sr = 0) ∧
    (¬ (st.len ≤ 0 ∨ p.sr = 0) →
      Duration p = .ok (goInt
        (f64 (f64 (f64 (timeSecond : ℚ) * f64 (st.len : ℚ)) / f64 (p.sr : ℚ))))) ∧
    (0 < st.len → 0 < p.sr → ∃ D, Duration p = .ok D ∧
      |(D : ℚ) - (timeSecond : ℚ) * (st.len : ℚ) / (p.sr : ℚ)| <
        1 + (timeSecond : ℚ) * (st.len : ℚ) / (p.sr : ℚ) / 2 ^ 50) := by
  have hform : ¬ (st.len ≤ 0 ∨ p.sr = 0) →
      Duration p = .ok (goInt
        (f64 (f64 (f64 (timeSecond : ℚ) * f64 (st.len : ℚ)) / f64 (p.sr : ℚ)))) := by
    intro hn
    simp only [Duration, hst]
    rw [if_neg hn]
  refine ⟨?_, hform, ?_⟩
  · constructor
    · intro h
      by_contra hn
      simp [Duration, hst, hn] at h
    · intro h
      simp [Duration, hst, h, errorsNew]
  · intro hl hsr
    refine ⟨_, hform (by omega), ?_⟩
    have hlq : (0 : ℚ) < (st.len : ℚ) := by exact_mod_cast hl
    have hsq : (0 : ℚ) < (p.sr : ℚ) := by exact_mod_cast hsr
    have hT : (0 : ℚ) < (timeSecond : ℚ) := by norm_num [timeSecond]
    have hx : (0 : ℚ) ≤ (timeSecond : ℚ) * (st.len : ℚ) / (p.sr : ℚ) := by positivity
    have h1 := goInt_near
      (f64 (f64 (f64 (timeSecond : ℚ) * f64 (st.len : ℚ)) / f64 (p.sr : ℚ)))
    have h2 := nanos_close st.len p.sr (by omega)
    rw [abs_of_nonneg hx] at h2
    have h3 := abs_add
      (((goInt (f64 (f64 (f64 (timeSecond : ℚ) * f64 (st.len : ℚ)) / f64 (p.sr : ℚ))) :
        Int) : ℚ) - f64 (f64 (f64 (timeSecond : ℚ) * f64 (st.len : ℚ)) / f64 (p.sr : ℚ)))
      (f64 (f64 (f64 (timeSecond : ℚ) * f64 (st.len : ℚ)) / f64 (p.sr : ℚ)) -
        (timeSecond : ℚ) * (st.len : ℚ) / (p.sr : ℚ))
    rw [sub_add_sub_cancel] at h3
    have e : (1 : ℚ) / 2 ^ 50 * ((timeSecond : ℚ) * (st.len : ℚ) / (p.sr : ℚ)) =
        (timeSecond : ℚ) * (st.len : ℚ) / (p.sr : ℚ) / 2 ^ 50 := by ring
    linarith

/-- C23 (witness): 441000 frames at 44100 Hz give exactly 10 s; the same frames at
22050 Hz give 20 s. -/
theorem duration_from_native_rate_witness :
    demoLoaded.p.stream = some ⟨0, 441000, 0⟩ ∧ demoLoaded.p.sr = 44100 ∧
    Duration demoLoaded.p = .ok 10000000000 ∧
    Duration { demoLoaded.p with sr := 22050 } = .ok 20000000000 := by
  obtain ⟨hp, -, -⟩ := demoLoaded_p
  have hst : demoLoaded.p.stream = some ⟨0, 441000, 0⟩ := by rw [hp]
  have hsr : demoLoaded.p.sr = 44100 := by rw [hp]
  have h1 := (duration_from_native_rate demoLoaded.p _ hst).2.1
    (by rw [hsr]; decide)
  have h2 := (duration_from_native_rate { demoLoaded.p with sr := 22050 } _ hst).2.1
    (by decide)
  refine ⟨hst, hsr, ?_, ?_⟩
  · rw [h1, hsr]
    rw [nanos_exact 441000 44100 10000000000 (by decide) (by decide) (by norm_num)
      (by norm_num [timeSecond]) (by norm_num) (by norm_num)]
  · rw [h2]
    rw [nanos_exact 441000 22050 20000000000 (by decide) (by decide) (by norm_num)
      (by norm_num [timeSecond]) (by norm_num) (by norm_num)]

/-- C24 (counterexample): with a stream of 0 frames loaded at 44100 Hz `Position()`
succeeds while `Duration()` returns "uzunluk bilinmiyor"; with a stream loaded at
native rate 0 `Position()` returns "akış yok", not the length-unknown error that
`Duration()` returns. -/
theorem position_and_duration_errors_differ :
    emptyLoaded.p.stream = some ⟨0, 0, 0⟩ ∧
    Position emptyLoaded.p = .ok 0 ∧
    Duration emptyLoaded.p = .error "uzunluk bilinmiyor" ∧
    zeroLoaded.p.stream = some ⟨0, 1000, 0⟩ ∧
    Position zeroLoaded.p = .error "akış yok" ∧
    Position zeroLoaded.p ≠ .error "uzunluk bilinmiyor" ∧
    Duration zeroLoaded.p = .error "uzunluk bilinmiyor" := by
  have h1 : emptyLoaded.p.stream = some ⟨0, 0, 0⟩ := by decide
  have h2 : zeroLoaded.p.stream = some ⟨0, 1000, 0⟩ := by decide
  have h3 : emptyLoaded.p.sr ≠ 0 := by decide
  have h4 : zeroLoaded.p.sr = 0 := by decide
  have hP : Position zeroLoaded.p = .error "akış yok" := by
    simp [Position, h2, h4, errorsNew]
  refine ⟨h1, Position_at_zero h1 h3 rfl, ?_, h2, hP, ?_, ?_⟩
  · simp [Duration, h1, errorsNew]
  · rw [hP]; intro h; injection h with h; exact absurd h (by decide)
  · simp [Duration, h2, h4, errorsNew]

/-- C24 (amended): `Position()` returns the error "akış yok" when no stream is loaded
or the native rate is 0, and otherwise 10^9 * currentFrame / nativeRate truncated
toward zero, whatever the stream's length; so `Position()` succeeds whenever
`Duration()` succeeds, and it also succeeds, where `Duration()` returns "uzunluk
bilinmiyor", on a stream of length <= 0 with a native rate other than 0. -/
theorem position_error_conditions (p : Player) :
    (p.stream = none →
      Position p = .error "akış yok" ∧ Duration p = .error "akış yok") ∧
    (∀ st, p.stream = some st →
      (p.sr = 0 → Position p = .error "akış yok" ∧ Duration p = .error "uzunluk bilinmiyor") ∧
      (p.sr ≠ 0 →
        Position p = .ok (goInt
          (f64 (f64 (f64 (timeSecond : ℚ) * f64 (st.pos : ℚ)) / f64 (p.sr : ℚ))))) ∧
      (p.sr ≠ 0 → st.len ≤ 0 → Duration p = .error "uzunluk bilinmiyor")) ∧
    (∀ D, Duration p = .ok D → ∃ P, Position p = .ok P) := by
  refine ⟨fun h => ⟨Position_noStream h, Duration_noStream h⟩, ?_, ?_⟩
  · intro st hst
    refine ⟨fun h => ?_, fun h => ?_, fun h hl => ?_⟩
    · simp [Position, Duration, hst, h, errorsNew]
    · simp [Position, hst, h]
    · simp [Duration, hst, hl, errorsNew]
  · intro D hD
    cases hst : p.stream with
    | none => rw [Duration_noStream hst] at hD; cases hD
    | some st =>
      by_cases hsr : p.sr = 0
      · simp [Duration, hst, hsr] at hD
      · exact ⟨goInt
          (f64 (f64 (f64 (timeSecond : ℚ) * f64 (st.pos : ℚ)) / f64 (p.sr : ℚ))),
          by simp [Position, hst, hsr]⟩

/-- C27: if the decoder stream's `Seek` returns an error e during `SeekRatio`, `SeekBy`
or `SeekTo`, the call returns exactly e and the world is the one before the call
with five events appended (mutex lock, sink lock, the `Seek`, sink unlock, mutex
unlock): the player, with its resampler, gain stage, control, flags, current file
and volume, the mixer and the allocation counter are unchanged; no rebuild takes
place. -/
theorem failed_seek_changes_nothing (env : Env) (w : World) (st : Stream) (r : ℚ)
    (d : Int) (e : GoError) (hst : w.p.stream = some st) :
    (0 < st.len → env.seek st (ratioTarget st.len r) = some e →
      SeekRatio env w r =
        (some e, w.logs [.muLock, .speakerLock, .streamSeek st.id (ratioTarget st.len r),
          .speakerUnlock, .muUnlock])) ∧
    (w.p.sr ≠ 0 →
      env.seek st (clampTarget st.len (st.pos + goInt (f64 (f64 (w.p.sr : ℚ) * seconds d)))) = some e →
      SeekBy env w d =
        (some e, w.logs [.muLock, .speakerLock,
          .streamSeek st.id (clampTarget st.len (st.pos + goInt (f64 (f64 (w.p.sr : ℚ) * seconds d)))),
          .speakerUnlock, .muUnlock])) ∧
    (w.p.sr ≠ 0 →
      env.seek st (clampTarget st.len (goInt (f64 (f64 (w.p.sr : ℚ) * seconds d)))) = some e →
      SeekTo env w d =
        (some e, w.logs [.muLock, .speakerLock,
          .streamSeek st.id (clampTarget st.len (goInt (f64 (f64 (w.p.sr : ℚ) * seconds d)))),
          .speakerUnlock, .muUnlock])) := by
  refine ⟨fun hl he => ?_, fun hsr he => ?_, fun hsr he => ?_⟩
  · rw [SeekRatio_loaded env r hst hl, seekChain_reject _ he]
    simp [World.log, World.logs]
  · rw [SeekBy_loaded env d hst hsr, seekChain_reject _ he]
    simp [World.log, World.logs]
  · rw [SeekTo_loaded env d hst hsr, seekChain_reject _ he]
    simp [World.log, World.logs]

/-- C27 (witness): `SeekRatio(0.5)` on `a.mp3` while playing, the decoder rejecting
the seek. -/
theorem failed_seek_changes_nothing_witness :
    demoPlaying.p.stream = some ⟨0, 441000, 0⟩ ∧
    ( SeekRatio failSeekEnv demoPlaying (1 / 2)).1 = some "seek: input/output error" ∧
    ( SeekRatio failSeekEnv demoPlaying (1 / 2)).2.p = demoPlaying.p ∧
    ( SeekRatio failSeekEnv demoPlaying (1 / 2)).2.nextId = demoPlaying.nextId := by
  have hst : demoPlaying.p.stream = some ⟨0, 441000, 0⟩ := by decide
  have h := (failed_seek_changes_nothing failSeekEnv demoPlaying _ (1 / 2) 0
    "seek: input/output error" hst).1 (by decide) rfl
  rw [h]
  exact ⟨hst, rfl, rfl, rfl⟩

/-! ## Stamps are fresh -/

theorem fresh_init : Fresh World.init := by
  constructor <;> simp [World.init, New]

theorem fresh_SetVolume (w : World) (norm : ℚ) (h : Fresh w) : Fresh (SetVolume w norm) := by
  obtain ⟨⟨stream, play, vol, volNorm, ctrl, sr, started, current⟩, mixer, once, nextId, trace⟩ := w
  obtain ⟨h1, h2, h3, h4⟩ := h
  dsimp only at h1 h2 h3 h4
  rcases vol with _ | v <;> constructor <;>
    simp_all [SetVolume, World.log, volDB]

theorem fresh_Play (w : World) (h : Fresh w) : Fresh (Play w) := by
  obtain ⟨⟨stream, play, vol, volNorm, ctrl, sr, started, current⟩, mixer, once, nextId, trace⟩ := w
  obtain ⟨h1, h2, h3, h4⟩ := h
  dsimp only at h1 h2 h3 h4
  rcases stream with _ | st <;> rcases ctrl with _ | c <;> rcases started <;>
    constructor <;> simp_all [Play, setPaused, World.log, World.logs]

theorem fresh_Pause (w : World) (h : Fresh w) : Fresh (Pause w) := by
  obtain ⟨⟨stream, play, vol, volNorm, ctrl, sr, started, current⟩, mixer, once, nextId, trace⟩ := w
  obtain ⟨h1, h2, h3, h4⟩ := h
  dsimp only at h1 h2 h3 h4
  rcases ctrl with _ | c <;> constructor <;>
    simp_all [Pause, setPaused, World.log, World.logs]

theorem fresh_Stop (env : Env) (w : World) (h : Fresh w) : Fresh (Stop env w) := by
  cases hst : w.p.stream with
  | none => rw [Stop_noStream env hst]; exact ⟨h.stream, h.play, h.vol, h.ctrl⟩
  | some st =>
    cases hc : w.p.ctrl with
    | none => rw [Stop_noCtrl env hc]; exact ⟨h.stream, h.play, h.vol, h.ctrl⟩
    | some c =>
      rw [Stop_loaded env hst hc]
      have hs := h.stream st hst
      have hcc := h.ctrl c hc
      have hid : (st.Seek env 0).1.id = st.id := by
        unfold Stream.Seek; cases env.seek st 0 <;> rfl
      constructor
      · intro s hs'
        simp only [Option.some.injEq] at hs'
        subst hs'
        show (st.Seek env 0).1.id < w.nextId + 2
        omega
      · intro r hr
        simp only [Option.some.injEq] at hr
        subst hr
        show w.nextId < w.nextId + 2
        omega
      · intro v hv
        simp only [Option.some.injEq] at hv
        subst hv
        show w.nextId + 1 < w.nextId + 2
        omega
      · intro c' hc'
        simp only [Option.some.injEq] at hc'
        subst hc'
        show c.id < w.nextId + 2
        omega

theorem fresh_seekChain (env : Env) (w : World) (st : Stream) (target : Int)
    (hst : w.p.stream = some st) (h : Fresh w) : Fresh (seekChain env w st target).2 := by
  cases hs : env.seek st target with
  | some e => rw [seekChain_reject w hs]; exact ⟨h.stream, h.play, h.vol, h.ctrl⟩
  | none =>
    obtain ⟨-, h2, -, h4⟩ := seekChain_accept w hs
    have hsid := h.stream st hst
    constructor
    · intro s hs'
      rw [h2] at hs'
      simp only [Option.some.injEq] at hs'
      subst hs'
      rw [h4]
      show st.id < w.nextId + 2
      omega
    · intro r hr
      rw [h2] at hr
      simp only [Option.some.injEq] at hr
      subst hr
      rw [h4]
      show w.nextId < w.nextId + 2
      omega
    · intro v hv
      rw [h2] at hv
      simp only [Option.some.injEq] at hv
      subst hv
      rw [h4]
      show w.nextId + 1 < w.nextId + 2
      omega
    · intro c' hc'
      rw [h2] at hc'
      rw [h4]
      cases hc : w.p.ctrl with
      | none => simp [hc] at hc'
      | some c =>
        simp only [hc, Option.map_some', Option.some.injEq] at hc'
        subst hc'
        have := h.ctrl c hc
        show c.id < w.nextId + 2
        omega

theorem fresh_log {w : World} (h : Fresh w) (e : Event) : Fresh (w.log e) :=
  ⟨h.stream, h.play, h.vol, h.ctrl⟩

theorem fresh_logs {w : World} (h : Fresh w) (es : List Event) : Fresh (w.logs es) :=
  ⟨h.stream, h.play, h.vol, h.ctrl⟩

theorem fresh_SeekRatio (env : Env) (w : World) (r : ℚ) (h : Fresh w) :
    Fresh ( SeekRatio env w r).2 := by
  cases hst : w.p.stream with
  | none => rw [SeekRatio_noStream env r hst]; exact fresh_logs h _
  | some st =>
    by_cases hl : st.len ≤ 0
    · rw [SeekRatio_noLength env r hst hl]; exact fresh_logs h _
    · rw [SeekRatio_loaded env r hst (by omega)]
      exact fresh_seekChain env _ st _ hst (fresh_log h _)

theorem fresh_SeekBy (env : Env) (w : World) (d : Int) (h : Fresh w) :
    Fresh (SeekBy env w d).2 := by
  cases hst : w.p.stream with
  | none => rw [SeekBy_noStream env d hst]; exact fresh_logs h _
  | some st =>
    by_cases hsr : w.p.sr = 0
    · rw [SeekBy_noRate env d hst hsr]; exact fresh_logs h _
    · rw [SeekBy_loaded env d hst hsr]
      exact fresh_seekChain env _ st _ hst (fresh_log h _)

theorem fresh_SeekTo (env : Env) (w : World) (d : Int) (h : Fresh w) :
    Fresh (SeekTo env w d).2 := by
  cases hst : w.p.stream with
  | none => rw [SeekTo_noStream env d hst]; exact fresh_logs h _
  | some st =>
    by_cases hsr : w.p.sr = 0
    · rw [SeekTo_noRate env d hst hsr]; exact fresh_logs h _
    · rw [SeekTo_loaded env d hst hsr]
      exact fresh_seekChain env _ st _ hst (fresh_log h _)

theorem fresh_sinkPull (w : World) (n : Nat) (h : Fresh w) : Fresh (sinkPull w n) := by
  obtain ⟨⟨stream, play, vol, volNorm, ctrl, sr, started, current⟩, mixer, once, nextId, trace⟩ := w
  obtain ⟨h1, h2, h3, h4⟩ := h
  dsimp only at h1 h2 h3 h4
  rcases stream with _ | st <;> rcases ctrl with _ | c <;>
    unfold sinkPull <;> dsimp only <;> (try split_ifs) <;> constructor <;> simp_all

theorem releasePrevious_p_cases (w : World) :
    (releasePrevious w).p = w.p ∨
    (releasePrevious w).p = { w.p with stream := none, play := none, ctrl := none } := by
  unfold releasePrevious
  cases hs : w.p.stream with
  | none => exact Or.inl rfl
  | some st =>
    cases hc : w.p.ctrl <;> simp [setPaused, World.log, World.logs, hc]

theorem fresh_Load (env : Env) (w : World) (path : String) (h : Fresh w) :
    Fresh (Load env w path).2 := by
  cases hd : (decodeFile env w path).1 with
  | error e =>
    obtain ⟨-, h2, -, h4, -⟩ := Load_error hd
    constructor
    all_goals
      intro x hx
      rw [h2] at hx
      rw [h4]
      rcases releasePrevious_p_cases w with hr | hr <;> rw [hr] at hx
    · exact h.stream x hx
    · cases hx
    · exact h.play x hx
    · cases hx
    · exact h.vol x hx
    · exact h.vol x hx
    · exact h.ctrl x hx
    · cases hx
  | ok r =>
    obtain ⟨st, fmt⟩ := r
    obtain ⟨-, h2, -, h4, -⟩ := Load_ok hd
    constructor
    all_goals
      intro x hx
      rw [h2] at hx
      rw [h4]
      simp only [Option.some.injEq] at hx
      subst hx
    · show w.nextId < w.nextId + 4; omega
    · show w.nextId + 1 < w.nextId + 4; omega
    · show w.nextId + 2 < w.nextId + 4; omega
    · show w.nextId + 3 < w.nextId + 4; omega

theorem fresh_step (w : World) (op : Op) (h : Fresh w) : Fresh (step w op) := by
  cases op with
  | setVolume norm => exact fresh_SetVolume w norm h
  | load env path => exact fresh_Load env w path h
  | play => exact fresh_Play w h
  | pause => exact fresh_Pause w h
  | stop env => exact fresh_Stop env w h
  | seekRatio env r => exact fresh_SeekRatio env w r h
  | seekBy env d => exact fresh_SeekBy env w d h
  | seekTo env d => exact fresh_SeekTo env w d h
  | pull n => exact fresh_sinkPull w n h

theorem fresh_of_reachable {w : World} (h : Reachable w) : Fresh w := by
  induction h with
  | init => exact fresh_init
  | step op _ ih => exact fresh_step _ op ih

/-! ## Rebuilding the chain -/

theorem seekChain_accept_trace {env : Env} (w : World) {st : Stream} {target : Int}
    {c : Ctrl} (h : env.seek st target = none) (hc : w.p.ctrl = some c) :
    (seekChain env w st target).2.trace = w.trace ++
      [.speakerLock, .streamSeek st.id target, .resample w.nextId st.id,
        .newVolume (w.nextId + 1) w.nextId, .ctrlStreamer c.id (w.nextId + 1),
        .speakerUnlock, .muUnlock] := by
  obtain ⟨⟨stream, play, vol, volNorm, ctrl, sr, started, current⟩, mixer, once, nextId, trace⟩ := w
  dsimp only at hc
  subst hc
  simp [seekChain, Stream.Seek, h, rebuild, retarget, mkResampler, mkVolume, World.log,
    World.logs]

theorem rebuilt_seekChain {env : Env} {w : World} {st : Stream} {target : Int}
    (hw : Reachable w) (hst : w.p.stream = some st) (h : env.seek st target = none) :
    Rebuilt w (seekChain env (w.log .muLock) st target).2 st.id target := by
  obtain ⟨r0, v0, c, hr0, hv0, hc, -⟩ := (inv_of_reachable hw).chain st hst
  have hF := fresh_of_reachable hw
  have hr0id := hF.play r0 hr0
  have hv0id := hF.vol v0 hv0
  obtain ⟨-, h2, -, -⟩ := seekChain_accept (w.log .muLock) h
  have hc1 : (w.log .muLock).p.ctrl = some c := hc
  have htr := seekChain_accept_trace (w.log .muLock) h hc1
  have hp : (seekChain env (w.log .muLock) st target).2.p =
      { w.p with
        stream := some { st with pos := target }
        play := some (mkResampler w.nextId w.p.sr { st with pos := target })
        vol := some
          { id := w.nextId + 1, Streamer := w.nextId, Base := 10, Volume := volDB w.p }
        ctrl := some { c with Streamer := w.nextId + 1 } } := by
    rw [h2]
    simp [World.log, hc]
  constructor
  · rw [hp]
    exact ⟨_, _, _, rfl, rfl, rfl, rfl, rfl, rfl, rfl, rfl, rfl, rfl, rfl⟩
  · intro a b ha hb
    rw [hp] at hb
    rw [hr0] at ha
    simp only [Option.some.injEq] at ha hb
    subst ha hb
    show w.nextId ≠ r0.id
    omega
  · intro a b ha hb
    rw [hp] at hb
    rw [hv0] at ha
    simp only [Option.some.injEq] at ha hb
    subst ha hb
    show w.nextId + 1 ≠ v0.id
    omega
  · intro a c' v ha hc' hv
    rw [hp] at hc' hv
    rw [hr0] at ha
    simp only [Option.some.injEq] at ha hc' hv
    subst ha hc' hv
    refine ⟨rfl, ?_⟩
    show w.nextId ≠ r0.id
    omega
  · refine ⟨[.muLock], [.muUnlock], c.id, ?_⟩
    rw [htr]
    simp [World.log]

theorem rebuilt_Stop {env : Env} {w : World} {st : Stream}
    (hw : Reachable w) (hst : w.p.stream = some st) :
    Rebuilt w (Stop env w) st.id 0 := by
  obtain ⟨r0, v0, c, hr0, hv0, hc, -⟩ := (inv_of_reachable hw).chain st hst
  have hF := fresh_of_reachable hw
  have hr0id := hF.play r0 hr0
  have hv0id := hF.vol v0 hv0
  have hid : (st.Seek env 0).1.id = st.id := by
    unfold Stream.Seek; cases env.seek st 0 <;> rfl
  rw [Stop_loaded env hst hc]
  constructor
  · exact ⟨_, _, _, rfl, rfl, rfl, rfl, rfl, hid, rfl, rfl, rfl, rfl, rfl⟩
  · intro a b ha hb
    rw [hr0] at ha
    simp only [Option.some.injEq] at ha hb
    subst ha hb
    show w.nextId ≠ r0.id
    omega
  · intro a b ha hb
    rw [hv0] at ha
    simp only [Option.some.injEq] at ha hb
    subst ha hb
    show w.nextId + 1 ≠ v0.id
    omega
  · intro a c' v ha hc' hv
    rw [hr0] at ha
    simp only [Option.some.injEq] at ha hc' hv
    subst ha hc' hv
    refine ⟨rfl, ?_⟩
    show w.nextId ≠ r0.id
    omega
  · refine ⟨[.muLock, .speakerLock, .ctrlPaused c.id true, .speakerUnlock], [.muUnlock],
      c.id, ?_⟩
    simp

theorem SeekRatio_success {env : Env} {w : World} {st : Stream} {r : ℚ}
    (hst : w.p.stream = some st) (h : ( SeekRatio env w r).1 = none) :
    0 < st.len ∧ env.seek st (ratioTarget st.len r) = none := by
  by_cases hl : st.len ≤ 0
  · rw [SeekRatio_noLength env r hst hl] at h; cases h
  · refine ⟨by omega, ?_⟩
    cases hs : env.seek st (ratioTarget st.len r) with
    | none => rfl
    | some e =>
      rw [SeekRatio_loaded env r hst (by omega), seekChain_reject _ hs] at h
      cases h

theorem SeekBy_success {env : Env} {w : World} {st : Stream} {d : Int}
    (hst : w.p.stream = some st) (h : (SeekBy env w d).1 = none) :
    w.p.sr ≠ 0 ∧
    env.seek st (clampTarget st.len (st.pos + goInt (f64 (f64 (w.p.sr : ℚ) * seconds d)))) = none := by
  by_cases hsr : w.p.sr = 0
  · rw [SeekBy_noRate env d hst hsr] at h; cases h
  · refine ⟨hsr, ?_⟩
    cases hs : env.seek st
        (clampTarget st.len (st.pos + goInt (f64 (f64 (w.p.sr : ℚ) * seconds d)))) with
    | none => rfl
    | some e =>
      rw [SeekBy_loaded env d hst hsr, seekChain_reject _ hs] at h
      cases h

theorem SeekTo_success {env : Env} {w : World} {st : Stream} {d : Int}
    (hst : w.p.stream = some st) (h : (SeekTo env w d).1 = none) :
    w.p.sr ≠ 0 ∧
    env.seek st (clampTarget st.len (goInt (f64 (f64 (w.p.sr : ℚ) * seconds d)))) = none := by
  by_cases hsr : w.p.sr = 0
  · rw [SeekTo_noRate env d hst hsr] at h; cases h
  · refine ⟨hsr, ?_⟩
    cases hs : env.seek st (clampTarget st.len (goInt (f64 (f64 (w.p.sr : ℚ) * seconds d)))) with
    | none => rfl
    | some e =>
      rw [SeekTo_loaded env d hst hsr, seekChain_reject _ hs] at h
      cases h

/-- C22: in every reachable world with a stream loaded, Stop, and every `SeekRatio`,
`SeekBy` and `SeekTo` that returns no error, leaves a resampler and a gain stage that
are new records, built after the call of `Seek` and inside the same section of the
sink lock, the resampler converting from the native rate to the device rate 44100;
the control streams from the new gain stage, which wraps the new resampler, so the
resampler held before the call is no longer in the chain the control plays.  After
a successful seek the stream is at the target. -/
theorem jump_rebuilds_chain (env : Env) (w : World) (st : Stream) (r : ℚ) (d : Int)
    (hw : Reachable w) (hst : w.p.stream = some st) :
    speakerSR = 44100 ∧
    Rebuilt w (Stop env w) st.id 0 ∧
    (( SeekRatio env w r).1 = none →
      Rebuilt w ( SeekRatio env w r).2 st.id (ratioTarget st.len r) ∧
      ( SeekRatio env w r).2.p.stream = some { st with pos := ratioTarget st.len r }) ∧
    ((SeekBy env w d).1 = none →
      Rebuilt w (SeekBy env w d).2 st.id
        (clampTarget st.len (st.pos + goInt (f64 (f64 (w.p.sr : ℚ) * seconds d)))) ∧
      (SeekBy env w d).2.p.stream = some
        { st with pos := clampTarget st.len (st.pos + goInt (f64 (f64 (w.p.sr : ℚ) * seconds d))) }) ∧
    ((SeekTo env w d).1 = none →
      Rebuilt w (SeekTo env w d).2 st.id
        (clampTarget st.len (goInt (f64 (f64 (w.p.sr : ℚ) * seconds d)))) ∧
      (SeekTo env w d).2.p.stream = some
        { st with pos := clampTarget st.len (goInt (f64 (f64 (w.p.sr : ℚ) * seconds d))) }) := by
  refine ⟨rfl, rebuilt_Stop hw hst, fun h => ?_, fun h => ?_, fun h => ?_⟩
  · obtain ⟨hl, ha⟩ := SeekRatio_success hst h
    rw [SeekRatio_loaded env r hst hl]
    exact ⟨rebuilt_seekChain hw hst ha, (seekChain_accept_stream _ ha).2.1⟩
  · obtain ⟨hsr, ha⟩ := SeekBy_success hst h
    rw [SeekBy_loaded env d hst hsr]
    exact ⟨rebuilt_seekChain hw hst ha, (seekChain_accept_stream _ ha).2.1⟩
  · obtain ⟨hsr, ha⟩ := SeekTo_success hst h
    rw [SeekTo_loaded env d hst hsr]
    exact ⟨rebuilt_seekChain hw hst ha, (seekChain_accept_stream _ ha).2.1⟩

/-- C22 (witness): `SeekRatio(1.0)` on `a.mp3` while playing: the resampler stamped 1
is replaced by the one stamped 4, and the control streams from the gain stage
stamped 5. -/
theorem jump_rebuilds_chain_witness :
    Reachable demoPlaying ∧ demoPlaying.p.stream = some ⟨0, 441000, 0⟩ ∧
    demoPlaying.p.play = some ⟨1, 4, 44100, 44100, 0⟩ ∧ demoPlaying.nextId = 4 ∧
    ( SeekRatio demoEnv demoPlaying 1).1 = none ∧
    Rebuilt demoPlaying ( SeekRatio demoEnv demoPlaying 1).2 0 (ratioTarget 441000 1) := by
  have hR : Reachable demoPlaying := reachable_run Reachable.init _
  have hst : demoPlaying.p.stream = some ⟨0, 441000, 0⟩ := by decide
  have hS : ( SeekRatio demoEnv demoPlaying 1).1 = none := by
    rw [SeekRatio_loaded demoEnv 1 hst (by decide)]
    have hk : demoEnv.seek ⟨0, 441000, 0⟩ (ratioTarget 441000 1) = none := rfl
    exact (seekChain_accept_stream _ hk).1
  have h := ((jump_rebuilds_chain demoEnv demoPlaying _ 1 0 hR hst).2.2.1 hS).1
  exact ⟨hR, hst, by decide, by decide, hS, h⟩

/-! ## The order of events in Load -/

theorem closeCalls_append (a b : List Event) :
    closeCalls (a ++ b) = closeCalls a ++ closeCalls b := by
  simp [closeCalls, List.filterMap_append]

theorem releasePrevious_loaded {w : World} {st : Stream} {c : Ctrl}
    (hst : w.p.stream = some st) (hc : w.p.ctrl = some c) :
    releasePrevious w =
      { w with
        p := { w.p with stream := none, play := none, ctrl := none }
        trace := w.trace ++
          [.speakerLock, .ctrlPaused c.id true, .speakerUnlock, .streamClose st.id] } := by
  obtain ⟨⟨stream, play, vol, volNorm, ctrl, sr, started, current⟩, mixer, once, nextId, trace⟩ := w
  dsimp only at hst hc
  subst hst hc
  simp [releasePrevious, setPaused, World.log, World.logs]

theorem releasePrevious_noStream {w : World} (hst : w.p.stream = none) :
    releasePrevious w = w := by
  unfold releasePrevious
  rw [hst]

/-- The events `decodeFile` appends: the `os.Open`, then at most a codec run and a
file close. -/
theorem decodeFile_shape (env : Env) (w : World) (path : String) :
    ∃ evs, (∀ e ∈ evs, e = Event.fileClose path ∨ ∃ c, e = Event.decode c path) ∧
      ((∃ err, decodeFile env w path =
          (.error err, { w with trace := w.trace ++ Event.osOpen path :: evs })) ∨
        (∃ (si : StreamInit) (fmt : Format), decodeFile env w path =
          (.ok ({ id := w.nextId, len := si.len, pos := si.pos }, fmt),
            { w with nextId := w.nextId + 1,
                     trace := w.trace ++ Event.osOpen path :: evs }))) := by
  unfold decodeFile decodeWith
  simp only [World.log]
  cases env.osOpen path with
  | error e => exact ⟨[], by simp, Or.inl ⟨e, by simp⟩⟩
  | ok f =>
    dsimp only
    split_ifs
    · cases env.mp3Decode f with
      | error e => exact ⟨[.decode .mp3 path, .fileClose path], by simp, Or.inl ⟨e, by simp⟩⟩
      | ok r => exact ⟨[.decode .mp3 path], by simp, Or.inr ⟨r.1, r.2, by simp⟩⟩
    · cases env.wavDecode f with
      | error e => exact ⟨[.decode .wav path, .fileClose path], by simp, Or.inl ⟨e, by simp⟩⟩
      | ok r => exact ⟨[.decode .wav path], by simp, Or.inr ⟨r.1, r.2, by simp⟩⟩
    · cases env.flacDecode f with
      | error e => exact ⟨[.decode .flac path, .fileClose path], by simp, Or.inl ⟨e, by simp⟩⟩
      | ok r => exact ⟨[.decode .flac path], by simp, Or.inr ⟨r.1, r.2, by simp⟩⟩
    · cases env.vorbisDecode f with
      | error e =>
        exact ⟨[.decode .vorbis path, .fileClose path], by simp, Or.inl ⟨e, by simp⟩⟩
      | ok r => exact ⟨[.decode .vorbis path], by simp, Or.inr ⟨r.1, r.2, by simp⟩⟩
    · exact ⟨[.fileClose path], by simp,
        Or.inl ⟨"desteklenmeyen format: " ++ stringsToLower (filepathExt path), by simp⟩⟩

theorem Load_of_decode_ok {env : Env} {w w2 : World} {path : String} {st : Stream}
    {fmt : Format}
    (h : decodeFile env (releasePrevious (w.log .muLock)) path = (.ok (st, fmt), w2)) :
    (Load env w path).1 = none ∧
    (Load env w path).2.mixer = [] ∧
    (Load env w path).2.nextId = w2.nextId + 3 ∧
    (Load env w path).2.p.stream = some st ∧
    (Load env w path).2.trace = w2.trace ++
      ((if w2.speakerOnce then [] else [Event.speakerInit]) ++
        [.resample w2.nextId st.id, .newVolume (w2.nextId + 1) w2.nextId,
          .newCtrl (w2.nextId + 2) (w2.nextId + 1), .speakerClear, .muUnlock]) := by
  unfold Load
  simp only [h]
  unfold ensureSpeaker
  split_ifs with hsp <;>
    simp_all [World.log, rebuild, mkResampler, mkVolume]

theorem closeCalls_of_decode {path : String} {evs : List Event}
    (h : ∀ e ∈ evs, e = Event.fileClose path ∨ ∃ c, e = Event.decode c path) :
    closeCalls evs = [] ∧ Event.speakerClear ∉ evs := by
  induction evs with
  | nil => exact ⟨rfl, by simp⟩
  | cons e es ih =>
    obtain ⟨ih1, ih2⟩ := ih (fun x hx => h x (List.mem_cons_of_mem _ hx))
    rcases h e (List.mem_cons_self _ _) with he | ⟨c, he⟩ <;> subst he
    · refine ⟨?_, ?_⟩
      · show closeCalls ([Event.fileClose path] ++ es) = []
        rw [closeCalls_append, ih1]; rfl
      · simp [ih2]
    · refine ⟨?_, ?_⟩
      · show closeCalls ([Event.decode c path] ++ es) = []
        rw [closeCalls_append, ih1]; rfl
      · simp [ih2]

theorem closeCalls_releasePrevious (w : World) :
    closeCalls (releasePrevious w).trace =
      closeCalls w.trace ++
        (match w.p.stream with
        | some st => [st.id]
        | none => []) := by
  obtain ⟨⟨stream, play, vol, volNorm, ctrl, sr, started, current⟩, mixer, once, nextId, trace⟩ := w
  rcases stream with _ | st <;> rcases ctrl with _ | c <;>
    simp [releasePrevious, setPaused, World.log, World.logs, closeCalls,
      List.filterMap_append]

theorem Load_tail (once : Bool) (a b c d e f : Nat) :
    closeCalls ((if once then [] else [Event.speakerInit]) ++
      [Event.resample a b, Event.newVolume c d, Event.newCtrl e f, Event.speakerClear,
        Event.muUnlock]) = [] ∧
    List.count Event.speakerClear ((if once then [] else [Event.speakerInit]) ++
      [Event.resample a b, Event.newVolume c d, Event.newCtrl e f, Event.speakerClear,
        Event.muUnlock]) = 1 := by
  cases once <;> exact ⟨rfl, by simp [List.count_cons]⟩

/-- The events `Load` appends after it has released the previous session: the
`os.Open` and then events among which no stream is closed; the sink is cleared
among them exactly once if `Load` succeeds and not at all if it fails. -/
theorem Load_trace (env : Env) (w : World) (path : String) :
    ∃ evs, (Load env w path).2.trace =
        (releasePrevious (w.log .muLock)).trace ++ Event.osOpen path :: evs ∧
      closeCalls evs = [] ∧
      ((Load env w path).1 = none → evs.count Event.speakerClear = 1) ∧
      (∀ e, (Load env w path).1 = some e → Event.speakerClear ∉ evs) := by
  obtain ⟨evs0, h0, hsh⟩ := decodeFile_shape env (releasePrevious (w.log .muLock)) path
  obtain ⟨hc0, hs0⟩ := closeCalls_of_decode h0
  rcases hsh with ⟨err, hd⟩ | ⟨si, fmt, hd⟩
  · rw [Load_of_decode_error hd]
    refine ⟨evs0 ++ [.muUnlock], by simp [World.log], ?_, ?_, ?_⟩
    · rw [closeCalls_append, hc0]; rfl
    · intro h; cases h
    · intro e _
      simp [hs0]
  · generalize hw2 : ({ releasePrevious (w.log .muLock) with
        nextId := (releasePrevious (w.log .muLock)).nextId + 1,
        trace := (releasePrevious (w.log .muLock)).trace ++ Event.osOpen path :: evs0 } :
          World) = w2 at hd
    have htr : w2.trace = (releasePrevious (w.log .muLock)).trace ++
        Event.osOpen path :: evs0 := by subst hw2; rfl
    obtain ⟨h1, -, -, -, h5⟩ := Load_of_decode_ok hd
    obtain ⟨t1, t2⟩ := Load_tail w2.speakerOnce w2.nextId
      (releasePrevious (w.log .muLock)).nextId (w2.nextId + 1) w2.nextId (w2.nextId + 2)
      (w2.nextId + 1)
    rw [h1, h5, htr]
    refine ⟨evs0 ++ _, by rw [List.append_assoc, List.cons_append], ?_, ?_, ?_⟩
    · rw [closeCalls_append, hc0, List.nil_append]
      exact t1
    · intro _
      rw [List.count_append, List.count_eq_zero_of_not_mem hs0, Nat.zero_add]
      exact t2
    · intro e h; cases h

/-- What an operation other than `Load` does to the record of closed streams, the
allocation counter and the identity of the stream held. -/
theorem quiet_logs (w : World) (es : List Event) (h : closeCalls es = []) :
    closeCalls (w.logs es).trace = closeCalls w.trace ∧ w.nextId ≤ (w.logs es).nextId ∧
    (w.logs es).p.stream.map (fun s => s.id) = w.p.stream.map (fun s => s.id) := by
  refine ⟨?_, le_refl _, rfl⟩
  show closeCalls (w.trace ++ es) = _
  rw [closeCalls_append, h, List.append_nil]

theorem quiet_SetVolume (w : World) (norm : ℚ) :
    closeCalls (SetVolume w norm).trace = closeCalls w.trace ∧
    w.nextId ≤ (SetVolume w norm).nextId ∧
    (SetVolume w norm).p.stream.map (fun s => s.id) = w.p.stream.map (fun s => s.id) := by
  obtain ⟨⟨stream, play, vol, volNorm, ctrl, sr, started, current⟩, mixer, once, nextId, trace⟩ := w
  rcases vol with _ | v <;>
    simp [SetVolume, World.log, closeCalls, List.filterMap_append]

theorem quiet_Play (w : World) :
    closeCalls (Play w).trace = closeCalls w.trace ∧ w.nextId ≤ (Play w).nextId ∧
    (Play w).p.stream.map (fun s => s.id) = w.p.stream.map (fun s => s.id) := by
  obtain ⟨⟨stream, play, vol, volNorm, ctrl, sr, started, current⟩, mixer, once, nextId, trace⟩ := w
  rcases stream with _ | st <;> rcases ctrl with _ | c <;> rcases started <;>
    simp [Play, setPaused, World.log, World.logs, closeCalls, List.filterMap_append]

theorem quiet_Pause (w : World) :
    closeCalls (Pause w).trace = closeCalls w.trace ∧ w.nextId ≤ (Pause w).nextId ∧
    (Pause w).p.stream.map (fun s => s.id) = w.p.stream.map (fun s => s.id) := by
  obtain ⟨⟨stream, play, vol, volNorm, ctrl, sr, started, current⟩, mixer, once, nextId, trace⟩ := w
  rcases ctrl with _ | c <;>
    simp [Pause, setPaused, World.log, World.logs, closeCalls, List.filterMap_append]

theorem quiet_Stop (env : Env) (w : World) :
    closeCalls (Stop env w).trace = closeCalls w.trace ∧ w.nextId ≤ (Stop env w).nextId ∧
    (Stop env w).p.stream.map (fun s => s.id) = w.p.stream.map (fun s => s.id) := by
  cases hst : w.p.stream with
  | none => rw [Stop_noStream env hst]; simpa [hst] using quiet_logs w [.muLock, .muUnlock] rfl
  | some st =>
    cases hc : w.p.ctrl with
    | none => rw [Stop_noCtrl env hc]; simpa [hst] using quiet_logs w [.muLock, .muUnlock] rfl
    | some c =>
      have hid : (st.Seek env 0).1.id = st.id := by
        unfold Stream.Seek; cases env.seek st 0 <;> rfl
      rw [Stop_loaded env hst hc]
      refine ⟨?_, by show w.nextId ≤ w.nextId + 2; omega, by simp [hid]⟩
      show closeCalls (w.trace ++ _) = _
      rw [closeCalls_append]
      simp [closeCalls]

theorem quiet_seekChain (env : Env) (w : World) (st : Stream) (target : Int)
    (hst : w.p.stream = some st) :
    closeCalls (seekChain env w st target).2.trace = closeCalls w.trace ∧
    w.nextId ≤ (seekChain env w st target).2.nextId ∧
    (seekChain env w st target).2.p.stream.map (fun s => s.id) =
      w.p.stream.map (fun s => s.id) := by
  obtain ⟨⟨stream, play, vol, volNorm, ctrl, sr, started, current⟩, mixer, once, nextId, trace⟩ := w
  dsimp only at hst
  subst hst
  cases h : env.seek st target <;> rcases ctrl with _ | c <;>
    simp [seekChain, Stream.Seek, h, rebuild, retarget, mkResampler, mkVolume, World.log,
      World.logs, closeCalls, List.filterMap_append] <;> omega

theorem quiet_seekChain_muLock (env : Env) (w : World) (st : Stream) (target : Int)
    (hst : w.p.stream = some st) :
    closeCalls (seekChain env (w.log .muLock) st target).2.trace = closeCalls w.trace ∧
    w.nextId ≤ (seekChain env (w.log .muLock) st target).2.nextId ∧
    (seekChain env (w.log .muLock) st target).2.p.stream.map (fun s => s.id) =
      w.p.stream.map (fun s => s.id) := by
  obtain ⟨h1, h2, h3⟩ := quiet_seekChain env (w.log .muLock) st target hst
  refine ⟨?_, h2, h3⟩
  rw [h1]
  show closeCalls (w.trace ++ [Event.muLock]) = _
  rw [closeCalls_append]
  simp [closeCalls]

theorem quiet_SeekRatio (env : Env) (w : World) (r : ℚ) :
    closeCalls ( SeekRatio env w r).2.trace = closeCalls w.trace ∧
    w.nextId ≤ ( SeekRatio env w r).2.nextId ∧
    ( SeekRatio env w r).2.p.stream.map (fun s => s.id) =
      w.p.stream.map (fun s => s.id) := by
  cases hst : w.p.stream with
  | none => rw [SeekRatio_noStream env r hst]; simpa [hst] using quiet_logs w [.muLock, .muUnlock] rfl
  | some st =>
    by_cases hl : st.len ≤ 0
    · rw [SeekRatio_noLength env r hst hl]; simpa [hst] using quiet_logs w [.muLock, .muUnlock] rfl
    · rw [SeekRatio_loaded env r hst (by omega)]
      simpa [hst] using quiet_seekChain_muLock env w st _ hst

theorem quiet_SeekBy (env : Env) (w : World) (d : Int) :
    closeCalls (SeekBy env w d).2.trace = closeCalls w.trace ∧
    w.nextId ≤ (SeekBy env w d).2.nextId ∧
    (SeekBy env w d).2.p.stream.map (fun s => s.id) = w.p.stream.map (fun s => s.id) := by
  cases hst : w.p.stream with
  | none => rw [SeekBy_noStream env d hst]; simpa [hst] using quiet_logs w [.muLock, .muUnlock] rfl
  | some st =>
    by_cases hsr : w.p.sr = 0
    · rw [SeekBy_noRate env d hst hsr]; simpa [hst] using quiet_logs w [.muLock, .muUnlock] rfl
    · rw [SeekBy_loaded env d hst hsr]
      simpa [hst] using quiet_seekChain_muLock env w st _ hst

theorem quiet_SeekTo (env : Env) (w : World) (d : Int) :
    closeCalls (SeekTo env w d).2.trace = closeCalls w.trace ∧
    w.nextId ≤ (SeekTo env w d).2.nextId ∧
    (SeekTo env w d).2.p.stream.map (fun s => s.id) = w.p.stream.map (fun s => s.id) := by
  cases hst : w.p.stream with
  | none => rw [SeekTo_noStream env d hst]; simpa [hst] using quiet_logs w [.muLock, .muUnlock] rfl
  | some st =>
    by_cases hsr : w.p.sr = 0
    · rw [SeekTo_noRate env d hst hsr]; simpa [hst] using quiet_logs w [.muLock, .muUnlock] rfl
    · rw [SeekTo_loaded env d hst hsr]
      simpa [hst] using quiet_seekChain_muLock env w st _ hst

theorem quiet_sinkPull (w : World) (n : Nat) :
    closeCalls (sinkPull w n).trace = closeCalls w.trace ∧ w.nextId ≤ (sinkPull w n).nextId ∧
    (sinkPull w n).p.stream.map (fun s => s.id) = w.p.stream.map (fun s => s.id) := by
  obtain ⟨⟨stream, play, vol, volNorm, ctrl, sr, started, current⟩, mixer, once, nextId, trace⟩ := w
  rcases stream with _ | st <;> rcases ctrl with _ | c <;>
    unfold sinkPull <;> dsimp only <;> (try split_ifs) <;> simp

/-! ## Every stream is closed once -/

theorem closedOnce_init : ClosedOnce World.init :=
  ⟨List.nodup_nil, fun _ hk => (by cases hk), fun _ h => (by cases h)⟩


theorem closedOnce_of_quiet {w w1 : World} (h : ClosedOnce w)
    (q : closeCalls w1.trace = closeCalls w.trace ∧ w.nextId ≤ w1.nextId ∧
      w1.p.stream.map (fun s => s.id) = w.p.stream.map (fun s => s.id)) :
    ClosedOnce w1 := by
  obtain ⟨q1, q2, q3⟩ := q
  refine ⟨by rw [q1]; exact h.nodup, ?_, ?_⟩
  · intro k hk
    rw [q1] at hk
    exact lt_of_lt_of_le (h.old k hk) q2
  · intro s hs
    rw [q1]
    rw [hs] at q3
    cases hw : w.p.stream with
    | none => rw [hw] at q3; cases q3
    | some s0 =>
      rw [hw] at q3
      have hid : s.id = s0.id := by simpa using q3
      rw [hid]
      exact h.live s0 hw

theorem closeCalls_Load (env : Env) (w : World) (path : String) :
    closeCalls (Load env w path).2.trace =
      closeCalls w.trace ++
        (match w.p.stream with
        | some st => [st.id]
        | none => []) := by
  obtain ⟨evs, h1, h2, -, -⟩ := Load_trace env w path
  have h3 := closeCalls_releasePrevious (w.log .muLock)
  have h4 : closeCalls (w.log .muLock).trace = closeCalls w.trace := by
    show closeCalls (w.trace ++ [Event.muLock]) = _
    rw [closeCalls_append]
    simp [closeCalls]
  have h5 : closeCalls (Event.osOpen path :: evs) = [] := by
    show closeCalls ([Event.osOpen path] ++ evs) = []
    rw [closeCalls_append, h2]; rfl
  rw [h1, closeCalls_append, h5, List.append_nil, h3, h4]
  rfl

theorem closedOnce_Load (env : Env) (w : World) (path : String) (h : ClosedOnce w)
    (hF : Fresh w) : ClosedOnce (Load env w path).2 := by
  have hcc := closeCalls_Load env w path
  have hmem : ∀ k ∈ closeCalls (Load env w path).2.trace, k < w.nextId := by
    intro k hk
    rw [hcc, List.mem_append] at hk
    rcases hk with hk | hk
    · exact h.old k hk
    · cases hst : w.p.stream with
      | none => rw [hst] at hk; cases hk
      | some st =>
        rw [hst] at hk
        have : k = st.id := by simpa using hk
        rw [this]
        exact hF.stream st hst
  have hnd : (closeCalls (Load env w path).2.trace).Nodup := by
    rw [hcc]
    cases hst : w.p.stream with
    | none => simpa using h.nodup
    | some st =>
      rw [List.nodup_append]
      refine ⟨h.nodup, List.nodup_singleton _, ?_⟩
      intro a ha hb
      have : a = st.id := by simpa using hb
      rw [this] at ha
      exact h.live st hst ha
  cases hd : (decodeFile env w path).1 with
  | error e =>
    obtain ⟨-, hp, -, hn, -⟩ := Load_error hd
    obtain ⟨g1, -⟩ := releasePrevious_p w
    refine ⟨hnd, fun k hk => by rw [hn]; exact hmem k hk, ?_⟩
    intro s hs
    rw [hp, g1] at hs
    cases hs
  | ok r =>
    obtain ⟨st, fmt⟩ := r
    obtain ⟨-, hp, -, hn, -⟩ := Load_ok hd
    refine ⟨hnd, fun k hk => by rw [hn]; exact lt_of_lt_of_le (hmem k hk) (by omega), ?_⟩
    intro s hs
    rw [hp] at hs
    have hid : s.id = w.nextId := by
      have : some s = some { st with id := w.nextId } := hs.symm.trans rfl
      cases this
      rfl
    intro hk
    have := hmem _ hk
    omega

theorem closedOnce_step (w : World) (op : Op) (h : ClosedOnce w) (hF : Fresh w) :
    ClosedOnce (step w op) := by
  cases op with
  | setVolume norm => exact closedOnce_of_quiet h (quiet_SetVolume w norm)
  | load env path => exact closedOnce_Load env w path h hF
  | play => exact closedOnce_of_quiet h (quiet_Play w)
  | pause => exact closedOnce_of_quiet h (quiet_Pause w)
  | stop env => exact closedOnce_of_quiet h (quiet_Stop env w)
  | seekRatio env r => exact closedOnce_of_quiet h (quiet_SeekRatio env w r)
  | seekBy env d => exact closedOnce_of_quiet h (quiet_SeekBy env w d)
  | seekTo env d => exact closedOnce_of_quiet h (quiet_SeekTo env w d)
  | pull n => exact closedOnce_of_quiet h (quiet_sinkPull w n)

theorem closedOnce_of_reachable {w : World} (h : Reachable w) : ClosedOnce w := by
  induction h with
  | init => exact closedOnce_init
  | step op hw ih => exact closedOnce_step _ op ih (fresh_of_reachable hw)

/-- The record of closed streams only grows. -/
theorem closeCalls_step (w : World) (op : Op) :
    ∃ more, closeCalls (step w op).trace = closeCalls w.trace ++ more := by
  cases op with
  | setVolume norm => exact ⟨[], by rw [List.append_nil]; exact (quiet_SetVolume w norm).1⟩
  | load env path => exact ⟨_, closeCalls_Load env w path⟩
  | play => exact ⟨[], by rw [List.append_nil]; exact (quiet_Play w).1⟩
  | pause => exact ⟨[], by rw [List.append_nil]; exact (quiet_Pause w).1⟩
  | stop env => exact ⟨[], by rw [List.append_nil]; exact (quiet_Stop env w).1⟩
  | seekRatio env r => exact ⟨[], by rw [List.append_nil]; exact (quiet_SeekRatio env w r).1⟩
  | seekBy env d => exact ⟨[], by rw [List.append_nil]; exact (quiet_SeekBy env w d).1⟩
  | seekTo env d => exact ⟨[], by rw [List.append_nil]; exact (quiet_SeekTo env w d).1⟩
  | pull n => exact ⟨[], by rw [List.append_nil]; exact (quiet_sinkPull w n).1⟩

theorem closeCalls_run (w : World) (ops : List Op) :
    ∃ more, closeCalls (run w ops).trace = closeCalls w.trace ++ more := by
  induction ops generalizing w with
  | nil => exact ⟨[], (List.append_nil _).symm⟩
  | cons op ops ih =>
    obtain ⟨m1, h1⟩ := closeCalls_step w op
    obtain ⟨m2, h2⟩ := ih (step w op)
    exact ⟨m1 ++ m2, by
      show closeCalls (run (step w op) ops).trace = _
      rw [h2, h1, List.append_assoc]⟩

/-- A stream that has been closed is closed once and is not part of the chain of
any later state. -/
theorem closed_stream_gone {w : World} (hw : Reachable w) {k : Nat}
    (hk : k ∈ closeCalls w.trace) (ops : List Op) :
    (closeCalls (run w ops).trace).count k = 1 ∧
    (∀ s, (run w ops).p.stream = some s → s.id ≠ k) ∧
    (∀ r, (run w ops).p.play = some r → r.src ≠ k) := by
  have hr := reachable_run hw ops
  have hc := closedOnce_of_reachable hr
  have hi := inv_of_reachable hr
  obtain ⟨more, hm⟩ := closeCalls_run w ops
  have hk2 : k ∈ closeCalls (run w ops).trace := by
    rw [hm]; exact List.mem_append_left _ hk
  have hs : ∀ s, (run w ops).p.stream = some s → s.id ≠ k := by
    intro s hs heq
    exact hc.live s hs (heq ▸ hk2)
  refine ⟨List.count_eq_one_of_mem hc.nodup hk2, hs, ?_⟩
  intro r hr2
  cases hst : (run w ops).p.stream with
  | none =>
    rw [(hi.empty hst).1] at hr2
    cases hr2
  | some s =>
    obtain ⟨r0, v0, c0, hp, -, -, -, -, hsrc, -⟩ := hi.chain s hst
    rw [hp] at hr2
    cases hr2
    rw [hsrc]
    exact hs s hst

/-- The events of a `Load` that finds a session. -/
theorem Load_loaded_trace (env : Env) {w : World} {st : Stream} {c : Ctrl} (path : String)
    (hst : w.p.stream = some st) (hc : w.p.ctrl = some c) :
    ∃ evs, (Load env w path).2.trace =
        w.trace ++ [.muLock, .speakerLock, .ctrlPaused c.id true, .speakerUnlock,
          .streamClose st.id, .osOpen path] ++ evs ∧
      closeCalls evs = [] ∧
      ((Load env w path).1 = none → evs.count Event.speakerClear = 1) ∧
      (∀ e, (Load env w path).1 = some e → Event.speakerClear ∉ evs) := by
  obtain ⟨evs, h1, h2, h3, h4⟩ := Load_trace env w path
  have hst1 : (w.log .muLock).p.stream = some st := hst
  have hc1 : (w.log .muLock).p.ctrl = some c := hc
  refine ⟨evs, ?_, h2, h3, h4⟩
  rw [h1, releasePrevious_loaded hst1 hc1]
  simp [World.log]

/-! ## The streams an operation touches -/

theorem streamRefs_append (a b : List Event) :
    streamRefs (a ++ b) = streamRefs a ++ streamRefs b := by
  simp [streamRefs, List.filterMap_append]

theorem streamRefs_of_decode {path : String} {evs : List Event}
    (h : ∀ e ∈ evs, e = Event.fileClose path ∨ ∃ c, e = Event.decode c path) :
    streamRefs evs = [] := by
  induction evs with
  | nil => rfl
  | cons e es ih =>
    have ih1 := ih (fun x hx => h x (List.mem_cons_of_mem _ hx))
    rcases h e (List.mem_cons_self _ _) with he | ⟨c, he⟩ <;> subst he
    · show streamRefs ([Event.fileClose path] ++ es) = []
      rw [streamRefs_append, ih1]; rfl
    · show streamRefs ([Event.decode c path] ++ es) = []
      rw [streamRefs_append, ih1]; rfl

theorem refs_logs (w : World) :
    ∃ evs, (w.logs [.muLock, .muUnlock]).trace = w.trace ++ evs ∧ streamRefs evs = [] :=
  ⟨[.muLock, .muUnlock], rfl, rfl⟩

theorem refs_SetVolume (w : World) (norm : ℚ) :
    ∃ evs, (SetVolume w norm).trace = w.trace ++ evs ∧ streamRefs evs = [] := by
  obtain ⟨⟨stream, play, vol, volNorm, ctrl, sr, started, current⟩, mixer, once, nextId, trace⟩ := w
  rcases vol with _ | v
  · exact ⟨[.muLock, .muUnlock], by simp [SetVolume, World.log], rfl⟩
  · exact ⟨[.muLock, .volWrite v.id, .muUnlock], by simp [SetVolume, World.log], rfl⟩

theorem refs_Play (w : World) :
    ∃ evs, (Play w).trace = w.trace ++ evs ∧ streamRefs evs = [] := by
  obtain ⟨⟨stream, play, vol, volNorm, ctrl, sr, started, current⟩, mixer, once, nextId, trace⟩ := w
  rcases stream with _ | st
  · exact ⟨[.muLock, .muUnlock], by simp [Play, World.log, World.logs], rfl⟩
  rcases ctrl with _ | c
  · exact ⟨[.muLock, .muUnlock], by simp [Play, World.log, World.logs], rfl⟩
  rcases started
  · exact ⟨[.muLock, .speakerPlay c.id, .speakerLock, .ctrlPaused c.id false,
      .speakerUnlock, .muUnlock], by simp [Play, setPaused, World.log, World.logs], rfl⟩
  · exact ⟨[.muLock, .speakerLock, .ctrlPaused c.id false,
      .speakerUnlock, .muUnlock], by simp [Play, setPaused, World.log, World.logs], rfl⟩

theorem refs_Pause (w : World) :
    ∃ evs, (Pause w).trace = w.trace ++ evs ∧ streamRefs evs = [] := by
  obtain ⟨⟨stream, play, vol, volNorm, ctrl, sr, started, current⟩, mixer, once, nextId, trace⟩ := w
  rcases ctrl with _ | c
  · exact ⟨[.muLock, .muUnlock], by simp [Pause, World.log, World.logs], rfl⟩
  · exact ⟨[.muLock, .speakerLock, .ctrlPaused c.id true, .speakerUnlock, .muUnlock],
      by simp [Pause, setPaused, World.log, World.logs], rfl⟩

theorem refs_Stop (env : Env) (w : World) :
    ∃ evs, (Stop env w).trace = w.trace ++ evs ∧
      ∀ k ∈ streamRefs evs, ∃ st, w.p.stream = some st ∧ k = st.id := by
  cases hst : w.p.stream with
  | none =>
    rw [Stop_noStream env hst]
    exact ⟨[.muLock, .muUnlock], rfl, fun k hk => by cases hk⟩
  | some st =>
    cases hc : w.p.ctrl with
    | none =>
      rw [Stop_noCtrl env hc]
      exact ⟨[.muLock, .muUnlock], rfl, fun k hk => by cases hk⟩
    | some c =>
      rw [Stop_loaded env hst hc]
      refine ⟨_, rfl, fun k hk => ⟨st, rfl, ?_⟩⟩
      simp [streamRefs] at hk
      exact hk

theorem refs_seekChain (env : Env) (w : World) (st : Stream) (target : Int) :
    ∃ evs, (seekChain env (w.log .muLock) st target).2.trace = w.trace ++ evs ∧
      ∀ k ∈ streamRefs evs, k = st.id := by
  obtain ⟨⟨stream, play, vol, volNorm, ctrl, sr, started, current⟩, mixer, once, nextId, trace⟩ := w
  cases h : env.seek st target with
  | some err =>
    refine ⟨[.muLock, .speakerLock, .streamSeek st.id target, .speakerUnlock, .muUnlock],
      by simp [seekChain, Stream.Seek, h, World.log, World.logs], fun k hk => ?_⟩
    simp [streamRefs] at hk
    exact hk
  | none =>
    rcases ctrl with _ | c
    · refine ⟨[.muLock, .speakerLock, .streamSeek st.id target, .resample nextId st.id,
          .newVolume (nextId + 1) nextId, .speakerUnlock, .muUnlock],
        by simp [seekChain, Stream.Seek, h, rebuild, retarget, mkResampler, mkVolume,
          World.log, World.logs], fun k hk => ?_⟩
      simp [streamRefs] at hk
      exact hk
    · refine ⟨[.muLock, .speakerLock, .streamSeek st.id target, .resample nextId st.id,
          .newVolume (nextId + 1) nextId, .ctrlStreamer c.id (nextId + 1), .speakerUnlock,
          .muUnlock],
        by simp [seekChain, Stream.Seek, h, rebuild, retarget, mkResampler, mkVolume,
          World.log, World.logs], fun k hk => ?_⟩
      simp [streamRefs] at hk
      exact hk

theorem refs_SeekRatio (env : Env) (w : World) (r : ℚ) :
    ∃ evs, ( SeekRatio env w r).2.trace = w.trace ++ evs ∧
      ∀ k ∈ streamRefs evs, ∃ st, w.p.stream = some st ∧ k = st.id := by
  cases hst : w.p.stream with
  | none =>
    rw [SeekRatio_noStream env r hst]
    exact ⟨[.muLock, .muUnlock], rfl, fun k hk => by cases hk⟩
  | some st =>
    by_cases hl : st.len ≤ 0
    · rw [SeekRatio_noLength env r hst hl]
      exact ⟨[.muLock, .muUnlock], rfl, fun k hk => by cases hk⟩
    · rw [SeekRatio_loaded env r hst (by omega)]
      obtain ⟨evs, h1, h2⟩ := refs_seekChain env w st (ratioTarget st.len r)
      exact ⟨evs, h1, fun k hk => ⟨st, rfl, h2 k hk⟩⟩

theorem refs_SeekBy (env : Env) (w : World) (d : Int) :
    ∃ evs, (SeekBy env w d).2.trace = w.trace ++ evs ∧
      ∀ k ∈ streamRefs evs, ∃ st, w.p.stream = some st ∧ k = st.id := by
  cases hst : w.p.stream with
  | none =>
    rw [SeekBy_noStream env d hst]
    exact ⟨[.muLock, .muUnlock], rfl, fun k hk => by cases hk⟩
  | some st =>
    by_cases hsr : w.p.sr = 0
    · rw [SeekBy_noRate env d hst hsr]
      exact ⟨[.muLock, .muUnlock], rfl, fun k hk => by cases hk⟩
    · rw [SeekBy_loaded env d hst hsr]
      obtain ⟨evs, h1, h2⟩ := refs_seekChain env w st
        (clampTarget st.len (st.pos + goInt (f64 (f64 (w.p.sr : ℚ) * seconds d))))
      exact ⟨evs, h1, fun k hk => ⟨st, rfl, h2 k hk⟩⟩

theorem refs_SeekTo (env : Env) (w : World) (d : Int) :
    ∃ evs, (SeekTo env w d).2.trace = w.trace ++ evs ∧
      ∀ k ∈ streamRefs evs, ∃ st, w.p.stream = some st ∧ k = st.id := by
  cases hst : w.p.stream with
  | none =>
    rw [SeekTo_noStream env d hst]
    exact ⟨[.muLock, .muUnlock], rfl, fun k hk => by cases hk⟩
  | some st =>
    by_cases hsr : w.p.sr = 0
    · rw [SeekTo_noRate env d hst hsr]
      exact ⟨[.muLock, .muUnlock], rfl, fun k hk => by cases hk⟩
    · rw [SeekTo_loaded env d hst hsr]
      obtain ⟨evs, h1, h2⟩ := refs_seekChain env w st
        (clampTarget st.len (goInt (f64 (f64 (w.p.sr : ℚ) * seconds d))))
      exact ⟨evs, h1, fun k hk => ⟨st, rfl, h2 k hk⟩⟩

theorem refs_releasePrevious (w : World) :
    ∃ pre, (releasePrevious w).trace = w.trace ++ pre ∧
      ∀ k ∈ streamRefs pre, ∃ st, w.p.stream = some st ∧ k = st.id := by
  obtain ⟨⟨stream, play, vol, volNorm, ctrl, sr, started, current⟩, mixer, once, nextId, trace⟩ := w
  rcases stream with _ | st
  · exact ⟨[], by simp [releasePrevious], fun k hk => by cases hk⟩
  rcases ctrl with _ | c
  · refine ⟨[.streamClose st.id], by simp [releasePrevious, World.log],
      fun k hk => ⟨st, rfl, ?_⟩⟩
    simp [streamRefs] at hk
    exact hk
  · refine ⟨[.speakerLock, .ctrlPaused c.id true, .speakerUnlock, .streamClose st.id],
      by simp [releasePrevious, setPaused, World.log, World.logs],
      fun k hk => ⟨st, rfl, ?_⟩⟩
    simp [streamRefs] at hk
    exact hk

theorem refs_Load_tail (once : Bool) (a b c d e f : Nat) :
    streamRefs ((if once then [] else [Event.speakerInit]) ++
      [Event.resample a b, Event.newVolume c d, Event.newCtrl e f, Event.speakerClear,
        Event.muUnlock]) = [b] := by
  cases once <;> rfl

/-- The events of `Load` after the release of the previous session: the `os.Open`,
then events that close no stream and touch none but the newly decoded one; the
sink is cleared among them once if `Load` succeeds and not at all if it fails. -/
theorem Load_events (env : Env) (w : World) (path : String) :
    ∃ evs, (Load env w path).2.trace =
        (releasePrevious (w.log .muLock)).trace ++ Event.osOpen path :: evs ∧
      closeCalls evs = [] ∧
      (∀ k ∈ streamRefs evs, k = w.nextId) ∧
      ((Load env w path).1 = none → evs.count Event.speakerClear = 1) ∧
      (∀ e, (Load env w path).1 = some e → Event.speakerClear ∉ evs) := by
  obtain ⟨evs, h1, h2, h3, h4⟩ := Load_trace env w path
  refine ⟨evs, h1, h2, ?_, h3, h4⟩
  obtain ⟨evs0, h0, hsh⟩ := decodeFile_shape env (releasePrevious (w.log .muLock)) path
  have hr0 := streamRefs_of_decode h0
  have hn : (releasePrevious (w.log .muLock)).nextId = w.nextId :=
    (releasePrevious_log w .muLock).2.1
  rcases hsh with ⟨err, hd⟩ | ⟨si, fmt, hd⟩
  · have ht : (Load env w path).2.trace =
        (releasePrevious (w.log .muLock)).trace ++
          Event.osOpen path :: (evs0 ++ [Event.muUnlock]) := by
      rw [Load_of_decode_error hd]
      simp [World.log]
    have he : evs = evs0 ++ [Event.muUnlock] := by
      have := h1.symm.trans ht
      simpa using this
    rw [he, streamRefs_append, hr0]
    intro k hk
    cases hk
  · generalize hw2 : ({ releasePrevious (w.log .muLock) with
        nextId := (releasePrevious (w.log .muLock)).nextId + 1,
        trace := (releasePrevious (w.log .muLock)).trace ++ Event.osOpen path :: evs0 } :
          World) = w2 at hd
    have htr : w2.trace = (releasePrevious (w.log .muLock)).trace ++
        Event.osOpen path :: evs0 := by subst hw2; rfl
    obtain ⟨-, -, -, -, h5⟩ := Load_of_decode_ok hd
    have ht : (Load env w path).2.trace =
        (releasePrevious (w.log .muLock)).trace ++ Event.osOpen path :: (evs0 ++
          ((if w2.speakerOnce then [] else [Event.speakerInit]) ++
            [Event.resample w2.nextId (releasePrevious (w.log .muLock)).nextId,
              Event.newVolume (w2.nextId + 1) w2.nextId,
              Event.newCtrl (w2.nextId + 2) (w2.nextId + 1), Event.speakerClear,
              Event.muUnlock])) := by
      rw [h5, htr]
      simp only [List.append_assoc, List.cons_append]
    have he := h1.symm.trans ht
    simp only [List.append_cancel_left_eq, List.cons.injEq, true_and] at he
    rw [he, streamRefs_append, hr0, List.nil_append, refs_Load_tail, hn]
    intro k hk
    simpa using hk

theorem refs_Load (env : Env) (w : World) (path : String) :
    ∃ evs, (Load env w path).2.trace = w.trace ++ evs ∧
      ∀ k ∈ streamRefs evs, (∃ st, w.p.stream = some st ∧ k = st.id) ∨ k = w.nextId := by
  obtain ⟨evs, h1, -, h3, -, -⟩ := Load_events env w path
  obtain ⟨pre, hp, hpre⟩ := refs_releasePrevious (w.log .muLock)
  refine ⟨Event.muLock :: (pre ++ Event.osOpen path :: evs), ?_, ?_⟩
  · rw [h1, hp]
    simp [World.log]
  · intro k hk
    have hk2 : k ∈ streamRefs pre ++ streamRefs evs := by
      have : streamRefs (Event.muLock :: (pre ++ Event.osOpen path :: evs)) =
          streamRefs pre ++ streamRefs evs := by
        show streamRefs ([Event.muLock] ++ (pre ++ ([Event.osOpen path] ++ evs))) = _
        rw [streamRefs_append, streamRefs_append, streamRefs_append]
        rfl
      rw [this] at hk
      exact hk
    rcases List.mem_append.1 hk2 with h | h
    · exact Or.inl (hpre k h)
    · exact Or.inr (h3 k h)

/-- One call touches no stream but the one the player holds when the call starts
and the one the call itself decodes. -/
theorem refs_step (w : World) (op : Op) :
    ∃ evs, (step w op).trace = w.trace ++ evs ∧
      ∀ k ∈ streamRefs evs, (∃ st, w.p.stream = some st ∧ k = st.id) ∨ k = w.nextId := by
  cases op with
  | setVolume norm =>
    obtain ⟨evs, h1, h2⟩ := refs_SetVolume w norm
    exact ⟨evs, h1, fun k hk => by rw [h2] at hk; cases hk⟩
  | load env path => exact refs_Load env w path
  | play =>
    obtain ⟨evs, h1, h2⟩ := refs_Play w
    exact ⟨evs, h1, fun k hk => by rw [h2] at hk; cases hk⟩
  | pause =>
    obtain ⟨evs, h1, h2⟩ := refs_Pause w
    exact ⟨evs, h1, fun k hk => by rw [h2] at hk; cases hk⟩
  | stop env =>
    obtain ⟨evs, h1, h2⟩ := refs_Stop env w
    exact ⟨evs, h1, fun k hk => Or.inl (h2 k hk)⟩
  | seekRatio env r =>
    obtain ⟨evs, h1, h2⟩ := refs_SeekRatio env w r
    exact ⟨evs, h1, fun k hk => Or.inl (h2 k hk)⟩
  | seekBy env d =>
    obtain ⟨evs, h1, h2⟩ := refs_SeekBy env w d
    exact ⟨evs, h1, fun k hk => Or.inl (h2 k hk)⟩
  | seekTo env d =>
    obtain ⟨evs, h1, h2⟩ := refs_SeekTo env w d
    exact ⟨evs, h1, fun k hk => Or.inl (h2 k hk)⟩
  | pull n =>
    refine ⟨[], ?_, fun k hk => by cases hk⟩
    obtain ⟨⟨stream, play, vol, volNorm, ctrl, sr, started, current⟩, mixer, once, nextId,
      trace⟩ := w
    rcases stream with _ | st <;> rcases ctrl with _ | c <;>
      simp only [step, sinkPull] <;> (try split_ifs) <;> simp

/-- A stream that has been closed is never closed, sought or wrapped in a
resampler by any later call. -/
theorem closed_stream_untouched {w : World} (hw : Reachable w) {k : Nat}
    (hk : k ∈ closeCalls w.trace) (ops : List Op) :
    ∃ more, (run w ops).trace = w.trace ++ more ∧ k ∉ streamRefs more := by
  induction ops generalizing w with
  | nil => exact ⟨[], (List.append_nil _).symm, fun h => by cases h⟩
  | cons op ops ih =>
    obtain ⟨evs, h1, h2⟩ := refs_step w op
    obtain ⟨m1, hm1⟩ := closeCalls_step w op
    have hk1 : k ∈ closeCalls (step w op).trace := by
      rw [hm1]; exact List.mem_append_left _ hk
    obtain ⟨more, h3, h4⟩ := ih (Reachable.step op hw) hk1
    have hc := closedOnce_of_reachable hw
    refine ⟨evs ++ more, ?_, ?_⟩
    · show (run (step w op) ops).trace = _
      rw [h3, h1, List.append_assoc]
    · rw [streamRefs_append]
      intro hmem
      rcases List.mem_append.1 hmem with h | h
      · rcases h2 k h with ⟨st, hst, rfl⟩ | rfl
        · exact hc.live st hst hk
        · exact absurd (hc.old _ hk) (lt_irrefl _)
      · exact h4 h

/-! ## Load releases the previous session -/

/-- C25 (counterexample): `Load` while `a.mp3` is playing (stream stamped 0 under
the resampler stamped 1 and the gain stage stamped 2, control stamped 3 in the
mixer). Reloading `a.mp3` succeeds: the old control is paused, the old stream is
closed and the file is opened while the control is still in the mixer, and
`speaker.Clear()` comes only after the new chain is built. Loading `missing.mp3`
fails in `os.Open`: `speaker.Clear()` is not called at all, the old control is
still in the mixer when `Load` returns, and `p.vol` still holds the gain stage
stamped 2 over the resampler of the closed stream. -/
theorem load_detaches_after_close :
    demoPlaying.p.stream = some ⟨0, 441000, 0⟩ ∧
    demoPlaying.p.play.map (fun r => (r.id, r.src)) = some (1, 0) ∧
    demoPlaying.p.vol.map (fun v => (v.id, v.Streamer)) = some (2, 1) ∧
    demoPlaying.p.ctrl = some ⟨3, 2, false⟩ ∧
    demoPlaying.mixer = [3] ∧
    (Load demoEnv demoPlaying "a.mp3").1 = none ∧
    (Load demoEnv demoPlaying "a.mp3").2.trace.drop demoPlaying.trace.length =
      [.muLock, .speakerLock, .ctrlPaused 3 true, .speakerUnlock, .streamClose 0,
        .osOpen "a.mp3", .decode .mp3 "a.mp3", .resample 5 4, .newVolume 6 5,
        .newCtrl 7 6, .speakerClear, .muUnlock] ∧
    (Load demoEnv demoPlaying "missing.mp3").1 = some "open: no such file or directory" ∧
    (Load demoEnv demoPlaying "missing.mp3").2.trace.drop demoPlaying.trace.length =
      [.muLock, .speakerLock, .ctrlPaused 3 true, .speakerUnlock, .streamClose 0,
        .osOpen "missing.mp3", .muUnlock] ∧
    (Load demoEnv demoPlaying "missing.mp3").2.mixer = [3] ∧
    (Load demoEnv demoPlaying "missing.mp3").2.p.stream = none ∧
    (Load demoEnv demoPlaying "missing.mp3").2.p.vol.map (fun v => (v.id, v.Streamer)) =
      some (2, 1) := by
  decide

/-- C25 (amended): in every reachable state with a stream `st`, and for every path,
`Load` takes the mutex, sets the old control's `Paused` under the sink lock, then
closes `st`, and only then calls `os.Open(path)`, whether or not the rest
succeeds; among the events that follow no stream is closed and `st` is neither
sought nor wrapped in a resampler. A successful `Load` calls `speaker.Clear()`
exactly once among them, leaves the mixer empty, and replaces stream, resampler,
gain stage and control by new records (stamps `nextId` to `nextId + 3`, none of
them held before); a failed `Load` does not call `speaker.Clear()`, leaves the
mixer as it was and `p.vol` as it was, and empties stream, resampler and control.
In every later state `st` has been closed exactly once, is neither the player's
stream nor the source of its resampler, and no later call closes it, seeks it or
wraps it in a resampler. -/
theorem load_releases_previous_session (env : Env) (w : World) (st : Stream)
    (path : String) (hw : Reachable w) (hst : w.p.stream = some st) :
    ∃ c evs, w.p.ctrl = some c ∧
      (Load env w path).2.trace =
        w.trace ++ [.muLock, .speakerLock, .ctrlPaused c.id true, .speakerUnlock,
          .streamClose st.id, .osOpen path] ++ evs ∧
      closeCalls evs = [] ∧
      st.id ∉ streamRefs evs ∧
      ((Load env w path).1 = none →
        evs.count Event.speakerClear = 1 ∧ (Load env w path).2.mixer = [] ∧
        (Load env w path).2.p.stream.map (fun s => s.id) = some w.nextId ∧
        (Load env w path).2.p.play.map (fun r => (r.id, r.src)) =
          some (w.nextId + 1, w.nextId) ∧
        (Load env w path).2.p.vol.map (fun v => (v.id, v.Streamer)) =
          some (w.nextId + 2, w.nextId + 1) ∧
        (Load env w path).2.p.ctrl.map (fun k => (k.id, k.Streamer)) =
          some (w.nextId + 3, w.nextId + 2) ∧
        st.id < w.nextId ∧
        (∀ r, w.p.play = some r → r.id < w.nextId) ∧
        (∀ v, w.p.vol = some v → v.id < w.nextId) ∧
        (∀ k, w.p.ctrl = some k → k.id < w.nextId)) ∧
      (∀ e, (Load env w path).1 = some e →
        Event.speakerClear ∉ evs ∧ (Load env w path).2.mixer = w.mixer ∧
        (Load env w path).2.p.vol = w.p.vol ∧
        (Load env w path).2.p.stream = none ∧ (Load env w path).2.p.play = none ∧
        (Load env w path).2.p.ctrl = none) ∧
      st.id ∉ closeCalls w.trace ∧
      ∀ ops : List Op,
        (closeCalls (run (Load env w path).2 ops).trace).count st.id = 1 ∧
        (∀ s, (run (Load env w path).2 ops).p.stream = some s → s.id ≠ st.id) ∧
        (∀ r, (run (Load env w path).2 ops).p.play = some r → r.src ≠ st.id) ∧
        ∃ more, (run (Load env w path).2 ops).trace = (Load env w path).2.trace ++ more ∧
          st.id ∉ streamRefs more := by
  obtain ⟨r, v, c, -, -, hc, -⟩ := (inv_of_reachable hw).chain st hst
  obtain ⟨evs, h1, h2, h3, h4, h5⟩ := Load_events env w path
  have hst1 : (w.log .muLock).p.stream = some st := hst
  have hc1 : (w.log .muLock).p.ctrl = some c := hc
  have hf := fresh_of_reachable hw
  have hr : Reachable (Load env w path).2 := Reachable.step (.load env path) hw
  have hk : st.id ∈ closeCalls (Load env w path).2.trace := by
    rw [closeCalls_Load, hst]
    simp
  refine ⟨c, evs, hc, ?_, h2, ?_, ?_, ?_, (closedOnce_of_reachable hw).live st hst,
    fun ops => ?_⟩
  · rw [h1, releasePrevious_loaded hst1 hc1]
    simp [World.log]
  · intro hmem
    exact absurd (h3 _ hmem ▸ hf.stream st hst) (lt_irrefl _)
  · intro hnone
    cases hd : (decodeFile env w path).1 with
    | error e =>
      rw [(Load_error hd).1] at hnone
      cases hnone
    | ok res =>
      obtain ⟨s1, fmt⟩ := res
      obtain ⟨-, g2, g3, -, -⟩ := Load_ok hd
      refine ⟨h4 hnone, g3, ?_, ?_, ?_, ?_, hf.stream st hst, hf.play, hf.vol, hf.ctrl⟩ <;>
        rw [g2] <;> rfl
  · intro e he
    cases hd : (decodeFile env w path).1 with
    | ok res =>
      obtain ⟨s1, fmt⟩ := res
      rw [(Load_ok hd).1] at he
      cases he
    | error e1 =>
      obtain ⟨-, g2, g3, -, -⟩ := Load_error hd
      refine ⟨h5 e he, g3, ?_, ?_, ?_, ?_⟩ <;>
        rw [g2, releasePrevious_loaded hst hc]
  · obtain ⟨a, b, d⟩ := closed_stream_gone hr hk ops
    exact ⟨a, b, d, closed_stream_untouched hr hk ops⟩

/-- C25 (witness): reloading `a.mp3` while it plays, followed by `Play()`, a seek
and a `Stop()`; and a failed `Load` of `missing.mp3` while `a.mp3` plays. -/
theorem load_releases_previous_session_witness :
    Reachable demoPlaying ∧ demoPlaying.p.stream = some ⟨0, 441000, 0⟩ ∧
    (closeCalls (run (Load demoEnv demoPlaying "a.mp3").2
      [.play, .seekRatio demoEnv 1, .stop demoEnv]).trace).count 0 = 1 ∧
    (∀ s, (run (Load demoEnv demoPlaying "a.mp3").2
      [.play, .seekRatio demoEnv 1, .stop demoEnv]).p.stream = some s → s.id ≠ 0) ∧
    (∃ more, (run (Load demoEnv demoPlaying "a.mp3").2
        [.play, .seekRatio demoEnv 1, .stop demoEnv]).trace =
          (Load demoEnv demoPlaying "a.mp3").2.trace ++ more ∧ 0 ∉ streamRefs more) ∧
    (Load demoEnv demoPlaying "a.mp3").2.p.vol.map (fun v => (v.id, v.Streamer)) =
      some (6, 5) ∧
    (Load demoEnv demoPlaying "missing.mp3").2.p.vol = demoPlaying.p.vol := by
  have hR : Reachable demoPlaying := reachable_run Reachable.init _
  have hst : demoPlaying.p.stream = some ⟨0, 441000, 0⟩ := by decide
  have h1 := load_releases_previous_session demoEnv demoPlaying _ "a.mp3" hR hst
  have h2 := load_releases_previous_session demoEnv demoPlaying _ "missing.mp3" hR hst
  obtain ⟨c, evs, -, -, -, -, hs, -, -, h⟩ := h1
  obtain ⟨c2, evs2, -, -, -, -, -, hfail, -, -⟩ := h2
  exact ⟨hR, hst, (h _).1, (h _).2.1, (h _).2.2.2,
    (hs (by decide)).2.2.2.2.1,
    (hfail "open: no such file or directory" (by decide)).2.2.1⟩

/-! ## Lock discipline -/

theorem lockScan_append (swap : Bool) (l : Locks) (a b : List Event) :
    lockScan swap l (a ++ b) = (lockScan swap l a).bind fun l1 => lockScan swap l1 b := by
  induction a generalizing l with
  | nil => rfl
  | cons e es ih =>
    show (lockStep swap l e).bind _ = ((lockStep swap l e).bind _).bind _
    cases lockStep swap l e with
    | none => rfl
    | some l1 => exact ih l1

theorem lockScan_of_decode (swap : Bool) {path : String} {evs : List Event}
    (h : ∀ e ∈ evs, e = Event.fileClose path ∨ ∃ c, e = Event.decode c path) :
    lockScan swap ⟨true, false, false⟩ evs = some ⟨true, false, false⟩ := by
  induction evs with
  | nil => rfl
  | cons e es ih =>
    have ih2 := ih (fun x hx => h x (List.mem_cons_of_mem _ hx))
    rcases h e (List.mem_cons_self _ _) with he | ⟨c, he⟩ <;> subst he <;> exact ih2

theorem lock_SetVolume (w : World) (norm : ℚ) :
    ∃ evs, (SetVolume w norm).trace = w.trace ++ evs ∧
      lockScan true Locks.free evs = some Locks.free := by
  obtain ⟨⟨stream, play, vol, volNorm, ctrl, sr, started, current⟩, mixer, once, nextId, trace⟩ := w
  rcases vol with _ | v
  · exact ⟨[.muLock, .muUnlock], by simp [SetVolume, World.log], rfl⟩
  · exact ⟨[.muLock, .volWrite v.id, .muUnlock], by simp [SetVolume, World.log], rfl⟩

theorem lock_Play (w : World) :
    ∃ evs, (Play w).trace = w.trace ++ evs ∧
      lockScan true Locks.free evs = some Locks.free := by
  obtain ⟨⟨stream, play, vol, volNorm, ctrl, sr, started, current⟩, mixer, once, nextId, trace⟩ := w
  rcases stream with _ | st
  · exact ⟨[.muLock, .muUnlock], by simp [Play, World.log, World.logs], rfl⟩
  rcases ctrl with _ | c
  · exact ⟨[.muLock, .muUnlock], by simp [Play, World.log, World.logs], rfl⟩
  rcases started
  · exact ⟨[.muLock, .speakerPlay c.id, .speakerLock, .ctrlPaused c.id false,
      .speakerUnlock, .muUnlock], by simp [Play, setPaused, World.log, World.logs], rfl⟩
  · exact ⟨[.muLock, .speakerLock, .ctrlPaused c.id false,
      .speakerUnlock, .muUnlock], by simp [Play, setPaused, World.log, World.logs], rfl⟩

theorem lock_Pause (w : World) :
    ∃ evs, (Pause w).trace = w.trace ++ evs ∧
      lockScan true Locks.free evs = some Locks.free := by
  obtain ⟨⟨stream, play, vol, volNorm, ctrl, sr, started, current⟩, mixer, once, nextId, trace⟩ := w
  rcases ctrl with _ | c
  · exact ⟨[.muLock, .muUnlock], by simp [Pause, World.log, World.logs], rfl⟩
  · exact ⟨[.muLock, .speakerLock, .ctrlPaused c.id true, .speakerUnlock, .muUnlock],
      by simp [Pause, setPaused, World.log, World.logs], rfl⟩

theorem lock_logs (w : World) :
    ∃ evs, (w.logs [.muLock, .muUnlock]).trace = w.trace ++ evs ∧
      lockScan true Locks.free evs = some Locks.free :=
  ⟨[.muLock, .muUnlock], rfl, rfl⟩

theorem lock_Stop (env : Env) (w : World) :
    ∃ evs, (Stop env w).trace = w.trace ++ evs ∧
      lockScan true Locks.free evs = some Locks.free := by
  cases hst : w.p.stream with
  | none => rw [Stop_noStream env hst]; exact lock_logs w
  | some st =>
    cases hc : w.p.ctrl with
    | none => rw [Stop_noCtrl env hc]; exact lock_logs w
    | some c =>
      rw [Stop_loaded env hst hc]
      exact ⟨_, rfl, rfl⟩

theorem lock_seekChain (env : Env) (w : World) (st : Stream) (c : Ctrl) (target : Int)
    (hc : w.p.ctrl = some c) :
    ∃ evs, (seekChain env (w.log .muLock) st target).2.trace = w.trace ++ evs ∧
      lockScan true Locks.free evs = some Locks.free := by
  obtain ⟨⟨stream, play, vol, volNorm, ctrl, sr, started, current⟩, mixer, once, nextId, trace⟩ := w
  dsimp only at hc
  subst hc
  cases h : env.seek st target with
  | some err =>
    exact ⟨[.muLock, .speakerLock, .streamSeek st.id target, .speakerUnlock, .muUnlock],
      by simp [seekChain, Stream.Seek, h, World.log, World.logs], rfl⟩
  | none =>
    exact ⟨[.muLock, .speakerLock, .streamSeek st.id target, .resample nextId st.id,
        .newVolume (nextId + 1) nextId, .ctrlStreamer c.id (nextId + 1), .speakerUnlock,
        .muUnlock],
      by simp [seekChain, Stream.Seek, h, rebuild, retarget, mkResampler, mkVolume,
        World.log, World.logs], rfl⟩

theorem lock_SeekRatio (env : Env) (w : World) (r : ℚ) (hw : Reachable w) :
    ∃ evs, ( SeekRatio env w r).2.trace = w.trace ++ evs ∧
      lockScan true Locks.free evs = some Locks.free := by
  cases hst : w.p.stream with
  | none => rw [SeekRatio_noStream env r hst]; exact lock_logs w
  | some st =>
    obtain ⟨_, _, c, -, -, hc, -⟩ := (inv_of_reachable hw).chain st hst
    by_cases hl : st.len ≤ 0
    · rw [SeekRatio_noLength env r hst hl]; exact lock_logs w
    · rw [SeekRatio_loaded env r hst (by omega)]
      exact lock_seekChain env w st c _ hc

theorem lock_SeekBy (env : Env) (w : World) (d : Int) (hw : Reachable w) :
    ∃ evs, (SeekBy env w d).2.trace = w.trace ++ evs ∧
      lockScan true Locks.free evs = some Locks.free := by
  cases hst : w.p.stream with
  | none => rw [SeekBy_noStream env d hst]; exact lock_logs w
  | some st =>
    obtain ⟨_, _, c, -, -, hc, -⟩ := (inv_of_reachable hw).chain st hst
    by_cases hsr : w.p.sr = 0
    · rw [SeekBy_noRate env d hst hsr]; exact lock_logs w
    · rw [SeekBy_loaded env d hst hsr]
      exact lock_seekChain env w st c _ hc

theorem lock_SeekTo (env : Env) (w : World) (d : Int) (hw : Reachable w) :
    ∃ evs, (SeekTo env w d).2.trace = w.trace ++ evs ∧
      lockScan true Locks.free evs = some Locks.free := by
  cases hst : w.p.stream with
  | none => rw [SeekTo_noStream env d hst]; exact lock_logs w
  | some st =>
    obtain ⟨_, _, c, -, -, hc, -⟩ := (inv_of_reachable hw).chain st hst
    by_cases hsr : w.p.sr = 0
    · rw [SeekTo_noRate env d hst hsr]; exact lock_logs w
    · rw [SeekTo_loaded env d hst hsr]
      exact lock_seekChain env w st c _ hc

theorem lock_sinkPull (w : World) (n : Nat) : (sinkPull w n).trace = w.trace := by
  obtain ⟨⟨stream, play, vol, volNorm, ctrl, sr, started, current⟩, mixer, once, nextId, trace⟩ := w
  rcases stream with _ | st <;> rcases ctrl with _ | c
  all_goals first
    | rfl
    | (unfold sinkPull; dsimp only; split_ifs <;> rfl)

theorem lock_releasePrevious (w : World) :
    ∃ pre, (releasePrevious w).trace = w.trace ++ pre ∧
      lockScan false ⟨true, false, false⟩ pre = some ⟨true, false, false⟩ := by
  obtain ⟨⟨stream, play, vol, volNorm, ctrl, sr, started, current⟩, mixer, once, nextId, trace⟩ := w
  rcases stream with _ | st
  · exact ⟨[], by simp [releasePrevious], rfl⟩
  rcases ctrl with _ | c
  · exact ⟨[.streamClose st.id], by simp [releasePrevious, World.log], rfl⟩
  · exact ⟨[.speakerLock, .ctrlPaused c.id true, .speakerUnlock, .streamClose st.id],
      by simp [releasePrevious, setPaused, World.log, World.logs], rfl⟩

theorem lock_Load_tail (once : Bool) (a b c d e f : Nat) :
    lockScan false ⟨true, false, false⟩ ((if once then [] else [Event.speakerInit]) ++
      [Event.resample a b, Event.newVolume c d, Event.newCtrl e f, Event.speakerClear,
        Event.muUnlock]) = some Locks.free := by
  cases once <;> rfl

theorem lock_Load (env : Env) (w : World) (path : String) :
    ∃ evs, (Load env w path).2.trace = w.trace ++ evs ∧
      lockScan false Locks.free evs = some Locks.free := by
  obtain ⟨pre, hp1, hp2⟩ := lock_releasePrevious (w.log .muLock)
  have hp3 : (releasePrevious (w.log .muLock)).trace = w.trace ++ (Event.muLock :: pre) := by
    rw [hp1]
    simp [World.log]
  obtain ⟨evs0, h0, hsh⟩ := decodeFile_shape env (releasePrevious (w.log .muLock)) path
  have hd0 := lockScan_of_decode false h0
  have hhead : ∀ tail, lockScan false Locks.free
      (Event.muLock :: pre ++ Event.osOpen path :: (evs0 ++ tail)) =
      lockScan false ⟨true, false, false⟩ tail := by
    intro tail
    show lockScan false ⟨true, false, false⟩ (pre ++ Event.osOpen path :: (evs0 ++ tail)) = _
    rw [lockScan_append, hp2]
    show lockScan false ⟨true, false, false⟩ (evs0 ++ tail) = _
    rw [lockScan_append, hd0]
    rfl
  rcases hsh with ⟨err, hd⟩ | ⟨si, fmt, hd⟩
  · rw [Load_of_decode_error hd]
    refine ⟨Event.muLock :: pre ++ Event.osOpen path :: (evs0 ++ [.muUnlock]), ?_, ?_⟩
    · show ((releasePrevious (w.log .muLock)).trace ++ Event.osOpen path :: evs0) ++
        [Event.muUnlock] = _
      rw [hp3]
      simp only [List.append_assoc, List.cons_append]
    · rw [hhead]; rfl
  · generalize hw2 : ({ releasePrevious (w.log .muLock) with
        nextId := (releasePrevious (w.log .muLock)).nextId + 1,
        trace := (releasePrevious (w.log .muLock)).trace ++ Event.osOpen path :: evs0 } :
          World) = w2 at hd
    have htr : w2.trace = (releasePrevious (w.log .muLock)).trace ++
        Event.osOpen path :: evs0 := by subst hw2; rfl
    obtain ⟨-, -, -, -, h5⟩ := Load_of_decode_ok hd
    refine ⟨Event.muLock :: pre ++ Event.osOpen path :: (evs0 ++
      ((if w2.speakerOnce then [] else [Event.speakerInit]) ++
        [Event.resample w2.nextId (releasePrevious (w.log .muLock)).nextId,
          Event.newVolume (w2.nextId + 1) w2.nextId,
          Event.newCtrl (w2.nextId + 2) (w2.nextId + 1), Event.speakerClear,
          Event.muUnlock])), ?_, ?_⟩
    · rw [h5, htr, hp3]
      simp only [List.append_assoc, List.cons_append]
    · rw [hhead]
      exact lock_Load_tail _ _ _ _ _ _ _

/-- Every operation on a reachable player brackets its events: it takes the mutex
first and returns with the mutex and the sink lock released on every path; it
writes a control's `Paused` and `Streamer` and seeks the stream only under the sink
lock; `Stop` and the seeks build the new resampler and gain stage and point the
control at them inside one section under the sink lock; it calls
`speaker.Play`, `speaker.Clear` and `speaker.Init` with the sink lock free. -/
theorem lock_discipline (w : World) (op : Op) (hw : Reachable w) :
    ∃ evs, (step w op).trace = w.trace ++ evs ∧
      (evs = [] ∨ lockScan op.swaps Locks.free evs = some Locks.free) := by
  cases op with
  | setVolume norm =>
    obtain ⟨evs, h1, h2⟩ := lock_SetVolume w norm
    exact ⟨evs, h1, Or.inr h2⟩
  | load env path =>
    obtain ⟨evs, h1, h2⟩ := lock_Load env w path
    exact ⟨evs, h1, Or.inr h2⟩
  | play =>
    obtain ⟨evs, h1, h2⟩ := lock_Play w
    exact ⟨evs, h1, Or.inr h2⟩
  | pause =>
    obtain ⟨evs, h1, h2⟩ := lock_Pause w
    exact ⟨evs, h1, Or.inr h2⟩
  | stop env =>
    obtain ⟨evs, h1, h2⟩ := lock_Stop env w
    exact ⟨evs, h1, Or.inr h2⟩
  | seekRatio env r =>
    obtain ⟨evs, h1, h2⟩ := lock_SeekRatio env w r hw
    exact ⟨evs, h1, Or.inr h2⟩
  | seekBy env d =>
    obtain ⟨evs, h1, h2⟩ := lock_SeekBy env w d hw
    exact ⟨evs, h1, Or.inr h2⟩
  | seekTo env d =>
    obtain ⟨evs, h1, h2⟩ := lock_SeekTo env w d hw
    exact ⟨evs, h1, Or.inr h2⟩
  | pull n => exact ⟨[], by rw [List.append_nil]; exact lock_sinkPull w n, Or.inl rfl⟩

/-! ## The current file -/

theorem step_current (w : World) (op : Op) :
    (step w op).p.current =
      (match op with
      | .load env path => if (Load env w path).1 = none then path else w.p.current
      | _ => w.p.current) := by
  cases op with
  | setVolume norm =>
    show (SetVolume w norm).p.current = w.p.current
    rw [(SetVolume_p w norm).1]
  | load env path =>
    show (Load env w path).2.p.current =
      if (Load env w path).1 = none then path else w.p.current
    cases hd : (decodeFile env w path).1 with
    | error e =>
      obtain ⟨h1, h2, -⟩ := Load_error hd
      rw [h1, h2, if_neg (by simp)]
      exact (releasePrevious_p w).2.2.2.2.2.1
    | ok res =>
      obtain ⟨st, fmt⟩ := res
      obtain ⟨h1, h2, -⟩ := Load_ok hd
      rw [h1, h2, if_pos rfl]
  | play =>
    obtain ⟨⟨stream, play, vol, volNorm, ctrl, sr, started, current⟩, mixer, once, nextId, trace⟩ := w
    rcases stream with _ | st <;> rcases ctrl with _ | c <;> rcases started <;>
      simp [step, Play, setPaused, World.log, World.logs]
  | pause =>
    obtain ⟨⟨stream, play, vol, volNorm, ctrl, sr, started, current⟩, mixer, once, nextId, trace⟩ := w
    rcases ctrl with _ | c <;> simp [step, Pause, setPaused, World.log, World.logs]
  | stop env =>
    obtain ⟨⟨stream, play, vol, volNorm, ctrl, sr, started, current⟩, mixer, once, nextId, trace⟩ := w
    rcases stream with _ | st <;> rcases ctrl with _ | c <;>
      simp [step, Stop, setPaused, rebuild, retarget, mkResampler, mkVolume, World.log,
        World.logs]
  | seekRatio env r => exact (SeekRatio_frame env w r).current
  | seekBy env d => exact (SeekBy_frame env w d).current
  | seekTo env d => exact (SeekTo_frame env w d).current
  | pull n =>
    obtain ⟨⟨stream, play, vol, volNorm, ctrl, sr, started, current⟩, mixer, once, nextId, trace⟩ := w
    rcases stream with _ | st <;> rcases ctrl with _ | c
    all_goals first
      | rfl
      | (show (sinkPull _ n).p.current = _; unfold sinkPull; dsimp only; split_ifs <;> rfl)

theorem run_current (w : World) (ops : List Op) :
    (run w ops).p.current = lastLoaded w w.p.current ops := by
  induction ops generalizing w with
  | nil => rfl
  | cons op ops ih =>
    show (run (step w op) ops).p.current = lastLoaded (step w op) _ ops
    rw [ih (step w op), step_current]

theorem stream_step (w : World) (op : Op) (s : Stream) (h : (step w op).p.stream = some s) :
    (∃ s0, w.p.stream = some s0) ∨
      ∃ env path, op = .load env path ∧ (Load env w path).1 = none := by
  have key : ∀ w1 : World, w1.p.stream = some s →
      w1.p.stream.map (fun s => s.id) = w.p.stream.map (fun s => s.id) →
      ∃ s0, w.p.stream = some s0 := by
    intro w1 h1 h2
    rw [h1] at h2
    cases hw : w.p.stream with
    | none => rw [hw] at h2; cases h2
    | some s0 => exact ⟨s0, rfl⟩
  cases op with
  | setVolume norm => exact Or.inl (key _ h (quiet_SetVolume w norm).2.2)
  | load env path =>
    right
    refine ⟨env, path, rfl, ?_⟩
    cases hd : (decodeFile env w path).1 with
    | error e =>
      obtain ⟨-, h2, -⟩ := Load_error hd
      have h3 : (Load env w path).2.p.stream = some s := h
      rw [h2, (releasePrevious_p w).1] at h3
      cases h3
    | ok res =>
      obtain ⟨st, fmt⟩ := res
      exact (Load_ok hd).1
  | play => exact Or.inl (key _ h (quiet_Play w).2.2)
  | pause => exact Or.inl (key _ h (quiet_Pause w).2.2)
  | stop env => exact Or.inl (key _ h (quiet_Stop env w).2.2)
  | seekRatio env r => exact Or.inl (key _ h (quiet_SeekRatio env w r).2.2)
  | seekBy env d => exact Or.inl (key _ h (quiet_SeekBy env w d).2.2)
  | seekTo env d => exact Or.inl (key _ h (quiet_SeekTo env w d).2.2)
  | pull n => exact Or.inl (key _ h (quiet_sinkPull w n).2.2)

theorem current_ne_of_stream {w : World} (hw : Reachable w) :
    ∀ st, w.p.stream = some st → w.p.current ≠ "" := by
  induction hw with
  | init => intro st h; cases h
  | @step w0 op _ ih =>
    intro st h
    rw [step_current]
    rcases stream_step w0 op st h with ⟨s0, hs0⟩ | ⟨env, path, rfl, hl⟩
    · cases op with
      | load env path =>
        dsimp only
        split_ifs with hl
        · cases hd : (decodeFile env w0 path).1 with
          | error e => rw [(Load_error hd).1] at hl; cases hl
          | ok res =>
            obtain ⟨s1, fmt⟩ := res
            exact decodeFile_ok_path_ne hd
        · exact ih s0 hs0
      | setVolume norm => exact ih s0 hs0
      | play => exact ih s0 hs0
      | pause => exact ih s0 hs0
      | stop env => exact ih s0 hs0
      | seekRatio env r => exact ih s0 hs0
      | seekBy env d => exact ih s0 hs0
      | seekTo env d => exact ih s0 hs0
      | pull n => exact ih s0 hs0
    · dsimp only
      rw [if_pos hl]
      cases hd : (decodeFile env w0 path).1 with
      | error e => rw [(Load_error hd).1] at hl; cases hl
      | ok res =>
        obtain ⟨s1, fmt⟩ := res
        exact decodeFile_ok_path_ne hd

/-- C8 (amended): after every sequence of operations on a new player,
`CurrentFile()` returns the path of the last `Load` that returned no error, and the
error "parça yok" only when there has been none; so it returns that path, without
error, whenever a stream is loaded, and keeps returning it when a later `Load` has
failed and left the player without a stream. -/
theorem currentFile_is_last_loaded (ops : List Op) :
    CurrentFile (run World.init ops).p =
      (if lastLoaded World.init "" ops = "" then .error "parça yok"
       else .ok (lastLoaded World.init "" ops)) ∧
    (∀ st, (run World.init ops).p.stream = some st →
      lastLoaded World.init "" ops ≠ "" ∧
      CurrentFile (run World.init ops).p = .ok (lastLoaded World.init "" ops)) ∧
    (∀ env path, (Load env (run World.init ops) path).1 ≠ none →
      CurrentFile (Load env (run World.init ops) path).2.p =
        CurrentFile (run World.init ops).p) := by
  have hc : (run World.init ops).p.current = lastLoaded World.init "" ops :=
    run_current World.init ops
  have h1 : CurrentFile (run World.init ops).p =
      (if lastLoaded World.init "" ops = "" then .error "parça yok"
       else .ok (lastLoaded World.init "" ops)) := by
    unfold CurrentFile
    rw [hc]
    rfl
  refine ⟨h1, ?_, ?_⟩
  · intro st hst
    have hne := current_ne_of_stream (reachable_run Reachable.init ops) st hst
    rw [hc] at hne
    exact ⟨hne, by rw [h1, if_neg hne]⟩
  · intro env path hl
    have := step_current (run World.init ops) (.load env path)
    dsimp only at this
    rw [if_neg hl] at this
    unfold CurrentFile
    have e : (Load env (run World.init ops) path).2.p.current =
        (run World.init ops).p.current := this
    rw [e]

end Opentify
